import Mathlib

/-!
libzmq 4.2.3: REQ socket, REQ session, socket poller and I/O thread.

A shallow embedding of `req.cpp`, `socket_poller.cpp` and `io_thread_t::in_event` of
`io_thread.cpp`.  Return codes are
modelled by `Res`: `ok a` is a return of 0 (or of a count) with out-value `a`,
`err e` is a return of -1 with `errno = e`, and `abort` is a failed
`zmq_assert` / `errno_assert`.

Loops are written with an explicit iteration bound and return `none` when the
bound is exhausted.  The loops of the REQ socket consume the input queue of the
router and are run with the bound `queue length + 1`, which the lemmas below
show to be sufficient.  The loops of `socket_poller_t::wait` and of
`io_thread_t::in_event` can run forever (infinite timeout with nothing ready, a mailbox
that is interrupted again and again), so they take their bound as an argument.
-/

namespace zmq

/-- The errno values used by the embedded code. -/
inductive Errno where
  | EFSM | EAGAIN | EFAULT | EINVAL | EINTR | ENOTSUP | EBADF | ENOTSOCK | ETERM
deriving DecidableEq, Repr

/-- Result of a call: success with a value, -1 with an errno, or a failed assertion. -/
inductive Res (α : Type) where
  | ok (a : α)
  | err (e : Errno)
  | abort
deriving DecidableEq, Repr

/-- A byte of payload. -/
abbrev Byte := Fin 256

/-- A message frame: the flag byte and the payload. -/
structure msg_t where
  flags : Nat
  data : List Byte
deriving DecidableEq, Repr

namespace msg_t

/-- The `msg_t::more` flag bit. -/
def more : Nat := 1

/-- The size of the payload, `msg_->size ()`. -/
def size (m : msg_t) : Nat := m.data.length

/-- The test `msg_->flags () & msg_t::more`. -/
def has_more (m : msg_t) : Bool := m.flags &&& more != 0

/-- A frame after `init ()`: no flags, empty payload. -/
def init : msg_t := { flags := 0, data := [] }

/-- The effect of `set_flags (f)`. -/
def set_flags (m : msg_t) (f : Nat) : msg_t := { m with flags := m.flags ||| f }

end msg_t

/-- The bytes of a `uint32_t` in memory (little-endian host). -/
def u32_bytes (v : Nat) : List Byte :=
  [Fin.ofNat v, Fin.ofNat (v / 256), Fin.ofNat (v / 65536), Fin.ofNat (v / 16777216)]

/-- Reading a `uint32_t` from the first four payload bytes (little-endian host). -/
def u32_read (bs : List Byte) : Nat :=
  match bs with
  | b0 :: b1 :: b2 :: b3 :: _ => b0.val + 256 * b1.val + 65536 * b2.val + 16777216 * b3.val
  | _ => 0

/-- Identity of a pipe (`pipe_t *`); the null pointer is `none : Option pipe_t`. -/
abbrev pipe_t := Nat

/-- One interaction of the REQ socket with the underlying router. -/
inductive router_ev where
  | sent (m : msg_t) (p : pipe_t)
  | send_failed (m : msg_t)
  | received (p : pipe_t) (m : msg_t)
  | recv_failed
  | terminated (p : pipe_t)
  | has_in_queried
  | has_out_queried
  | setsockopt (option_ : Int) (optval_ : List Byte)
deriving DecidableEq, Repr

/-- Modelled from the spec: `dealer_t`, the router capability under the REQ socket,
is not part of the sources.  It offers "send to any available pipe, telling which pipe
was used" and "receive from any pipe, telling the source pipe".  `inq` is the queue of
frames that can be read without blocking, each with its source pipe; `out n` is the
pipe that accepts the next frame once `n` frames have been accepted (`none`: the send
fails with EAGAIN); `log` records every call made on the router, in order. -/
structure dealer_t where
  inq : List (pipe_t × msg_t)
  out : Nat → Option pipe_t
  log : List router_ev

namespace dealer_t

/-- Number of frames the router has accepted so far. -/
def nsent (d : dealer_t) : Nat :=
  (d.log.filter (fun e => match e with | .sent _ _ => true | _ => false)).length

/-- Modelled from the spec: `dealer_t::sendpipe (msg_, &pipe)`. -/
def sendpipe (d : dealer_t) (m : msg_t) : Option pipe_t × dealer_t :=
  match d.out d.nsent with
  | none => (none, { d with log := d.log ++ [.send_failed m] })
  | some p => (some p, { d with log := d.log ++ [.sent m p] })

/-- Modelled from the spec: `dealer_t::recvpipe (msg_, &pipe)`. -/
def recvpipe (d : dealer_t) : Option (msg_t × pipe_t) × dealer_t :=
  match d.inq with
  | [] => (none, { d with log := d.log ++ [.recv_failed] })
  | (p, m) :: rest => (some (m, p), { d with inq := rest, log := d.log ++ [.received p m] })

/-- Modelled from the spec: `dealer_t::xpipe_terminated (pipe_)`, the termination callback. -/
def xpipe_terminated (d : dealer_t) (p : pipe_t) : dealer_t :=
  { d with log := d.log ++ [.terminated p] }

/-- Modelled from the spec: `dealer_t::xhas_in ()`, "has input": a frame can be read without
blocking. -/
def xhas_in (d : dealer_t) : Bool × dealer_t :=
  (decide (d.inq ≠ []), { d with log := d.log ++ [.has_in_queried] })

/-- Modelled from the spec: `dealer_t::xhas_out ()`, "has output": a pipe would accept the
next frame. -/
def xhas_out (d : dealer_t) : Bool × dealer_t :=
  ((d.out d.nsent).isSome, { d with log := d.log ++ [.has_out_queried] })

/-- Modelled from the spec: `dealer_t::xsetsockopt (option_, optval_, optvallen_)`, to which the
REQ socket delegates the options it does not handle; the router "may itself reject" them.
`answer` is what the router returns for the given option and value. -/
def xsetsockopt (answer : Int → List Byte → Res Unit) (d : dealer_t) (option_ : Int)
    (optval_ : List Byte) : Res Unit × dealer_t :=
  (answer option_ optval_, { d with log := d.log ++ [.setsockopt option_ optval_] })

/-- The frames the router has accepted, in order, each with the pipe that took it. -/
def sent_frames (d : dealer_t) : List (msg_t × pipe_t) :=
  d.log.filterMap (fun e => match e with | .sent m p => some (m, p) | _ => none)

end dealer_t

/-- The log entries of a run of successful receives. -/
def received_log (l : List (pipe_t × msg_t)) : List router_ev :=
  l.map (fun x => router_ev.received x.1 x.2)

/-- The fields of `req_t`. -/
structure req_t where
  receiving_reply : Bool
  message_begins : Bool
  reply_pipe : Option pipe_t
  request_id_frames_enabled : Bool
  request_id : Nat
  strict : Bool
deriving DecidableEq, Repr

/-- A complete message: every frame but the last carries the more flag. -/
def is_message : List msg_t → Bool
  | [] => false
  | [m] => !m.has_more
  | m :: rest => m.has_more && is_message rest

/-- The test of `xrecv` on the first frame of a reply when correlation is enabled. -/
def matches_request_id (s : req_t) (m : msg_t) : Bool :=
  m.has_more && m.size == 4 && u32_read m.data == s.request_id

/-- The test of `xrecv` on the frame it expects as delimiter: more-flagged and empty. -/
def valid_delimiter (m : msg_t) : Bool := m.has_more && m.size == 0

/-- A message whose delimiter is not valid: the frame in the place of the delimiter (the first
frame without correlation, the frame after a matching request id with correlation) is not a
more-flagged empty frame. -/
def bad_delimiter (s : req_t) (m : List (pipe_t × msg_t)) : Prop :=
  if s.request_id_frames_enabled then
    ∃ p idf q x tl, m = (p, idf) :: (q, x) :: tl ∧ matches_request_id s idf = true ∧
      valid_delimiter x = false
  else ∃ p x tl, m = (p, x) :: tl ∧ valid_delimiter x = false

namespace req_t

/-- The test `!reply_pipe || pipe == reply_pipe` of `recv_reply_pipe`. -/
def acceptable (s : req_t) (pipe : pipe_t) : Bool :=
  decide (s.reply_pipe = none ∨ some pipe = s.reply_pipe)

/-- The loop of `req_t::recv_reply_pipe`, at most `n` iterations. -/
def recv_reply_pipe_loop : Nat → req_t → dealer_t → Option (Res msg_t × dealer_t)
  | 0, _, _ => none
  | n + 1, s, d =>
    match d.recvpipe with
    | (none, d1) => some (.err .EAGAIN, d1)
    | (some (m, pipe), d1) =>
      if s.acceptable pipe then some (.ok m, d1)
      else recv_reply_pipe_loop n s d1

/-- `req_t::recv_reply_pipe`. -/
def recv_reply_pipe (s : req_t) (d : dealer_t) : Option (Res msg_t × dealer_t) :=
  recv_reply_pipe_loop (d.inq.length + 1) s d

/-- The loop "skip the remaining frames" of `req_t::xrecv`:
`while (msg_->flags () & msg_t::more) { rc = recv_reply_pipe (msg_); errno_assert (rc == 0); }`.
The result is `ok` when the loop ends and `abort` when the assertion fails. -/
def skip_frames_loop : Nat → req_t → msg_t → dealer_t → Option (Res Unit × dealer_t)
  | 0, _, _, _ => none
  | n + 1, s, m, d =>
    if m.has_more then
      match recv_reply_pipe s d with
      | none => none
      | some (.ok m1, d1) => skip_frames_loop n s m1 d1
      | some (_, d1) => some (.abort, d1)
    else some (.ok (), d)

/-- The skip loop, run with a bound that suffices for the frames queued. -/
def skip_frames (s : req_t) (m : msg_t) (d : dealer_t) : Option (Res Unit × dealer_t) :=
  skip_frames_loop (d.inq.length + 1) s m d

/-- What one envelope check of `xrecv` decides. -/
inductive envelope_step where
  | returned (rc : Res msg_t)
  | retry
  | matched
deriving DecidableEq, Repr

/-- The request-id check of `xrecv` (the body of `if (request_id_frames_enabled)`). -/
def check_request_id (s : req_t) (d : dealer_t) : Option (envelope_step × dealer_t) :=
  match recv_reply_pipe s d with
  | none => none
  | some (.ok m, d1) =>
    if m.has_more = false ∨ m.size ≠ 4 ∨ u32_read m.data ≠ s.request_id then
      match skip_frames s m d1 with
      | none => none
      | some (.ok _, d2) => some (.retry, d2)
      | some (_, d2) => some (.returned .abort, d2)
    else some (.matched, d1)
  | some (rc, d1) => some (.returned rc, d1)

/-- The delimiter check of `xrecv` ("the next frame must be 0"). -/
def check_delimiter (s : req_t) (d : dealer_t) : Option (envelope_step × dealer_t) :=
  match recv_reply_pipe s d with
  | none => none
  | some (.ok m, d1) =>
    if m.has_more = false ∨ m.size ≠ 0 then
      match skip_frames s m d1 with
      | none => none
      | some (.ok _, d2) => some (.retry, d2)
      | some (_, d2) => some (.returned .abort, d2)
    else some (.matched, d1)
  | some (rc, d1) => some (.returned rc, d1)

/-- The end of `xrecv`, after the envelope loop: deliver one frame. -/
def xrecv_body (s : req_t) (d : dealer_t) : Option (Res msg_t × req_t × dealer_t) :=
  match recv_reply_pipe s d with
  | none => none
  | some (.ok m, d1) =>
    if m.has_more = false then
      some (.ok m, { s with receiving_reply := false, message_begins := true }, d1)
    else some (.ok m, s, d1)
  | some (rc, d1) => some (rc, s, d1)

/-- One pass through the body of `while (message_begins)` in `xrecv`: the request-id check
(when correlation is enabled) followed by the delimiter check. -/
def envelope_check (s : req_t) (d : dealer_t) : Option (envelope_step × dealer_t) :=
  match (if s.request_id_frames_enabled then check_request_id s d
         else some (.matched, d)) with
  | some (.matched, d1) => check_delimiter s d1
  | r => r

/-- The loop `while (message_begins)` of `xrecv` followed by the delivery of a frame,
at most `n` iterations. -/
def xrecv_loop : Nat → req_t → dealer_t → Option (Res msg_t × req_t × dealer_t)
  | 0, _, _ => none
  | n + 1, s, d =>
    if s.message_begins then
      match envelope_check s d with
      | none => none
      | some (.returned rc, d1) => some (rc, s, d1)
      | some (.retry, d1) => xrecv_loop n s d1
      | some (.matched, d1) => xrecv_body { s with message_begins := false } d1
    else xrecv_body s d

/-- `req_t::xrecv`. -/
def xrecv (s : req_t) (d : dealer_t) : Option (Res msg_t × req_t × dealer_t) :=
  if s.receiving_reply = false then some (.err .EFSM, s, d)
  else xrecv_loop (d.inq.length + 1) s d

/-- The drain loop of `xsend`: `dealer_t::xrecv (&drop)` until it fails. -/
def drain_loop : Nat → dealer_t → Option dealer_t
  | 0, _ => none
  | n + 1, d =>
    match d.recvpipe with
    | (none, d1) => some d1
    | (some _, d1) => drain_loop n d1

/-- The body of `if (message_begins)` in `xsend`: send the envelope, then drain. -/
def begin_request (s : req_t) (d : dealer_t) : Option (Res Unit × req_t × dealer_t) :=
  let s0 := { s with reply_pipe := none }
  let step : Res Unit × req_t × dealer_t :=
    if s0.request_id_frames_enabled then
      let s1 := { s0 with request_id := (s0.request_id + 1) % 2 ^ 32 }
      let id : msg_t := ({ flags := 0, data := u32_bytes s1.request_id } : msg_t).set_flags msg_t.more
      match d.sendpipe id with
      | (none, d1) => (.err .EAGAIN, s1, d1)
      | (some p, d1) => (.ok (), { s1 with reply_pipe := some p }, d1)
    else (.ok (), s0, d)
  match step with
  | (.ok _, s1, d1) =>
    let bottom : msg_t := msg_t.init.set_flags msg_t.more
    match d1.sendpipe bottom with
    | (none, d2) => some (.err .EAGAIN, s1, d2)
    | (some p, d2) =>
      let s2 := { s1 with reply_pipe := some p }
      if s2.reply_pipe = none then some (.abort, s2, d2)
      else
        let s3 := { s2 with message_begins := false }
        match drain_loop (d2.inq.length + 1) d2 with
        | none => none
        | some d3 => some (.ok (), s3, d3)
  | r => some r

/-- `req_t::xsend`. -/
def xsend (s : req_t) (d : dealer_t) (msg : msg_t) : Option (Res Unit × req_t × dealer_t) :=
  if s.receiving_reply = true ∧ s.strict = true then some (.err .EFSM, s, d)
  else
    let s0 := if s.receiving_reply then
        { s with receiving_reply := false, message_begins := true } else s
    match (if s0.message_begins then begin_request s0 d else some (.ok (), s0, d)) with
    | none => none
    | some (.ok _, s1, d1) =>
      let more := msg.has_more
      match d1.sendpipe msg with
      | (none, d2) => some (.err .EAGAIN, s1, d2)
      | (some _, d2) =>
        if more = false then
          some (.ok (), { s1 with receiving_reply := true, message_begins := true }, d2)
        else some (.ok (), s1, d2)
    | some r => some r

/-- `req_t::xpipe_terminated`. -/
def xpipe_terminated (s : req_t) (d : dealer_t) (pipe : pipe_t) : req_t × dealer_t :=
  let s1 := if s.reply_pipe = some pipe then { s with reply_pipe := none } else s
  (s1, d.xpipe_terminated pipe)

/-- `req_t::xhas_in`. -/
def xhas_in (s : req_t) (d : dealer_t) : Bool × dealer_t :=
  if s.receiving_reply = false then (false, d)
  else d.xhas_in

/-- `req_t::xhas_out`. -/
def xhas_out (s : req_t) (d : dealer_t) : Bool × dealer_t :=
  if s.receiving_reply = true ∧ s.strict = true then (false, d)
  else d.xhas_out

/-- The `int` that `memcpy (&value, optval_, sizeof (int))` stores (32-bit two's complement,
little-endian host). -/
def int_read (optval_ : List Byte) : Int :=
  if u32_read optval_ < 2 ^ 31 then (u32_read optval_ : Int)
  else (u32_read optval_ : Int) - 2 ^ 32

/-- `req_t::xsetsockopt`.  The option numbers `ZMQ_REQ_CORRELATE` and `ZMQ_REQ_RELAXED` of
`zmq.h` are parameters, `sizeof (int)` is 4, and `optvallen_` is the length of `optval_`. -/
def xsetsockopt (ZMQ_REQ_CORRELATE ZMQ_REQ_RELAXED : Int)
    (answer : Int → List Byte → Res Unit) (s : req_t) (d : dealer_t) (option_ : Int)
    (optval_ : List Byte) : Res Unit × req_t × dealer_t :=
  let is_int : Bool := decide (optval_.length = 4)
  let value : Int := if is_int then int_read optval_ else 0
  if option_ = ZMQ_REQ_CORRELATE then
    if is_int = true ∧ value ≥ 0 then
      (.ok (), { s with request_id_frames_enabled := decide (value ≠ 0) }, d)
    else
      let r := d.xsetsockopt answer option_ optval_
      (r.1, s, r.2)
  else if option_ = ZMQ_REQ_RELAXED then
    if is_int = true ∧ value ≥ 0 then
      (.ok (), { s with strict := decide (value = 0) }, d)
    else
      let r := d.xsetsockopt answer option_ optval_
      (r.1, s, r.2)
  else
    let r := d.xsetsockopt answer option_ optval_
    (r.1, s, r.2)

/-- The value of `request_id` after the envelope phase of a new request. -/
def next_request_id (s : req_t) : Nat :=
  if s.request_id_frames_enabled then (s.request_id + 1) % 2 ^ 32 else s.request_id

/-- The sends of the envelope phase of a new request, when the router accepts them: with
correlation the request-id frame (taken by pipe `pid`), then the delimiter (taken by `p`). -/
def envelope_log (s : req_t) (pid p : pipe_t) : List router_ev :=
  if s.request_id_frames_enabled then
    [.sent ⟨1, u32_bytes (s.next_request_id)⟩ pid, .sent ⟨1, []⟩ p]
  else [.sent ⟨1, []⟩ p]

/-- The router accepts the envelope frames of a new request of socket `s`: the delimiter and,
with correlation enabled, the request id before it. -/
def envelope_accepted (s : req_t) (d : dealer_t) : Prop :=
  (d.out d.nsent).isSome = true ∧
  (s.request_id_frames_enabled = true → (d.out (d.nsent + 1)).isSome = true)

end req_t

/-- The frames that the socket accepts from the queue (those of the reply pipe, or all of them
when there is none) do not end in the middle of a message: the last of them does not carry
the more flag. -/
def complete_input (s : req_t) (inq : List (pipe_t × msg_t)) : Bool :=
  match (inq.filter (fun x => s.acceptable x.1)).getLast? with
  | some x => !x.2.has_more
  | none => true

/-! ### REQ session -/

/-- Modelled from the spec: `session_base_t::push_msg`, to which `req_session_t::push_msg`
delegates, is not part of the sources.  `rc k` is the outcome of the `k`-th delegated call
(`none`: the frame is accepted, return 0; `some e`: return -1 with errno `e`); `pushed`
lists the frames handed over so far, in call order. -/
structure session_base_t where
  rc : Nat → Option Errno
  pushed : List msg_t

namespace session_base_t

/-- Modelled from the spec: the delegated `session_base_t::push_msg (msg_)`. -/
def push_msg (b : session_base_t) (m : msg_t) : Res Unit × session_base_t :=
  ((match b.rc b.pushed.length with
    | none => .ok ()
    | some e => .err e), { b with pushed := b.pushed ++ [m] })

end session_base_t

/-- The states of `req_session_t`. -/
inductive session_state where
  | bottom | request_id | body
deriving DecidableEq, Repr

/-- The fields of `req_session_t`: its state and the base session it extends. -/
structure req_session_t where
  state : session_state
  base : session_base_t

namespace req_session_t

/-- `req_session_t::push_msg`. -/
def push_msg (s : req_session_t) (m : msg_t) : Res Unit × req_session_t :=
  match s.state with
  | .bottom =>
    if m.flags = msg_t.more then
      if m.size = 4 then
        let r := s.base.push_msg m
        (r.1, { state := .request_id, base := r.2 })
      else if m.size = 0 then
        let r := s.base.push_msg m
        (r.1, { state := .body, base := r.2 })
      else (.err .EFAULT, s)
    else (.err .EFAULT, s)
  | .request_id =>
    if m.flags = msg_t.more ∧ m.size = 0 then
      let r := s.base.push_msg m
      (r.1, { state := .body, base := r.2 })
    else (.err .EFAULT, s)
  | .body =>
    if m.flags = msg_t.more then
      let r := s.base.push_msg m
      (r.1, { state := .body, base := r.2 })
    else if m.flags = 0 then
      let r := s.base.push_msg m
      (r.1, { state := .bottom, base := r.2 })
    else (.err .EFAULT, s)

/-- Successive calls of `push_msg`, one per frame, with the results in call order. -/
def push_all (s : req_session_t) : List msg_t → List (Res Unit) × req_session_t
  | [] => ([], s)
  | m :: rest =>
    let r := s.push_msg m
    let t := push_all r.2 rest
    (r.1 :: t.1, t.2)

/-- `req_session_t::reset`: `session_base_t::reset ()`, then `state = bottom`.  The reset of
the base session is not part of the sources; `base_reset` is its effect. -/
def reset (base_reset : session_base_t → session_base_t) (s : req_session_t) :
    req_session_t :=
  { state := .bottom, base := base_reset s.base }

end req_session_t

/-- What the envelope grammar calls a frame that violates the expectation of a state. -/
def violates_envelope (st : session_state) (m : msg_t) : Prop :=
  match st with
  | .bottom => ¬ (m.flags = msg_t.more ∧ (m.size = 4 ∨ m.size = 0))
  | .request_id => ¬ (m.flags = msg_t.more ∧ m.size = 0)
  | .body => m.flags ≠ msg_t.more ∧ m.flags ≠ 0

/-- One message of the envelope grammar: optionally a 4-byte frame with flags `more`, then
an empty frame with flags `more`, then any number of frames with flags `more`, then one
frame with flags 0. -/
def is_envelope_message (fs : List msg_t) : Prop :=
  ∃ (pre : List msg_t) (delim : msg_t) (mid : List msg_t) (last : msg_t),
    fs = pre ++ delim :: mid ++ [last] ∧
    (pre = [] ∨ ∃ id, pre = [id] ∧ id.size = 4 ∧ id.flags = msg_t.more) ∧
    delim.size = 0 ∧ delim.flags = msg_t.more ∧
    (∀ f ∈ mid, f.flags = msg_t.more) ∧ last.flags = 0

/-- A concatenation of messages of the envelope grammar. -/
def is_envelope_stream (fs : List msg_t) : Prop :=
  ∃ ms : List (List msg_t), fs = ms.flatten ∧ ∀ m ∈ ms, is_envelope_message m

/-- The state after a run of frames that are all accepted, `none` if one is rejected. -/
def session_steps : session_state → List msg_t → Option session_state
  | st, [] => some st
  | .bottom, m :: rest =>
    if m.flags = msg_t.more ∧ m.size = 4 then session_steps .request_id rest
    else if m.flags = msg_t.more ∧ m.size = 0 then session_steps .body rest
    else none
  | .request_id, m :: rest =>
    if m.flags = msg_t.more ∧ m.size = 0 then session_steps .body rest else none
  | .body, m :: rest =>
    if m.flags = msg_t.more then session_steps .body rest
    else if m.flags = 0 then session_steps .bottom rest
    else none

/-! ### Socket poller -/

/-- Identity of a managed socket (`socket_base_t *`); the null pointer is `none`. -/
abbrev socket_id := Nat

/-- A file descriptor (`fd_t`). -/
abbrev fd_t := Int

/-- The polling backend selected at build time: `ZMQ_POLL_BASED_ON_POLL`,
`ZMQ_POLL_BASED_ON_SELECT`, or neither. -/
inductive backend_t where
  | poll | select | unsupported
deriving DecidableEq, Repr

/-- What the build fixes and the sources use without defining: the backend, whether
`ZMQ_HAVE_WINDOWS` is set, the event masks of `zmq.h` and `poll.h`, and `FD_SETSIZE`.
They are parameters of the embedding. -/
structure config_t where
  backend : backend_t
  windows : Bool
  ZMQ_POLLIN : Nat
  ZMQ_POLLOUT : Nat
  ZMQ_POLLERR : Nat
  ZMQ_POLLPRI : Nat
  POLLIN : Nat
  POLLOUT : Nat
  POLLPRI : Nat
  FD_SETSIZE : Nat
deriving DecidableEq, Repr

/-- The values of the masks on Linux, for a given backend. -/
def linux (backend : backend_t) : config_t :=
  { backend := backend, windows := false,
    ZMQ_POLLIN := 1, ZMQ_POLLOUT := 2, ZMQ_POLLERR := 4, ZMQ_POLLPRI := 8,
    POLLIN := 1, POLLOUT := 4, POLLPRI := 2, FD_SETSIZE := 1024 }

/-- Result of a query that can fail with an errno. -/
inductive query_t (α : Type) where
  | value (a : α)
  | failed (e : Errno)
deriving DecidableEq, Repr

/-- Modelled from the spec: the collaborators of the poller are not part of the sources.
`thread_safe` and `fd` are `socket_base_t::getsockopt` for `ZMQ_THREAD_SAFE` and `ZMQ_FD`
(`none`: the call fails); `events k` is `getsockopt (ZMQ_EVENTS)` during the `k`-th scan of
a `wait`; `poll k` is the outcome of the `k`-th `poll ()` of a `wait`, an errno or the
`revents` of the entries in order; `select k` is the outcome of the `k`-th `select ()`, an
errno or the descriptors that are readable, writable and in error; `now_ms k` is the `k`-th
reading of the monotonic clock; `stray i` is what a read of `pollfds [i].revents` outside
the array yields. -/
structure env_t where
  thread_safe : socket_id → Option Bool
  fd : socket_id → Option fd_t
  events : Nat → socket_id → query_t Nat
  poll : Nat → query_t (List Nat)
  select : Nat → query_t (List fd_t × List fd_t × List fd_t)
  now_ms : Nat → Nat
  stray : Int → Nat

/-- `socket_poller_t::item_t`; `events` is the bit pattern of the `short` interest mask and
`user_data` the address held by the `void *` (0 is null).  `pollfd_index` exists in the
array-based backend only. -/
structure item_t where
  socket : Option socket_id
  fd : fd_t
  user_data : Nat
  events : Nat
  pollfd_index : Int
deriving DecidableEq, Repr

/-- A `pollfd` entry of the array-based backend. -/
structure pollfd where
  fd : fd_t
  events : Nat
  revents : Nat
deriving DecidableEq, Repr

/-- The fields of `socket_poller_t`.  `signaler` holds the descriptor of the signaler when
one has been allocated.  Two fields are bookkeeping of the embedding: `attached` lists the
sockets on which `add_signaler` has been called and not undone, `rebuilds` counts the calls
of `rebuild`. -/
structure socket_poller_t where
  signaler : Option fd_t
  items : List item_t
  need_rebuild : Bool
  use_signaler : Bool
  poll_size : Nat
  pollfds : Option (List pollfd)
  pollset_in : List fd_t
  pollset_out : List fd_t
  pollset_err : List fd_t
  maxfd : fd_t
  attached : List socket_id
  rebuilds : Nat
deriving DecidableEq, Repr

namespace socket_poller_t

/-- The poller after construction. -/
def init : socket_poller_t :=
  { signaler := none, items := [], need_rebuild := true, use_signaler := false,
    poll_size := 0, pollfds := none, pollset_in := [], pollset_out := [],
    pollset_err := [], maxfd := 0, attached := [], rebuilds := 0 }

/-- `socket_poller_t::add`; `new_signaler` is the descriptor of the signaler that
`new signaler_t ()` would allocate. -/
def add (env : env_t) (new_signaler : fd_t) (p : socket_poller_t) (socket_ : socket_id)
    (user_data_ : Nat) (events_ : Nat) : Res Unit × socket_poller_t :=
  if p.items.any (fun it => it.socket = some socket_) then (.err .EINVAL, p)
  else
    match env.thread_safe socket_ with
    | none => (.abort, p)
    | some thread_safe =>
      let p1 :=
        if thread_safe then
          { p with signaler := (if p.signaler = none then some new_signaler else p.signaler),
                   attached := p.attached ++ [socket_] }
        else p
      let item : item_t :=
        { socket := some socket_, fd := 0, user_data := user_data_, events := events_,
          pollfd_index := -1 }
      (.ok (), { p1 with items := p1.items ++ [item], need_rebuild := true })

/-- `socket_poller_t::add_fd`. -/
def add_fd (p : socket_poller_t) (fd_ : fd_t) (user_data_ : Nat) (events_ : Nat) :
    Res Unit × socket_poller_t :=
  if p.items.any (fun it => it.socket = none ∧ it.fd = fd_) then (.err .EINVAL, p)
  else
    let item : item_t :=
      { socket := none, fd := fd_, user_data := user_data_, events := events_,
        pollfd_index := -1 }
    (.ok (), { p with items := p.items ++ [item], need_rebuild := true })

/-- The search loop of `modify` and `modify_fd` followed by the assignment to the item found:
`f` is applied to the first item that satisfies `pred`; `none` when the loop reaches
`items.end ()`. -/
def update_first (pred : item_t → Bool) (f : item_t → item_t) :
    List item_t → Option (List item_t)
  | [] => none
  | it :: rest =>
    if pred it then some (f it :: rest)
    else (update_first pred f rest).map (fun l => it :: l)

/-- The search loop of `remove` and `remove_fd` followed by `items.erase (it)`: the first item
that satisfies `pred` is erased; `none` when the loop reaches `items.end ()`. -/
def erase_first (pred : item_t → Bool) : List item_t → Option (List item_t)
  | [] => none
  | it :: rest =>
    if pred it then some rest
    else (erase_first pred rest).map (fun l => it :: l)

/-- `socket_poller_t::modify`. -/
def modify (p : socket_poller_t) (socket_ : socket_id) (events_ : Nat) :
    Res Unit × socket_poller_t :=
  match update_first (fun it => it.socket = some socket_)
      (fun it => { it with events := events_ }) p.items with
  | none => (.err .EINVAL, p)
  | some items => (.ok (), { p with items := items, need_rebuild := true })

/-- `socket_poller_t::modify_fd`. -/
def modify_fd (p : socket_poller_t) (fd_ : fd_t) (events_ : Nat) :
    Res Unit × socket_poller_t :=
  match update_first (fun it => it.socket = none ∧ it.fd = fd_)
      (fun it => { it with events := events_ }) p.items with
  | none => (.err .EINVAL, p)
  | some items => (.ok (), { p with items := items, need_rebuild := true })

/-- `socket_poller_t::remove`; a thread-safe socket is detached from the signaler. -/
def remove (env : env_t) (p : socket_poller_t) (socket_ : socket_id) :
    Res Unit × socket_poller_t :=
  match erase_first (fun it => it.socket = some socket_) p.items with
  | none => (.err .EINVAL, p)
  | some items =>
    let p1 := { p with items := items, need_rebuild := true }
    if env.thread_safe socket_ = some true then
      (.ok (), { p1 with attached := p1.attached.erase socket_ })
    else (.ok (), p1)

/-- `socket_poller_t::remove_fd`. -/
def remove_fd (p : socket_poller_t) (fd_ : fd_t) : Res Unit × socket_poller_t :=
  match erase_first (fun it => it.socket = none ∧ it.fd = fd_) p.items with
  | none => (.err .EINVAL, p)
  | some items => (.ok (), { p with items := items, need_rebuild := true })

/-- The entry that `malloc` leaves in a fresh `pollfds` array (its content is unspecified;
every entry is written before it is read). -/
def pollfd.blank : pollfd := { fd := 0, events := 0, revents := 0 }

/-- Assignment of `pollfds [k].fd` and `pollfds [k].events`. -/
def write_pollfd (fds : List pollfd) (k : Nat) (fd : fd_t) (events : Nat) : List pollfd :=
  match fds[k]? with
  | some e => fds.set k { e with fd := fd, events := events }
  | none => fds

/-- `FD_SET (fd, &set)`. -/
def FD_SET (fd : fd_t) (set : List fd_t) : List fd_t :=
  if fd ∈ set then set else set ++ [fd]

/-- The first loop of `rebuild` in the array-based backend: it counts the entries needed.
`none` is a failed assertion. -/
def count_pollfds (env : env_t) : List item_t → Bool → Nat → Option (Bool × Nat)
  | [], use_signaler, poll_size => some (use_signaler, poll_size)
  | it :: rest, use_signaler, poll_size =>
    if it.events ≠ 0 then
      match it.socket with
      | some sock =>
        match env.thread_safe sock with
        | none => none
        | some true =>
          if use_signaler = false then count_pollfds env rest true (poll_size + 1)
          else count_pollfds env rest use_signaler poll_size
        | some false => count_pollfds env rest use_signaler (poll_size + 1)
      | none => count_pollfds env rest use_signaler (poll_size + 1)
    else count_pollfds env rest use_signaler poll_size

/-- The second loop of `rebuild` in the array-based backend: it fills `pollfds` from
`item_nbr` on and records `pollfd_index` in the raw-descriptor items.  `none` is a failed
assertion. -/
def fill_pollfds (cfg : config_t) (env : env_t) :
    List item_t → Nat → List pollfd → Option (List item_t × List pollfd)
  | [], _, fds => some ([], fds)
  | it :: rest, item_nbr, fds =>
    if it.events ≠ 0 then
      match it.socket with
      | some sock =>
        match env.thread_safe sock with
        | none => none
        | some false =>
          match env.fd sock with
          | none => none
          | some fd =>
            match fill_pollfds cfg env rest (item_nbr + 1)
                (write_pollfd fds item_nbr fd cfg.POLLIN) with
            | none => none
            | some (items, fds1) => some (it :: items, fds1)
        | some true =>
          match fill_pollfds cfg env rest item_nbr fds with
          | none => none
          | some (items, fds1) => some (it :: items, fds1)
      | none =>
        let ev := (if it.events &&& cfg.ZMQ_POLLIN ≠ 0 then cfg.POLLIN else 0) |||
          (if it.events &&& cfg.ZMQ_POLLOUT ≠ 0 then cfg.POLLOUT else 0) |||
          (if it.events &&& cfg.ZMQ_POLLPRI ≠ 0 then cfg.POLLPRI else 0)
        match fill_pollfds cfg env rest (item_nbr + 1) (write_pollfd fds item_nbr it.fd ev) with
        | none => none
        | some (items, fds1) => some ({ it with pollfd_index := item_nbr } :: items, fds1)
    else
      match fill_pollfds cfg env rest item_nbr fds with
      | none => none
      | some (items, fds1) => some (it :: items, fds1)

/-- `rebuild` under `ZMQ_POLL_BASED_ON_POLL`. -/
def rebuild_poll (cfg : config_t) (env : env_t) (p : socket_poller_t) : Res socket_poller_t :=
  let p0 := { p with pollfds := none, use_signaler := false, poll_size := 0 }
  match count_pollfds env p0.items false 0 with
  | none => .abort
  | some (use_signaler, poll_size) =>
    let p1 := { p0 with use_signaler := use_signaler, poll_size := poll_size }
    if poll_size = 0 then .ok p1
    else
      let fds := List.replicate poll_size pollfd.blank
      let start : Option (Nat × List pollfd) :=
        if use_signaler then
          match p1.signaler with
          | none => none
          | some sfd => some (1, write_pollfd fds 0 sfd cfg.POLLIN)
        else some (0, fds)
      match start with
      | none => .abort
      | some (item_nbr, fds1) =>
        match fill_pollfds cfg env p1.items item_nbr fds1 with
        | none => .abort
        | some (items, fds2) =>
          .ok { p1 with items := items, pollfds := some fds2, need_rebuild := false }

/-- The first loop of `rebuild` in the bitset backend: it looks for a thread-safe socket with
a non-zero interest.  `none` is a failed assertion. -/
def find_thread_safe (env : env_t) : List item_t → Option Bool
  | [] => some false
  | it :: rest =>
    match it.socket with
    | some sock =>
      match env.thread_safe sock with
      | none => none
      | some thread_safe =>
        if thread_safe = true ∧ it.events ≠ 0 then some true
        else find_thread_safe env rest
    | none => find_thread_safe env rest

/-- The second loop of `rebuild` in the bitset backend: it builds the three sets.  `none` is
a failed assertion. -/
def fill_pollsets (cfg : config_t) (env : env_t) :
    List item_t → socket_poller_t → Option socket_poller_t
  | [], p => some p
  | it :: rest, p =>
    if it.events ≠ 0 then
      match it.socket with
      | some sock =>
        match env.thread_safe sock with
        | none => none
        | some false =>
          match env.fd sock with
          | none => none
          | some notify_fd =>
            fill_pollsets cfg env rest
              { p with pollset_in := FD_SET notify_fd p.pollset_in,
                       maxfd := (if p.maxfd < notify_fd then notify_fd else p.maxfd),
                       poll_size := p.poll_size + 1 }
        | some true => fill_pollsets cfg env rest p
      | none =>
        fill_pollsets cfg env rest
          { p with
            pollset_in := (if it.events &&& cfg.ZMQ_POLLIN ≠ 0 then FD_SET it.fd p.pollset_in
              else p.pollset_in),
            pollset_out := (if it.events &&& cfg.ZMQ_POLLOUT ≠ 0 then FD_SET it.fd p.pollset_out
              else p.pollset_out),
            pollset_err := (if it.events &&& cfg.ZMQ_POLLERR ≠ 0 then FD_SET it.fd p.pollset_err
              else p.pollset_err),
            maxfd := (if p.maxfd < it.fd then it.fd else p.maxfd),
            poll_size := p.poll_size + 1 }
    else fill_pollsets cfg env rest p

/-- `rebuild` under `ZMQ_POLL_BASED_ON_SELECT`. -/
def rebuild_select (cfg : config_t) (env : env_t) (p : socket_poller_t) :
    Res socket_poller_t :=
  let p0 := { p with pollset_in := [], pollset_out := [], pollset_err := [] }
  if cfg.FD_SETSIZE < p0.items.length then .abort
  else
    let p1 := { p0 with poll_size := 0, use_signaler := false }
    match find_thread_safe env p1.items with
    | none => .abort
    | some found =>
      let start : Option socket_poller_t :=
        if found then
          match p1.signaler with
          | none => none
          | some sfd =>
            some { p1 with use_signaler := true, pollset_in := FD_SET sfd p1.pollset_in,
                           poll_size := 1 }
        else some p1
      match start with
      | none => .abort
      | some p2 =>
        match fill_pollsets cfg env p2.items { p2 with maxfd := 0 } with
        | none => .abort
        | some p3 => .ok { p3 with need_rebuild := false }

/-- `socket_poller_t::rebuild`, for the backend of the build. -/
def rebuild (cfg : config_t) (env : env_t) (p : socket_poller_t) : Res socket_poller_t :=
  let p0 := { p with rebuilds := p.rebuilds + 1 }
  match cfg.backend with
  | .poll => rebuild_poll cfg env p0
  | .select => rebuild_select cfg env p0
  | .unsupported => .ok { p0 with need_rebuild := false }

/-- `socket_poller_t::event_t`. -/
structure event_t where
  socket : Option socket_id
  fd : fd_t
  user_data : Nat
  events : Nat
deriving DecidableEq, Repr

/-- The cleared state of an output slot: null socket, descriptor 0, null user data, no
events. -/
def event_t.cleared : event_t := { socket := none, fd := 0, user_data := 0, events := 0 }

/-- Assignment to fields of `events_ [k]`; a slot outside the buffer is not modelled. -/
def write_event (buf : List event_t) (k : Nat) (f : event_t → event_t) : List event_t :=
  match buf[k]? with
  | some e => buf.set k (f e)
  | none => buf

/-- `socket_poller_t::zero_trail_events`: the loop `for (i = found; i < n_events_; ++i)`. -/
def zero_trail_events (events_ : List event_t) (n_events_ : Int) (found : Int) :
    List event_t :=
  (List.range (n_events_ - found).toNat).foldl
    (fun (buf : List event_t) (j : Nat) =>
      write_event buf (found + Int.ofNat j).toNat (fun _ => event_t.cleared)) events_

/-- The events of a raw descriptor in the array-based backend, from
`pollfds [it->pollfd_index].revents`. -/
def raw_events_poll (cfg : config_t) (env : env_t) (p : socket_poller_t) (it : item_t) : Nat :=
  let revents : Nat :=
    match p.pollfds with
    | some fds =>
      if 0 ≤ it.pollfd_index then
        match fds[it.pollfd_index.toNat]? with
        | some e => e.revents
        | none => env.stray it.pollfd_index
      else env.stray it.pollfd_index
    | none => env.stray it.pollfd_index
  (if revents &&& cfg.POLLIN ≠ 0 then cfg.ZMQ_POLLIN else 0) |||
  (if revents &&& cfg.POLLOUT ≠ 0 then cfg.ZMQ_POLLOUT else 0) |||
  (if revents &&& cfg.POLLPRI ≠ 0 then cfg.ZMQ_POLLPRI else 0) |||
  (if revents ^^^ (revents &&& (cfg.POLLIN ||| cfg.POLLOUT ||| cfg.POLLPRI)) ≠ 0
    then cfg.ZMQ_POLLERR else 0)

/-- The events of a raw descriptor in the bitset backend, from the three result sets. -/
def raw_events_select (cfg : config_t) (inset outset errset : List fd_t) (it : item_t) : Nat :=
  (if it.fd ∈ inset then cfg.ZMQ_POLLIN else 0) |||
  (if it.fd ∈ outset then cfg.ZMQ_POLLOUT else 0) |||
  (if it.fd ∈ errset then cfg.ZMQ_POLLERR else 0)

/-- The loop of `socket_poller_t::check_events`.  `sock_events` is
`getsockopt (ZMQ_EVENTS)` and `raw_events` the backend-specific conversion for a raw
descriptor.  The result is the count `found`, or the errno of a failed query, together with
the output buffer. -/
def check_events_loop (sock_events : socket_id → query_t Nat) (raw_events : item_t → Nat) :
    List item_t → List event_t → Int → Nat → Res Nat × List event_t
  | [], events_, _, found => (.ok found, events_)
  | it :: rest, events_, n_events_, found =>
    if (found : Int) < n_events_ then
      match it.socket with
      | some sock =>
        match sock_events sock with
        | .failed e => (.err e, events_)
        | .value events =>
          if it.events &&& events ≠ 0 then
            check_events_loop sock_events raw_events rest
              (write_event events_ found (fun e =>
                { e with socket := some sock, user_data := it.user_data,
                         events := it.events &&& events }))
              n_events_ (found + 1)
          else check_events_loop sock_events raw_events rest events_ n_events_ found
      | none =>
        let events := raw_events it
        if events ≠ 0 then
          check_events_loop sock_events raw_events rest
            (write_event events_ found (fun e =>
              { e with socket := none, user_data := it.user_data, fd := it.fd,
                       events := events }))
            n_events_ (found + 1)
        else check_events_loop sock_events raw_events rest events_ n_events_ found
    else (.ok found, events_)

/-- `socket_poller_t::check_events` under `ZMQ_POLL_BASED_ON_POLL`, during the `k`-th scan. -/
def check_events_poll (cfg : config_t) (env : env_t) (k : Nat) (p : socket_poller_t)
    (events_ : List event_t) (n_events_ : Int) : Res Nat × List event_t :=
  check_events_loop (env.events k) (raw_events_poll cfg env p) p.items events_ n_events_ 0

/-- `socket_poller_t::check_events` under `ZMQ_POLL_BASED_ON_SELECT`, during the `k`-th
scan. -/
def check_events_select (cfg : config_t) (env : env_t) (k : Nat) (p : socket_poller_t)
    (events_ : List event_t) (n_events_ : Int) (inset outset errset : List fd_t) :
    Res Nat × List event_t :=
  check_events_loop (env.events k) (raw_events_select cfg inset outset errset) p.items
    events_ n_events_ 0

/-- The local variables `now`, `end` and `first_pass` of `wait`. -/
structure timer_t where
  now : Nat
  end_ : Nat
  first_pass : Bool
deriving DecidableEq, Repr

/-- `socket_poller_t::adjust_timeout`; `clock` is what `clock.now_ms ()` returns if it is
called, `now` and `end_` are 64-bit unsigned.  The first component is the return value: 0 if
the timeout is expired, else 1. -/
def adjust_timeout (clock : Nat) (timeout_ : Int) (t : timer_t) : Int × timer_t :=
  if timeout_ = 0 then (0, t)
  else if timeout_ < 0 then
    (1, if t.first_pass then { t with first_pass := false } else t)
  else
    let t1 := { t with now := clock % 2 ^ 64 }
    if t1.first_pass then
      (1, { t1 with end_ := ((t1.now : Int) + timeout_).toNat % 2 ^ 64, first_pass := false })
    else if t1.now ≥ t1.end_ then (0, t1)
    else (1, t1)

/-- Conversion of a 64-bit unsigned value to `int` (two's complement, 32 bits). -/
def to_int32 (v : Nat) : Int :=
  if v % 2 ^ 32 < 2 ^ 31 then (v % 2 ^ 32 : Nat) else ((v % 2 ^ 32 : Nat) : Int) - 2 ^ 32

/-- A call that `wait` makes on the operating system or on the signaler. -/
inductive os_call where
  | poll (timeout : Int)
  | select (timeout : Option (Int × Int))
  | usleep (usec : Int)
  | Sleep (ms : Option Int)
  | signaler_recv
deriving DecidableEq, Repr

/-- What a call of `wait` leaves behind: the return value, the output buffer, the poller
and the calls made. -/
structure wait_result where
  rc : Res Nat
  events : List event_t
  poller : socket_poller_t
  calls : List os_call
deriving DecidableEq, Repr

/-- The `revents` that `poll ()` stores in the entries. -/
def set_revents (fds : List pollfd) (revents : List Nat) : List pollfd :=
  fds.enum.map (fun x => { x.2 with revents := revents.getD x.1 0 })

/-- The call `signaler->recv ()`, made when `fired` holds; the signaler must exist. -/
def recv_signal (p : socket_poller_t) (fired : Bool) (calls : List os_call) :
    Option (List os_call) :=
  if fired then
    match p.signaler with
    | none => none
    | some _ => some (calls ++ [.signaler_recv])
  else some calls

/-- The loop of `wait` under `ZMQ_POLL_BASED_ON_POLL`, at most `fuel` iterations, starting
with iteration `k`. -/
def wait_poll_loop (cfg : config_t) (env : env_t) (n_events_ : Int) (timeout_ : Int) :
    Nat → Nat → socket_poller_t → timer_t → List event_t → List os_call → Option wait_result
  | 0, _, _, _, _, _ => none
  | fuel + 1, k, p, t, events_, calls =>
    let timeout : Int :=
      if t.first_pass then 0
      else if timeout_ < 0 then -1
      else to_int32 ((t.end_ + 2 ^ 64 - t.now % 2 ^ 64) % 2 ^ 64)
    let calls1 := calls ++ [.poll timeout]
    match env.poll k with
    | .failed e =>
      if e = .EINTR then some ⟨.err .EINTR, events_, p, calls1⟩
      else some ⟨.abort, events_, p, calls1⟩
    | .value revents =>
      let p1 := { p with pollfds := p.pollfds.map (fun fds => set_revents fds revents) }
      let revents0 : Nat :=
        match p1.pollfds with
        | some (e :: _) => e.revents
        | _ => env.stray 0
      let fired : Bool := p1.use_signaler && decide (revents0 &&& cfg.POLLIN ≠ 0)
      match recv_signal p1 fired calls1 with
      | none => some ⟨.abort, events_, p1, calls1⟩
      | some calls2 =>
        match check_events_poll cfg env k p1 events_ n_events_ with
        | (.ok found, events1) =>
          if found ≠ 0 then
            some ⟨.ok found, zero_trail_events events1 n_events_ found, p1, calls2⟩
          else
            match adjust_timeout (env.now_ms k) timeout_ t with
            | (rc, t1) =>
              if rc = 0 then some ⟨.err .EAGAIN, events1, p1, calls2⟩
              else wait_poll_loop cfg env n_events_ timeout_ fuel (k + 1) p1 t1 events1 calls2
        | (rc, events1) => some ⟨rc, events1, p1, calls2⟩

/-- The loop of `wait` under `ZMQ_POLL_BASED_ON_SELECT`, at most `fuel` iterations, starting
with iteration `k`. -/
def wait_select_loop (cfg : config_t) (env : env_t) (n_events_ : Int) (timeout_ : Int) :
    Nat → Nat → socket_poller_t → timer_t → List event_t → List os_call → Option wait_result
  | 0, _, _, _, _, _ => none
  | fuel + 1, k, p, t, events_, calls =>
    let remaining : Nat := (t.end_ + 2 ^ 64 - t.now % 2 ^ 64) % 2 ^ 64
    let timeout : Option (Int × Int) :=
      if t.first_pass then some (0, 0)
      else if timeout_ < 0 then none
      else some ((remaining / 1000 : Nat), (remaining % 1000 * 1000 : Nat))
    let calls1 := calls ++ [.select timeout]
    match env.select k with
    | .failed e =>
      if cfg.windows then
        if e = .ENOTSOCK then some ⟨.err e, events_, p, calls1⟩
        else some ⟨.abort, events_, p, calls1⟩
      else
        if e = .EINTR ∨ e = .EBADF then some ⟨.err e, events_, p, calls1⟩
        else some ⟨.abort, events_, p, calls1⟩
    | .value (rin, rout, rerr) =>
      let inset := p.pollset_in.filter (fun fd => fd ∈ rin)
      let outset := p.pollset_out.filter (fun fd => fd ∈ rout)
      let errset := p.pollset_err.filter (fun fd => fd ∈ rerr)
      let fired : Option Bool :=
        if p.use_signaler then
          match p.signaler with
          | none => none
          | some sfd => some (sfd ∈ inset)
        else some false
      match fired with
      | none => some ⟨.abort, events_, p, calls1⟩
      | some f =>
        match recv_signal p f calls1 with
        | none => some ⟨.abort, events_, p, calls1⟩
        | some calls2 =>
          match check_events_select cfg env k p events_ n_events_ inset outset errset with
          | (.ok found, events1) =>
            if found ≠ 0 then
              some ⟨.ok found, zero_trail_events events1 n_events_ found, p, calls2⟩
            else
              match adjust_timeout (env.now_ms k) timeout_ t with
              | (rc, t1) =>
                if rc = 0 then some ⟨.err .EAGAIN, events1, p, calls2⟩
                else
                  wait_select_loop cfg env n_events_ timeout_ fuel (k + 1) p t1 events1 calls2
          | (rc, events1) => some ⟨rc, events1, p, calls2⟩

/-- `socket_poller_t::wait`.  The loop runs at most `fuel` iterations; `none` means that the
call has not returned within them. -/
def wait (cfg : config_t) (env : env_t) (p : socket_poller_t) (events_ : List event_t)
    (n_events_ : Int) (timeout_ : Int) (fuel : Nat) : Option wait_result :=
  if p.items = [] ∧ timeout_ < 0 then some ⟨.err .EFAULT, events_, p, []⟩
  else
    match (if p.need_rebuild then rebuild cfg env p else .ok p) with
    | .ok p1 =>
      if p1.poll_size = 0 then
        if timeout_ = 0 then some ⟨.err .EAGAIN, events_, p1, []⟩
        else if cfg.windows then
          some ⟨.err .EAGAIN, events_, p1, [.Sleep (if timeout_ > 0 then some timeout_ else none)]⟩
        else some ⟨.err .EAGAIN, events_, p1, [.usleep (timeout_ * 1000)]⟩
      else
        match cfg.backend with
        | .poll => wait_poll_loop cfg env n_events_ timeout_ fuel 0 p1 ⟨0, 0, true⟩ events_ []
        | .select => wait_select_loop cfg env n_events_ timeout_ fuel 0 p1 ⟨0, 0, true⟩ events_ []
        | .unsupported => some ⟨.err .ENOTSUP, events_, p1, []⟩
    | _ => some ⟨.abort, events_, p, []⟩

end socket_poller_t

/-- The key of an item: its socket, or its descriptor when it has no socket. -/
def item_t.key (it : item_t) : socket_id ⊕ fd_t :=
  match it.socket with
  | some s => .inl s
  | none => .inr it.fd

/-- A call of one of the six registration functions. -/
inductive poller_call where
  | add (socket_ : socket_id) (user_data_ events_ : Nat)
  | add_fd (fd_ : fd_t) (user_data_ events_ : Nat)
  | modify (socket_ : socket_id) (events_ : Nat)
  | modify_fd (fd_ : fd_t) (events_ : Nat)
  | remove (socket_ : socket_id)
  | remove_fd (fd_ : fd_t)
deriving DecidableEq, Repr

/-- The poller after a call, whether it succeeds or fails. -/
def poller_call.run (env : env_t) (new_signaler : fd_t) (p : socket_poller_t) :
    poller_call → socket_poller_t
  | .add s u e => (socket_poller_t.add env new_signaler p s u e).2
  | .add_fd d u e => (socket_poller_t.add_fd p d u e).2
  | .modify s e => (socket_poller_t.modify p s e).2
  | .modify_fd d e => (socket_poller_t.modify_fd p d e).2
  | .remove s => (socket_poller_t.remove env p s).2
  | .remove_fd d => (socket_poller_t.remove_fd p d).2

/-- The poller after a sequence of calls. -/
def run_calls (env : env_t) (new_signaler : fd_t) (p : socket_poller_t)
    (calls : List poller_call) : socket_poller_t :=
  calls.foldl (poller_call.run env new_signaler) p

/-- No two items have the same socket and no two raw-descriptor items have the same
descriptor. -/
def unique_keys (items : List item_t) : Prop :=
  items.Pairwise (fun a b =>
    (a.socket ≠ none → a.socket ≠ b.socket) ∧
    (a.socket = none → b.socket = none → a.fd ≠ b.fd))

instance (items : List item_t) : Decidable (unique_keys items) := by
  unfold unique_keys; infer_instance

/-- The events that a scan finds on an item: for a socket the interest mask AND the pending
events that `getsockopt (ZMQ_EVENTS)` reports, for a raw descriptor the converted events of
the backend. -/
def pending_events (sock_events : socket_id → query_t Nat) (raw_events : item_t → Nat)
    (it : item_t) : Nat :=
  match it.socket with
  | some sock =>
    match sock_events sock with
    | .value ev => it.events &&& ev
    | .failed _ => 0
  | none => raw_events it

/-- The ready items, in registration order. -/
def ready_items (sock_events : socket_id → query_t Nat) (raw_events : item_t → Nat)
    (items : List item_t) : List item_t :=
  items.filter (fun it => pending_events sock_events raw_events it ≠ 0)

/-- The output slot that describes a ready item with events `ev`: its socket (or null and its
descriptor), its user data and the events.  For a socket the field `fd` of the slot is not
written and keeps the content `slot0` had. -/
def describes (slot0 : socket_poller_t.event_t) (it : item_t) (ev : Nat) :
    socket_poller_t.event_t :=
  match it.socket with
  | some sock => { slot0 with socket := some sock, user_data := it.user_data, events := ev }
  | none => { socket := none, fd := it.fd, user_data := it.user_data, events := ev }

/-! ### I/O thread -/

/-- A command: the object it is addressed to (`object_t *destination`) and its content. -/
structure command_t where
  destination : Nat
  type : Nat
deriving DecidableEq, Repr

/-- Modelled from the spec: the mailbox of the I/O thread is not part of the sources.
`recv k` is the outcome of the `k`-th non-blocking `mailbox.recv (&cmd, 0)` made by an
`in_event`: a command (return 0), or -1 with an errno. -/
structure mailbox_t where
  recv : Nat → query_t command_t

/-- What a call of `in_event` leaves behind: `ok` if it returns and `abort` if its final
assertion fails, the commands passed to `cmd.destination->process_command (cmd)` in call
order, and the number of calls of `mailbox.recv`. -/
structure in_event_result where
  rc : Res Unit
  processed : List command_t
  recvs : Nat
deriving DecidableEq, Repr

namespace io_thread_t

/-- The loop `while (rc == 0 || errno == EINTR)` of `in_event` followed by the final
`errno_assert (rc != 0 && errno == EAGAIN)`.  `last` is the outcome of the latest
`mailbox.recv`, `k` the number of calls of `mailbox.recv` so far; at most `fuel` evaluations
of the loop condition. -/
def in_event_loop (mailbox : mailbox_t) :
    Nat → Nat → query_t command_t → List command_t → Option in_event_result
  | 0, _, _, _ => none
  | fuel + 1, k, last, processed =>
    match last with
    | .value cmd => in_event_loop mailbox fuel (k + 1) (mailbox.recv k) (processed ++ [cmd])
    | .failed e =>
      if e = .EINTR then in_event_loop mailbox fuel (k + 1) (mailbox.recv k) processed
      else if e = .EAGAIN then some ⟨.ok (), processed, k⟩
      else some ⟨.abort, processed, k⟩

/-- `io_thread_t::in_event`. -/
def in_event (mailbox : mailbox_t) (fuel : Nat) : Option in_event_result :=
  in_event_loop mailbox fuel 1 (mailbox.recv 0) []

end io_thread_t

/-- The commands among the outcomes `k, ..., k + n - 1` of `mailbox.recv`, in order. -/
def delivered (mailbox : mailbox_t) (k n : Nat) : List command_t :=
  (List.range n).filterMap (fun j =>
    match mailbox.recv (k + j) with
    | .value cmd => some cmd
    | .failed _ => none)

/-! ### Concrete inputs used by the witnesses -/

/-- The frame "hello", final. -/
def frame_hello : msg_t := ⟨0, [104, 101, 108, 108, 111]⟩
/-- The frame "world", final. -/
def frame_world : msg_t := ⟨0, [119, 111, 114, 108, 100]⟩
/-- The frame "ok", final. -/
def frame_ok : msg_t := ⟨0, [111, 107]⟩
/-- The empty delimiter frame, more-flagged. -/
def frame_delimiter : msg_t := ⟨1, []⟩
/-- A router whose sends are all accepted by pipe 5, with one stale frame queued. -/
def demo_router : dealer_t := ⟨[(3, ⟨0, [1]⟩)], fun _ => some 5, []⟩
/-- A fresh strict REQ socket without correlation. -/
def demo_idle : req_t := ⟨false, true, none, false, 77, true⟩
/-- A strict REQ socket awaiting the reply to request 5 on pipe 7, correlation enabled. -/
def demo_awaiting : req_t := ⟨true, true, some 7, true, 5, true⟩
/-- A stale reply (request id 4) from pipe 7 and a frame from pipe 4, followed by the reply to
request 5. -/
def demo_replies : dealer_t :=
  ⟨[(7, ⟨1, [4, 0, 0, 0]⟩), (7, ⟨1, []⟩), (7, ⟨0, [9]⟩), (4, ⟨0, [8]⟩),
    (7, ⟨1, [5, 0, 0, 0]⟩), (7, ⟨1, []⟩), (7, frame_ok)], fun _ => some 7, []⟩

/-- A REQ session in state `bottom` over a base session that accepts every frame. -/
def demo_session : req_session_t := ⟨.bottom, ⟨fun _ => none, []⟩⟩


/-- An environment in which nothing is ever ready: sockets are not thread-safe and report no
events, `poll` and `select` report nothing, the clock reads `k` at its `k`-th reading. -/
def demo_quiet : env_t :=
  { thread_safe := fun _ => some false, fd := fun s => some (100 + s),
    events := fun _ _ => .value 0, poll := fun _ => .value [],
    select := fun _ => .value ([], [], []), now_ms := fun k => k, stray := fun _ => 0 }

/-- An environment in which socket 11 is readable. -/
def demo_ready : env_t :=
  { demo_quiet with events := fun _ s => .value (if s = 11 then 1 else 0) }

/-- A slot holding stale content. -/
def demo_stale : socket_poller_t.event_t := { socket := some 9, fd := 4, user_data := 1, events := 1 }

/-- A poller with descriptor 3 registered for input. -/
def demo_poller_fd : socket_poller_t := (socket_poller_t.add_fd socket_poller_t.init 3 0 1).2

/-- A poller with descriptor 3 registered with an all-zero interest mask. -/
def demo_poller_idle : socket_poller_t := (socket_poller_t.add_fd socket_poller_t.init 3 0 0).2

/-- A poller with socket 11 registered for input. -/
def demo_poller_socket : socket_poller_t := (socket_poller_t.add demo_quiet 50 socket_poller_t.init 11 7 1).2

/-- The outcome of a `wait` with capacity 3 on `demo_poller_socket` while socket 11 is
readable. -/
def demo_wait : socket_poller_t.wait_result :=
  match socket_poller_t.wait (linux .poll) demo_ready demo_poller_socket
      [demo_stale, demo_stale, demo_stale] 3 0 1 with
  | some r => r
  | none => ⟨.abort, [], socket_poller_t.init, []⟩

/-- A socket whose request id is the largest 32-bit value. -/
def demo_last_id : req_t := ⟨false, true, none, true, 4294967295, true⟩

/-- A relaxed socket in the middle of receiving a reply. -/
def demo_relaxed : req_t := ⟨true, false, some 7, false, 77, false⟩

/-- Two replies without request id: the first has a non-empty frame in the place of the
delimiter, the second is well-formed. -/
def demo_plain_replies : dealer_t :=
  ⟨[(7, ⟨1, [9]⟩), (7, ⟨0, [8]⟩), (7, frame_delimiter), (7, frame_ok)], fun _ => some 7, []⟩

/-- A strict socket without correlation that awaits a reply on pipe 7. -/
def demo_awaiting_plain : req_t := ⟨true, true, some 7, false, 77, true⟩

/-- The poller `demo_poller_fd` after `rebuild` in the array-based backend. -/
def demo_poller_built : socket_poller_t :=
  match socket_poller_t.rebuild (linux .poll) demo_quiet demo_poller_fd with
  | .ok q => q
  | _ => socket_poller_t.init

/-- A quiet environment whose clock advances by `2 ^ 31` ms per reading. -/
def demo_jump : env_t := { demo_quiet with now_ms := fun k => k * 2147483648 }

/-- A Windows build: `ZMQ_HAVE_WINDOWS` with the bitset backend. -/
def demo_windows : config_t := { linux .select with windows := true }

/-- A mailbox that delivers a command for object 1, is interrupted, delivers a command for
object 2 and is then empty. -/
def demo_mailbox : mailbox_t :=
  { recv := fun k =>
      if k = 0 then .value ⟨1, 10⟩
      else if k = 1 then .failed .EINTR
      else if k = 2 then .value ⟨2, 20⟩
      else .failed .EAGAIN }

/-- A queue that holds the first frame of a reply only: a non-empty frame with the more flag
from pipe 7, the rest of the message not yet there. -/
def demo_partial : dealer_t := ⟨[(7, ⟨1, [9]⟩)], fun _ => some 7, []⟩

/-- A queue that holds the first frame of a reply only: a more-flagged frame from pipe 7 with
request id 4, the rest of the message not yet there. -/
def demo_partial_id : dealer_t := ⟨[(7, ⟨1, [4, 0, 0, 0]⟩)], fun _ => some 7, []⟩

/-- A quiet environment in which `poll ()` reports input on the first entry. -/
def demo_fd_ready : env_t := { demo_quiet with poll := fun _ => .value [1] }

/-- A quiet environment in which a read outside the `pollfds` array yields `POLLIN`. -/
def demo_stray : env_t := { demo_quiet with stray := fun _ => 1 }

/-- A poller with descriptors 3 and 4 registered for input. -/
def demo_poller_two : socket_poller_t :=
  (socket_poller_t.add_fd (socket_poller_t.add_fd socket_poller_t.init 3 0 1).2 4 0 1).2

/-- The poller `demo_poller_two` after a `wait` with timeout 0 that finds nothing, followed by
`modify_fd (3, 0)`. -/
def demo_poller_cleared : socket_poller_t :=
  match socket_poller_t.wait (linux .poll) demo_quiet demo_poller_two [] 0 0 1 with
  | some r => (socket_poller_t.modify_fd r.poller 3 0).2
  | none => socket_poller_t.init

/-- A poller with descriptor 3 registered for input and descriptor 4 registered with an
all-zero interest mask. -/
def demo_poller_mixed : socket_poller_t :=
  (socket_poller_t.add_fd (socket_poller_t.add_fd socket_poller_t.init 3 0 1).2 4 0 0).2

/-! ## Theorems -/

/-! ### REQ socket: the receive path -/

/-- Outcomes of the loop of `recv_reply_pipe` under a sufficient bound. -/
theorem recv_reply_pipe_loop_cases (s : req_t) (out : Nat → Option pipe_t) :
    ∀ (inq : List (pipe_t × msg_t)) (n : Nat) (log : List router_ev), inq.length < n →
    (∃ skipped p m rest, inq = skipped ++ (p, m) :: rest ∧
        (∀ x ∈ skipped, s.acceptable x.1 = false) ∧ s.acceptable p = true ∧
        req_t.recv_reply_pipe_loop n s ⟨inq, out, log⟩ =
          some (.ok m, ⟨rest, out, log ++ received_log (skipped ++ [(p, m)])⟩)) ∨
    ((∀ x ∈ inq, s.acceptable x.1 = false) ∧
        req_t.recv_reply_pipe_loop n s ⟨inq, out, log⟩ =
          some (.err .EAGAIN, ⟨[], out, log ++ received_log inq ++ [.recv_failed]⟩)) := by
  intro inq
  induction inq with
  | nil =>
    intro n log hn
    right
    obtain ⟨k, rfl⟩ : ∃ k, n = k + 1 := ⟨n - 1, by omega⟩
    simp [req_t.recv_reply_pipe_loop, dealer_t.recvpipe, received_log]
  | cons x tl ih =>
    intro n log hn
    obtain ⟨k, rfl⟩ : ∃ k, n = k + 1 := ⟨n - 1, by omega⟩
    obtain ⟨p, m⟩ := x
    by_cases hacc : s.acceptable p = true
    · left
      refine ⟨[], p, m, tl, rfl, by simp, hacc, ?_⟩
      simp [req_t.recv_reply_pipe_loop, dealer_t.recvpipe, received_log, hacc]
    · have hacc' : s.acceptable p = false := by simpa using hacc
      have hk : tl.length < k := by simp at hn; omega
      rcases ih k (log ++ [.received p m]) hk with ⟨sk, q, m', rest, h1, h2, h3, h4⟩ | ⟨h1, h2⟩
      · left
        refine ⟨(p, m) :: sk, q, m', rest, by simp [h1], ?_, h3, ?_⟩
        · intro y hy
          rcases List.mem_cons.mp hy with rfl | hy
          · exact hacc'
          · exact h2 y hy
        · simp [req_t.recv_reply_pipe_loop, dealer_t.recvpipe, hacc', h4, received_log]
      · right
        refine ⟨?_, ?_⟩
        · intro y hy
          rcases List.mem_cons.mp hy with rfl | hy
          · exact hacc'
          · exact h1 y hy
        · simp [req_t.recv_reply_pipe_loop, dealer_t.recvpipe, hacc', h2, received_log]

/-- The two possible outcomes of `recv_reply_pipe`. -/
theorem recv_reply_pipe_cases (s : req_t) (d : dealer_t) :
    (∃ skipped p m rest, d.inq = skipped ++ (p, m) :: rest ∧
        (∀ x ∈ skipped, s.acceptable x.1 = false) ∧ s.acceptable p = true ∧
        req_t.recv_reply_pipe s d =
          some (.ok m, ⟨rest, d.out, d.log ++ received_log (skipped ++ [(p, m)])⟩)) ∨
    ((∀ x ∈ d.inq, s.acceptable x.1 = false) ∧
        req_t.recv_reply_pipe s d =
          some (.err .EAGAIN, ⟨[], d.out, d.log ++ received_log d.inq ++ [.recv_failed]⟩)) := by
  obtain ⟨inq, out, log⟩ := d
  exact recv_reply_pipe_loop_cases s out inq (inq.length + 1) log (Nat.lt_succ_self _)

/-- A successful `recv_reply_pipe` shortens the queue and returns a queued frame of an
acceptable pipe; a failing one is EAGAIN. -/
theorem recv_reply_pipe_props (s : req_t) (d : dealer_t) :
    ∃ rc d1, req_t.recv_reply_pipe s d = some (rc, d1) ∧ d1.out = d.out ∧
      d1.inq <:+ d.inq ∧
      ((∃ m p, rc = .ok m ∧ s.acceptable p = true ∧ (p, m) ∈ d.inq ∧
          d1.inq.length < d.inq.length) ∨ (rc = .err .EAGAIN ∧ d1.inq = [])) := by
  rcases recv_reply_pipe_cases s d with ⟨sk, p, m, rest, h1, _, h3, h4⟩ | ⟨_, h2⟩
  · refine ⟨_, _, h4, rfl, ?_, Or.inl ⟨m, p, rfl, h3, ?_, ?_⟩⟩
    · rw [h1]; exact ⟨sk ++ [(p, m)], by simp⟩
    · rw [h1]; simp
    · rw [h1]; simp; omega
  · exact ⟨_, _, h2, rfl, List.nil_suffix, Or.inr ⟨rfl, rfl⟩⟩

theorem skip_frames_loop_props (s : req_t) :
    ∀ (n : Nat) (m : msg_t) (d : dealer_t), d.inq.length < n →
    ∃ rc d1, req_t.skip_frames_loop n s m d = some (rc, d1) ∧ d1.out = d.out ∧
      d1.inq <:+ d.inq := by
  intro n
  induction n with
  | zero => intro m d h; omega
  | succ k ih =>
    intro m d h
    unfold req_t.skip_frames_loop
    by_cases hm : m.has_more = true
    · simp only [hm, if_true]
      obtain ⟨rc, d1, h1, h2, h3, h4⟩ := recv_reply_pipe_props s d
      rw [h1]
      rcases h4 with ⟨m1, p, rfl, _, _, hlt⟩ | ⟨rfl, _⟩
      · obtain ⟨rc2, d2, g1, g2, g3⟩ := ih m1 d1 (by omega)
        exact ⟨rc2, d2, g1, g2.trans h2, g3.trans h3⟩
      · exact ⟨_, _, rfl, h2, h3⟩
    · simp only [hm]
      exact ⟨_, _, rfl, rfl, List.suffix_refl _⟩

theorem skip_frames_props (s : req_t) (m : msg_t) (d : dealer_t) :
    ∃ rc d1, req_t.skip_frames s m d = some (rc, d1) ∧ d1.out = d.out ∧ d1.inq <:+ d.inq :=
  skip_frames_loop_props s _ m d (Nat.lt_succ_self _)

theorem check_request_id_props (s : req_t) (d : dealer_t) :
    ∃ st d1, req_t.check_request_id s d = some (st, d1) ∧ d1.out = d.out ∧
      d1.inq <:+ d.inq ∧ (st = .retry → d1.inq.length < d.inq.length) ∧
      (∀ m, st ≠ .returned (.ok m)) := by
  unfold req_t.check_request_id
  obtain ⟨rc, d1, h1, h2, h3, h4⟩ := recv_reply_pipe_props s d
  rw [h1]
  rcases h4 with ⟨m1, p, rfl, _, _, hlt⟩ | ⟨rfl, _⟩
  · by_cases hc : m1.has_more = false ∨ m1.size ≠ 4 ∨ u32_read m1.data ≠ s.request_id
    · simp only [hc, if_true]
      obtain ⟨rc2, d2, g1, g2, g3⟩ := skip_frames_props s m1 d1
      rw [g1]
      have hlen := g3.length_le
      cases rc2 with
      | ok u => exact ⟨_, _, rfl, g2.trans h2, g3.trans h3, fun _ => by omega, by simp⟩
      | err e => exact ⟨_, _, rfl, g2.trans h2, g3.trans h3, by simp, by simp⟩
      | abort => exact ⟨_, _, rfl, g2.trans h2, g3.trans h3, by simp, by simp⟩
    · simp only [hc, if_false]
      exact ⟨_, _, rfl, h2, h3, by simp, by simp⟩
  · exact ⟨_, _, rfl, h2, h3, by simp, by simp⟩

theorem check_delimiter_props (s : req_t) (d : dealer_t) :
    ∃ st d1, req_t.check_delimiter s d = some (st, d1) ∧ d1.out = d.out ∧
      d1.inq <:+ d.inq ∧ (st = .retry → d1.inq.length < d.inq.length) ∧
      (∀ m, st ≠ .returned (.ok m)) := by
  unfold req_t.check_delimiter
  obtain ⟨rc, d1, h1, h2, h3, h4⟩ := recv_reply_pipe_props s d
  rw [h1]
  rcases h4 with ⟨m1, p, rfl, _, _, hlt⟩ | ⟨rfl, _⟩
  · by_cases hc : m1.has_more = false ∨ m1.size ≠ 0
    · simp only [hc, if_true]
      obtain ⟨rc2, d2, g1, g2, g3⟩ := skip_frames_props s m1 d1
      rw [g1]
      have hlen := g3.length_le
      cases rc2 with
      | ok u => exact ⟨_, _, rfl, g2.trans h2, g3.trans h3, fun _ => by omega, by simp⟩
      | err e => exact ⟨_, _, rfl, g2.trans h2, g3.trans h3, by simp, by simp⟩
      | abort => exact ⟨_, _, rfl, g2.trans h2, g3.trans h3, by simp, by simp⟩
    · simp only [hc, if_false]
      exact ⟨_, _, rfl, h2, h3, by simp, by simp⟩
  · exact ⟨_, _, rfl, h2, h3, by simp, by simp⟩

theorem envelope_check_props (s : req_t) (d : dealer_t) :
    ∃ st d1, req_t.envelope_check s d = some (st, d1) ∧ d1.out = d.out ∧
      d1.inq <:+ d.inq ∧ (st = .retry → d1.inq.length < d.inq.length) ∧
      (∀ m, st ≠ .returned (.ok m)) := by
  unfold req_t.envelope_check
  by_cases hen : s.request_id_frames_enabled = true
  · simp only [hen, if_true]
    obtain ⟨st, d1, h1, h2, h3, h4, h5⟩ := check_request_id_props s d
    rw [h1]
    cases st with
    | returned rc => exact ⟨_, _, rfl, h2, h3, h4, h5⟩
    | retry => exact ⟨_, _, rfl, h2, h3, h4, h5⟩
    | matched =>
      obtain ⟨st2, d2, g1, g2, g3, g4, g5⟩ := check_delimiter_props s d1
      have hlen := h3.length_le
      exact ⟨st2, d2, g1, g2.trans h2, g3.trans h3, fun h => by have := g4 h; omega, g5⟩
  · simp only [hen]
    exact check_delimiter_props s d

theorem xrecv_body_props (s : req_t) (d : dealer_t) :
    ∃ rc s1 d1, req_t.xrecv_body s d = some (rc, s1, d1) ∧ d1.out = d.out ∧
      d1.inq <:+ d.inq ∧ rc ≠ .abort ∧
      (∀ m, rc = .ok m → ∃ p, s.acceptable p = true ∧ (p, m) ∈ d.inq) := by
  unfold req_t.xrecv_body
  obtain ⟨rc, d1, h1, h2, h3, h4⟩ := recv_reply_pipe_props s d
  rw [h1]
  rcases h4 with ⟨m1, p, rfl, hp, hmem, _⟩ | ⟨rfl, _⟩
  · by_cases hm : m1.has_more = false
    · simp only [hm, if_true]
      exact ⟨_, _, _, rfl, h2, h3, by simp, fun m hm => ⟨p, hp, by cases hm; exact hmem⟩⟩
    · simp only [hm, if_false]
      exact ⟨_, _, _, rfl, h2, h3, by simp, fun m hm => ⟨p, hp, by cases hm; exact hmem⟩⟩
  · exact ⟨_, _, _, rfl, h2, h3, by simp, by simp⟩

theorem xrecv_loop_props (s : req_t) :
    ∀ (n : Nat) (d : dealer_t), d.inq.length < n →
    ∃ rc s1 d1, req_t.xrecv_loop n s d = some (rc, s1, d1) ∧ d1.out = d.out ∧
      d1.inq <:+ d.inq ∧
      (∀ m, rc = .ok m → ∃ p, s.acceptable p = true ∧ (p, m) ∈ d.inq) := by
  intro n
  induction n with
  | zero => intro d h; omega
  | succ k ih =>
    intro d h
    unfold req_t.xrecv_loop
    by_cases hmb : s.message_begins = true
    · simp only [hmb, if_true]
      obtain ⟨st, d1, h1, h2, h3, h4, h5⟩ := envelope_check_props s d
      rw [h1]
      cases st with
      | returned rc =>
        exact ⟨_, _, _, rfl, h2, h3, fun m hm => absurd (by rw [hm]) (h5 m)⟩
      | retry =>
        have hlt := h4 rfl
        obtain ⟨rc, s2, d2, g1, g2, g3, g4⟩ := ih d1 (by omega)
        refine ⟨rc, s2, d2, g1, g2.trans h2, g3.trans h3, fun m hm => ?_⟩
        obtain ⟨p, hp, hmem⟩ := g4 m hm
        exact ⟨p, hp, h3.subset hmem⟩
      | matched =>
        obtain ⟨rc, s2, d2, g1, g2, g3, _, g4⟩ :=
          xrecv_body_props { s with message_begins := false } d1
        refine ⟨rc, s2, d2, g1, g2.trans h2, g3.trans h3, fun m hm => ?_⟩
        obtain ⟨p, hp, hmem⟩ := g4 m hm
        exact ⟨p, hp, h3.subset hmem⟩
    · simp only [hmb]
      obtain ⟨rc, s2, d2, g1, g2, g3, _, g4⟩ := xrecv_body_props s d
      exact ⟨rc, s2, d2, g1, g2, g3, g4⟩

/-- The result of the envelope loop does not depend on the iteration bound, once the bound
exceeds the queue length. -/
theorem xrecv_loop_bound (s : req_t) :
    ∀ (n n' : Nat) (d : dealer_t), d.inq.length < n → d.inq.length < n' →
    req_t.xrecv_loop n s d = req_t.xrecv_loop n' s d := by
  intro n
  induction n with
  | zero => intro n' d h; omega
  | succ k ih =>
    intro n' d h h'
    obtain ⟨k', rfl⟩ : ∃ k', n' = k' + 1 := ⟨n' - 1, by omega⟩
    unfold req_t.xrecv_loop
    by_cases hmb : s.message_begins = true
    · simp only [hmb, if_true]
      obtain ⟨st, d1, h1, _, _, h4, _⟩ := envelope_check_props s d
      rw [h1]
      cases st with
      | returned rc => rfl
      | retry =>
        have hlt := h4 rfl
        exact ih k' d1 (by omega) (by omega)
      | matched => rfl
    · simp [hmb]

/-- Every frame `xrecv` hands to the caller was queued in the router and came from an
acceptable pipe; `xrecv` always returns. -/
theorem xrecv_props (s : req_t) (d : dealer_t) :
    ∃ rc s1 d1, req_t.xrecv s d = some (rc, s1, d1) ∧ d1.out = d.out ∧
      d1.inq <:+ d.inq ∧
      (∀ m, rc = .ok m → ∃ p, s.acceptable p = true ∧ (p, m) ∈ d.inq) := by
  unfold req_t.xrecv
  by_cases hrr : s.receiving_reply = false
  · simp only [hrr, if_true]
    exact ⟨_, _, _, rfl, rfl, List.suffix_refl _, by simp⟩
  · simp only [hrr, if_false]
    exact xrecv_loop_props s _ d (Nat.lt_succ_self _)

theorem drain_loop_eq (out : Nat → Option pipe_t) :
    ∀ (inq : List (pipe_t × msg_t)) (n : Nat) (log : List router_ev), inq.length < n →
    req_t.drain_loop n ⟨inq, out, log⟩ =
      some ⟨[], out, log ++ received_log inq ++ [.recv_failed]⟩ := by
  intro inq
  induction inq with
  | nil =>
    intro n log hn
    obtain ⟨k, rfl⟩ : ∃ k, n = k + 1 := ⟨n - 1, by omega⟩
    simp [req_t.drain_loop, dealer_t.recvpipe, received_log]
  | cons x tl ih =>
    intro n log hn
    obtain ⟨k, rfl⟩ : ∃ k, n = k + 1 := ⟨n - 1, by omega⟩
    obtain ⟨p, m⟩ := x
    have hk : tl.length < k := by simp at hn; omega
    simp [req_t.drain_loop, dealer_t.recvpipe, ih k _ hk, received_log]

/-- The loop of `recv_reply_pipe` on a queue whose first acceptable frame is known. -/
theorem recv_reply_pipe_loop_skip (s : req_t) (out : Nat → Option pipe_t) (p : pipe_t)
    (m : msg_t) (rest : List (pipe_t × msg_t)) (hp : s.acceptable p = true) :
    ∀ (skipped : List (pipe_t × msg_t)) (n : Nat) (log : List router_ev),
    (∀ x ∈ skipped, s.acceptable x.1 = false) → (skipped ++ (p, m) :: rest).length < n →
    req_t.recv_reply_pipe_loop n s ⟨skipped ++ (p, m) :: rest, out, log⟩ =
      some (.ok m, ⟨rest, out, log ++ received_log (skipped ++ [(p, m)])⟩) := by
  intro skipped
  induction skipped with
  | nil =>
    intro n log _ hn
    obtain ⟨k, rfl⟩ : ∃ k, n = k + 1 := ⟨n - 1, by omega⟩
    simp [req_t.recv_reply_pipe_loop, dealer_t.recvpipe, received_log, hp]
  | cons x tl ih =>
    intro n log hsk hn
    obtain ⟨k, rfl⟩ : ∃ k, n = k + 1 := ⟨n - 1, by omega⟩
    obtain ⟨q, m'⟩ := x
    have hq : s.acceptable q = false := hsk (q, m') (List.mem_cons_self _ _)
    have hk : (tl ++ (p, m) :: rest).length < k := by simp at hn ⊢; omega
    have := ih k (log ++ [.received q m']) (fun y hy => hsk y (List.mem_cons_of_mem _ hy)) hk
    simp [req_t.recv_reply_pipe_loop, dealer_t.recvpipe, hq, this, received_log]

/-- `recv_reply_pipe` drops the frames of unacceptable pipes that precede the first frame
of an acceptable pipe, and returns that frame. -/
theorem recv_reply_pipe_skip (s : req_t) (d : dealer_t) (skipped : List (pipe_t × msg_t))
    (p : pipe_t) (m : msg_t) (rest : List (pipe_t × msg_t))
    (hq : d.inq = skipped ++ (p, m) :: rest)
    (hsk : ∀ x ∈ skipped, s.acceptable x.1 = false) (hp : s.acceptable p = true) :
    req_t.recv_reply_pipe s d =
      some (.ok m, ⟨rest, d.out, d.log ++ received_log (skipped ++ [(p, m)])⟩) := by
  obtain ⟨inq, out, log⟩ := d
  simp only at hq
  subst hq
  exact recv_reply_pipe_loop_skip s out p m rest hp skipped _ log hsk (Nat.lt_succ_self _)

/-- When no queued frame comes from an acceptable pipe, `recv_reply_pipe` consumes the whole
queue and fails with EAGAIN. -/
theorem recv_reply_pipe_none (s : req_t) (d : dealer_t)
    (h : ∀ x ∈ d.inq, s.acceptable x.1 = false) :
    req_t.recv_reply_pipe s d =
      some (.err .EAGAIN, ⟨[], d.out, d.log ++ received_log d.inq ++ [.recv_failed]⟩) := by
  rcases recv_reply_pipe_cases s d with ⟨sk, p, m, rest, h1, _, h3, _⟩ | ⟨_, h2⟩
  · have := h (p, m) (by rw [h1]; simp)
    simp [h3] at this
  · exact h2


/-- A check of the envelope hands back only EAGAIN or a failed assertion. -/
theorem check_request_id_rc (s : req_t) (d : dealer_t) (rc : Res msg_t) (d1 : dealer_t)
    (h : req_t.check_request_id s d = some (.returned rc, d1)) :
    rc = .err .EAGAIN ∨ rc = .abort := by
  unfold req_t.check_request_id at h
  obtain ⟨rc0, d0, h1, _, _, h4⟩ := recv_reply_pipe_props s d
  rw [h1] at h
  rcases h4 with ⟨m1, p, rfl, _, _, _⟩ | ⟨rfl, _⟩
  · simp only at h
    split at h
    · obtain ⟨rc2, d2, g1, _, _⟩ := skip_frames_props s m1 d0
      rw [g1] at h
      cases rc2 <;> simp at h
      · exact Or.inr h.1.symm
      · exact Or.inr h.1.symm
    · simp at h
  · simp at h
    exact Or.inl h.1.symm

/-- The same for the delimiter check. -/
theorem check_delimiter_rc (s : req_t) (d : dealer_t) (rc : Res msg_t) (d1 : dealer_t)
    (h : req_t.check_delimiter s d = some (.returned rc, d1)) :
    rc = .err .EAGAIN ∨ rc = .abort := by
  unfold req_t.check_delimiter at h
  obtain ⟨rc0, d0, h1, _, _, h4⟩ := recv_reply_pipe_props s d
  rw [h1] at h
  rcases h4 with ⟨m1, p, rfl, _, _, _⟩ | ⟨rfl, _⟩
  · simp only at h
    split at h
    · obtain ⟨rc2, d2, g1, _, _⟩ := skip_frames_props s m1 d0
      rw [g1] at h
      cases rc2 <;> simp at h
      · exact Or.inr h.1.symm
      · exact Or.inr h.1.symm
    · simp at h
  · simp at h
    exact Or.inl h.1.symm

/-- The same for one pass of the envelope loop. -/
theorem envelope_check_rc (s : req_t) (d : dealer_t) (rc : Res msg_t) (d1 : dealer_t)
    (h : req_t.envelope_check s d = some (.returned rc, d1)) :
    rc = .err .EAGAIN ∨ rc = .abort := by
  unfold req_t.envelope_check at h
  by_cases hen : s.request_id_frames_enabled = true
  · rw [if_pos hen] at h
    obtain ⟨st, d0, h1, _⟩ := check_request_id_props s d
    rw [h1] at h
    cases st with
    | returned rc0 =>
      simp at h
      rw [← h.1]
      exact check_request_id_rc s d rc0 d0 h1
    | retry => simp at h
    | matched => exact check_delimiter_rc s d0 rc d1 h
  · rw [if_neg hen] at h
    exact check_delimiter_rc s d rc d1 h

/-- The delivery step returns a frame or EAGAIN. -/
theorem xrecv_body_rc (s : req_t) (d : dealer_t) (rc : Res msg_t) (s1 : req_t) (d1 : dealer_t)
    (h : req_t.xrecv_body s d = some (rc, s1, d1)) :
    (∃ m, rc = .ok m) ∨ rc = .err .EAGAIN := by
  unfold req_t.xrecv_body at h
  obtain ⟨rc0, d0, h1, _, _, h4⟩ := recv_reply_pipe_props s d
  rw [h1] at h
  rcases h4 with ⟨m1, p, rfl, _, _, _⟩ | ⟨rfl, _⟩
  · simp only at h
    split at h <;> (simp at h; exact Or.inl ⟨m1, h.1.symm⟩)
  · simp at h
    exact Or.inr h.1.symm

/-- The envelope loop never answers EFSM. -/
theorem xrecv_loop_rc (s : req_t) :
    ∀ (n : Nat) (d : dealer_t) (rc : Res msg_t) (s1 : req_t) (d1 : dealer_t),
    req_t.xrecv_loop n s d = some (rc, s1, d1) →
    (∃ m, rc = .ok m) ∨ rc = .err .EAGAIN ∨ rc = .abort := by
  intro n
  induction n with
  | zero => intro d rc s1 d1 h; simp [req_t.xrecv_loop] at h
  | succ k ih =>
    intro d rc s1 d1 h
    unfold req_t.xrecv_loop at h
    by_cases hmb : s.message_begins = true
    · rw [if_pos hmb] at h
      obtain ⟨st, d0, h1, _⟩ := envelope_check_props s d
      rw [h1] at h
      cases st with
      | returned rc0 =>
        simp at h
        rw [← h.1]
        exact Or.inr (envelope_check_rc s d rc0 d0 h1)
      | retry => exact ih d0 rc s1 d1 h
      | matched =>
        rcases xrecv_body_rc _ d0 rc s1 d1 h with h2 | h2
        · exact Or.inl h2
        · exact Or.inr (Or.inl h2)
    · rw [if_neg hmb] at h
      rcases xrecv_body_rc _ d rc s1 d1 h with h2 | h2
      · exact Or.inl h2
      · exact Or.inr (Or.inl h2)

/-! ### REQ socket: the send path -/

/-- A router that accepts sends takes the frame and reports the pipe used. -/
theorem sendpipe_accepts (d : dealer_t) (m : msg_t) (hout : ∀ n, (d.out n).isSome = true) :
    ∃ p, d.sendpipe m = (some p, ⟨d.inq, d.out, d.log ++ [.sent m p]⟩) := by
  have h := hout d.nsent
  obtain ⟨p, hp⟩ := Option.isSome_iff_exists.mp h
  exact ⟨p, by simp [dealer_t.sendpipe, hp]⟩

/-- The delimiter frame built by `xsend`. -/
theorem bottom_frame_eq : msg_t.init.set_flags msg_t.more = ⟨1, []⟩ := rfl

/-- The request-id frame built by `xsend`. -/
theorem id_frame_eq (bs : List Byte) :
    ({ flags := 0, data := bs } : msg_t).set_flags msg_t.more = ⟨1, bs⟩ := by
  simp [msg_t.set_flags, msg_t.more]

/-- An accepted frame raises the count of accepted frames by one. -/
theorem nsent_sent (inq : List (pipe_t × msg_t)) (out : Nat → Option pipe_t)
    (log : List router_ev) (m : msg_t) (p : pipe_t) :
    (⟨inq, out, log ++ [.sent m p]⟩ : dealer_t).nsent = (⟨inq, out, log⟩ : dealer_t).nsent + 1 := by
  simp [dealer_t.nsent]

/-- A send that the router accepts on pipe `p`. -/
theorem sendpipe_of_out (d : dealer_t) (m : msg_t) (p : pipe_t)
    (h : d.out d.nsent = some p) :
    d.sendpipe m = (some p, ⟨d.inq, d.out, d.log ++ [.sent m p]⟩) := by
  simp [dealer_t.sendpipe, h]

/-- A send that the router refuses. -/
theorem sendpipe_refused (d : dealer_t) (m : msg_t) (h : d.out d.nsent = none) :
    d.sendpipe m = (none, ⟨d.inq, d.out, d.log ++ [.send_failed m]⟩) := by
  simp [dealer_t.sendpipe, h]

/-- The envelope phase without correlation, when the router accepts the delimiter. -/
theorem begin_request_plain (s : req_t) (d : dealer_t) (p : pipe_t)
    (hen : s.request_id_frames_enabled = false) (hp : d.out d.nsent = some p) :
    req_t.begin_request s d =
      some (.ok (), { s with reply_pipe := some p, message_begins := false },
        ⟨[], d.out, d.log ++ [.sent ⟨1, []⟩ p] ++ received_log d.inq
          ++ [.recv_failed]⟩) := by
  have hs := sendpipe_of_out d ⟨1, []⟩ p hp
  have hd := drain_loop_eq d.out d.inq (d.inq.length + 1)
    (d.log ++ [.sent ⟨1, []⟩ p]) (Nat.lt_succ_self _)
  simp [req_t.begin_request, hen, bottom_frame_eq, hs, hd]

/-- The envelope phase with correlation, when the router accepts both envelope frames. -/
theorem begin_request_correlated (s : req_t) (d : dealer_t) (p1 p : pipe_t)
    (hen : s.request_id_frames_enabled = true) (hp1 : d.out d.nsent = some p1)
    (hp : d.out (d.nsent + 1) = some p) :
    req_t.begin_request s d =
      some (.ok (), { s with reply_pipe := some p, message_begins := false,
                             request_id := (s.request_id + 1) % 2 ^ 32 },
        ⟨[], d.out, d.log ++ [.sent ⟨1, u32_bytes ((s.request_id + 1) % 2 ^ 32)⟩ p1,
            .sent ⟨1, []⟩ p] ++ received_log d.inq ++ [.recv_failed]⟩) := by
  have hs1 := sendpipe_of_out d ⟨1, u32_bytes ((s.request_id + 1) % 2 ^ 32)⟩ p1 hp1
  have hs := sendpipe_of_out
    ⟨d.inq, d.out, d.log ++ [.sent ⟨1, u32_bytes ((s.request_id + 1) % 2 ^ 32)⟩ p1]⟩
    ⟨1, []⟩ p (by
      obtain ⟨inq, out, log⟩ := d
      rw [nsent_sent]; exact hp)
  have hd := drain_loop_eq d.out d.inq (d.inq.length + 1)
    (d.log ++ [.sent ⟨1, u32_bytes ((s.request_id + 1) % 2 ^ 32)⟩ p1,
      .sent ⟨1, []⟩ p]) (Nat.lt_succ_self _)
  simp only [Nat.reducePow] at hs1 hs hd ⊢
  simp [req_t.begin_request, hen, bottom_frame_eq, id_frame_eq, hs1, hs, hd]

/-- The envelope phase when the router accepts the envelope: it succeeds, leaves the input
queue empty, and logs a receive for every frame that was queued. -/
theorem begin_request_drains (s : req_t) (d : dealer_t) (h : s.envelope_accepted d) :
    ∃ s1 env p, req_t.begin_request s d =
        some (.ok (), s1, ⟨[], d.out, d.log ++ env ++ received_log d.inq ++ [.recv_failed]⟩) ∧
      s1.message_begins = false ∧ s1.reply_pipe = some p ∧
      s1.receiving_reply = s.receiving_reply ∧ s1.strict = s.strict ∧
      s1.request_id_frames_enabled = s.request_id_frames_enabled ∧
      (∀ e ∈ env, ∃ f q, e = .sent f q) := by
  obtain ⟨p1, hp1⟩ := Option.isSome_iff_exists.mp h.1
  by_cases hen : s.request_id_frames_enabled = true
  · obtain ⟨p, hp⟩ := Option.isSome_iff_exists.mp (h.2 hen)
    exact ⟨_, _, p, begin_request_correlated s d p1 p hen hp1 hp, rfl, rfl, rfl, rfl, rfl,
      by simp⟩
  · have hen' : s.request_id_frames_enabled = false := by simpa using hen
    exact ⟨_, _, p1, begin_request_plain s d p1 hen' hp1, rfl, rfl, rfl, rfl, rfl, by simp⟩

/-- `xsend` at the start of a new request, on a router that accepts sends. -/
theorem xsend_new_request (s : req_t) (d : dealer_t) (msg : msg_t)
    (hmb : s.message_begins = true)
    (hfsm : ¬ (s.receiving_reply = true ∧ s.strict = true))
    (hout : ∀ n, (d.out n).isSome = true) :
    ∃ s1 env p q, req_t.xsend s d msg = some (.ok (), s1,
        ⟨[], d.out, d.log ++ env ++ received_log d.inq ++ [.recv_failed] ++ [.sent msg p]⟩) ∧
      (∀ e ∈ env, ∃ f r, e = .sent f r) ∧
      s1.receiving_reply = !msg.has_more ∧ s1.message_begins = !msg.has_more ∧
      s1.reply_pipe = some q ∧ s1.strict = s.strict ∧
      s1.request_id_frames_enabled = s.request_id_frames_enabled := by
  have key : ∀ s0 : req_t, s0.message_begins = true →
      ∃ (s1 : req_t) (env : List router_ev) (q : pipe_t),
        (if s0.message_begins = true then req_t.begin_request s0 d
          else some (.ok (), s0, d)) =
        some (.ok (), s1, ⟨[], d.out, d.log ++ env ++ received_log d.inq ++ [.recv_failed]⟩) ∧
        (∀ e ∈ env, ∃ f r, e = .sent f r) ∧ s1.reply_pipe = some q ∧
        s1.strict = s0.strict ∧
        s1.request_id_frames_enabled = s0.request_id_frames_enabled ∧
        s1.message_begins = false ∧ s1.receiving_reply = s0.receiving_reply := by
    intro s0 h0
    obtain ⟨s1, env, q, h, h1, h2, h3, h4, h5, henv⟩ := begin_request_drains s0 d ⟨hout _, fun _ => hout _⟩
    exact ⟨s1, env, q, by simp [h0, h], henv, h2, h4, h5, h1, h3⟩
  obtain ⟨s1, env, q, h1, henv, hq, hst, hen, hmb1, hrr1⟩ := key
    (if s.receiving_reply = true then
      { s with receiving_reply := false, message_begins := true } else s)
    (by split <;> simp [hmb])
  obtain ⟨p, hp⟩ := sendpipe_accepts
    ⟨[], d.out, d.log ++ env ++ received_log d.inq ++ [.recv_failed]⟩ msg hout
  have hst' : s1.strict = s.strict := by rw [hst]; split <;> rfl
  have hen' : s1.request_id_frames_enabled = s.request_id_frames_enabled := by
    rw [hen]; split <;> rfl
  have hrr' : s1.receiving_reply = false := by
    rw [hrr1]; split
    · rfl
    · simpa using ‹¬ s.receiving_reply = true›
  unfold req_t.xsend
  simp only [hfsm, if_false]
  simp only [h1, hp]
  by_cases hm : msg.has_more = false
  · simp only [hm, if_true]
    exact ⟨_, env, p, q, rfl, henv, rfl, rfl, hq, hst', hen'⟩
  · have hm' : msg.has_more = true := by simpa using hm
    simp only [hm', Bool.true_eq_false, if_false]
    exact ⟨_, env, p, q, rfl, henv, by simp [hrr'], by simp [hmb1], hq, hst', hen'⟩

/-- `xsend` at the start of a new request whose envelope the router accepts: the queue is
drained whether or not the router then accepts the frame of the caller. -/
theorem xsend_drains (s : req_t) (d : dealer_t) (msg : msg_t)
    (hmb : s.message_begins = true)
    (hfsm : ¬ (s.receiving_reply = true ∧ s.strict = true))
    (henv : s.envelope_accepted d) :
    ∃ rc s1 env last, req_t.xsend s d msg = some (rc, s1,
        ⟨[], d.out, d.log ++ env ++ received_log d.inq ++ [.recv_failed] ++ [last]⟩) ∧
      (∀ e ∈ env, ∃ f r, e = .sent f r) ∧
      ((rc = .ok () ∧ ∃ p, last = .sent msg p) ∨
        (rc = .err .EAGAIN ∧ last = .send_failed msg)) := by
  have henv0 : req_t.envelope_accepted
      (if s.receiving_reply = true then
        { s with receiving_reply := false, message_begins := true } else s) d := by
    split
    · exact henv
    · exact henv
  have hmb0 : (if s.receiving_reply = true then
        ({ s with receiving_reply := false, message_begins := true } : req_t) else s).message_begins
      = true := by split <;> simp [hmb]
  obtain ⟨s1, env, q, h1, _, _, _, _, _, hsent⟩ := begin_request_drains _ d henv0
  unfold req_t.xsend
  simp only [hfsm, if_false]
  rw [if_pos hmb0, h1]
  simp only
  cases hout : d.out (dealer_t.nsent
      ⟨[], d.out, d.log ++ env ++ received_log d.inq ++ [.recv_failed]⟩) with
  | none =>
    rw [sendpipe_refused _ msg hout]
    exact ⟨_, _, env, _, rfl, hsent, Or.inr ⟨rfl, rfl⟩⟩
  | some p =>
    rw [sendpipe_of_out _ msg p hout]
    by_cases hm : msg.has_more = false
    · simp only [hm, if_true]
      exact ⟨_, _, env, _, rfl, hsent, Or.inl ⟨rfl, p, rfl⟩⟩
    · simp only [hm, if_false]
      exact ⟨_, _, env, _, rfl, hsent, Or.inl ⟨rfl, p, rfl⟩⟩

/-- The envelope phase on a router that accepts sends, in full. -/
theorem begin_request_exact (s : req_t) (d : dealer_t)
    (hout : ∀ n, (d.out n).isSome = true) :
    ∃ pid p, req_t.begin_request s d =
      some (.ok (), { s with reply_pipe := some p, message_begins := false,
                             request_id := s.next_request_id },
        ⟨[], d.out, d.log ++ s.envelope_log pid p ++ received_log d.inq
          ++ [.recv_failed]⟩) := by
  obtain ⟨p1, hp1⟩ := Option.isSome_iff_exists.mp (hout d.nsent)
  by_cases hen : s.request_id_frames_enabled = true
  · obtain ⟨p, hp⟩ := Option.isSome_iff_exists.mp (hout (d.nsent + 1))
    refine ⟨p1, p, ?_⟩
    rw [begin_request_correlated s d p1 p hen hp1 hp]
    simp [req_t.envelope_log, req_t.next_request_id, hen]
  · have hen' : s.request_id_frames_enabled = false := by simpa using hen
    refine ⟨p1, p1, ?_⟩
    rw [begin_request_plain s d p1 hen' hp1]
    simp [req_t.envelope_log, req_t.next_request_id, hen']

/-- `xsend` at the start of a new request on a router that accepts sends, in full: the state
afterwards and everything that happened on the router. -/
theorem xsend_exact (s : req_t) (d : dealer_t) (msg : msg_t)
    (hstart : s.message_begins = true ∨ s.receiving_reply = true)
    (hfsm : ¬ (s.receiving_reply = true ∧ s.strict = true))
    (hout : ∀ n, (d.out n).isSome = true) :
    ∃ pid p q, req_t.xsend s d msg =
      some (.ok (), { s with receiving_reply := !msg.has_more,
                             message_begins := !msg.has_more,
                             reply_pipe := some p, request_id := s.next_request_id },
        ⟨[], d.out, d.log ++ s.envelope_log pid p ++ received_log d.inq
          ++ [.recv_failed] ++ [.sent msg q]⟩) := by
  obtain ⟨s0, hs0, hmb0, hrr0, hrest⟩ : ∃ s0 : req_t,
      (if s.receiving_reply = true then
        ({ s with receiving_reply := false, message_begins := true } : req_t) else s) = s0 ∧
      s0.message_begins = true ∧ s0.receiving_reply = false ∧
      (s0.reply_pipe = s.reply_pipe ∧
        s0.request_id_frames_enabled = s.request_id_frames_enabled ∧
        s0.request_id = s.request_id ∧ s0.strict = s.strict) := by
    by_cases hrr : s.receiving_reply = true
    · exact ⟨_, rfl, by simp [hrr], by simp [hrr], by simp [hrr]⟩
    · have hrr' : s.receiving_reply = false := by simpa using hrr
      refine ⟨_, rfl, ?_, by simp [hrr'], by simp [hrr']⟩
      rcases hstart with h | h
      · simp [hrr', h]
      · exact absurd h hrr
  obtain ⟨pid, p, hb⟩ := begin_request_exact s0 d hout
  obtain ⟨q, hq⟩ := sendpipe_accepts
    ⟨[], d.out, d.log ++ s0.envelope_log pid p ++ received_log d.inq ++ [.recv_failed]⟩
    msg hout
  have hlog : s0.envelope_log pid p = s.envelope_log pid p := by
    simp [req_t.envelope_log, req_t.next_request_id, hrest.2.1, hrest.2.2.1]
  have hid : s0.next_request_id = s.next_request_id := by
    simp [req_t.next_request_id, hrest.2.1, hrest.2.2.1]
  refine ⟨pid, p, q, ?_⟩
  unfold req_t.xsend
  simp only [hfsm, if_false]
  rw [hs0, if_pos hmb0, hb]
  simp only
  rw [hq]
  obtain ⟨rr, mb, rp, en, id, st⟩ := s
  obtain ⟨rr0, mb0, rp0, en0, id0, st0⟩ := s0
  simp only at hmb0 hrr0 hrest hlog hid
  obtain ⟨_, he, _, hst⟩ := hrest
  subst hrr0 he hst
  rw [hlog, hid]
  by_cases hm : msg.has_more = false
  · simp [hm]
  · have hm' : msg.has_more = true := by simpa using hm
    simp [hm']

/-- `recv_reply_pipe` returns the head of the queue when its pipe is acceptable. -/
theorem recv_reply_pipe_head (s : req_t) (d : dealer_t) (p : pipe_t) (m : msg_t)
    (rest : List (pipe_t × msg_t)) (hq : d.inq = (p, m) :: rest)
    (hp : s.acceptable p = true) :
    req_t.recv_reply_pipe s d = some (.ok m, ⟨rest, d.out, d.log ++ [.received p m]⟩) := by
  have := recv_reply_pipe_skip s d [] p m rest (by simpa using hq) (by simp) hp
  simpa [received_log] using this

/-- The delimiter check accepts a more-flagged empty frame of an acceptable pipe. -/
theorem check_delimiter_head (s : req_t) (d : dealer_t) (p : pipe_t) (m : msg_t)
    (rest : List (pipe_t × msg_t)) (hq : d.inq = (p, m) :: rest)
    (hp : s.acceptable p = true) (hm : m.has_more = true) (hsz : m.size = 0) :
    req_t.check_delimiter s d =
      some (.matched, ⟨rest, d.out, d.log ++ [.received p m]⟩) := by
  unfold req_t.check_delimiter
  rw [recv_reply_pipe_head s d p m rest hq hp]
  simp [hm, hsz]

/-- The delivery step returns the head of the queue when its pipe is acceptable. -/
theorem xrecv_body_head (s : req_t) (d : dealer_t) (p : pipe_t) (m : msg_t)
    (rest : List (pipe_t × msg_t)) (hq : d.inq = (p, m) :: rest)
    (hp : s.acceptable p = true) :
    req_t.xrecv_body s d =
      some (.ok m, (if m.has_more = false then
          { s with receiving_reply := false, message_begins := true } else s),
        ⟨rest, d.out, d.log ++ [.received p m]⟩) := by
  unfold req_t.xrecv_body
  rw [recv_reply_pipe_head s d p m rest hq hp]
  by_cases hm : m.has_more = false <;> simp [hm]

/-- Without correlation, `xrecv` at the start of a reply whose first two queued frames are a
delimiter and a body frame of an acceptable pipe delivers the body frame. -/
theorem xrecv_plain_reply (s : req_t) (d : dealer_t) (p : pipe_t) (delimiter body : msg_t)
    (rest : List (pipe_t × msg_t)) (hq : d.inq = (p, delimiter) :: (p, body) :: rest)
    (hrr : s.receiving_reply = true) (hmb : s.message_begins = true)
    (hen : s.request_id_frames_enabled = false)
    (hp : s.acceptable p = true) (hm : delimiter.has_more = true)
    (hsz : delimiter.size = 0) :
    req_t.xrecv s d =
      some (.ok body, (if body.has_more = false then
          { s with receiving_reply := false, message_begins := true }
          else { s with message_begins := false }),
        ⟨rest, d.out, d.log ++ [.received p delimiter] ++ [.received p body]⟩) := by
  have h1 := check_delimiter_head s d p delimiter ((p, body) :: rest) hq hp hm hsz
  have h2 := xrecv_body_head { s with message_begins := false }
    ⟨(p, body) :: rest, d.out, d.log ++ [.received p delimiter]⟩ p body rest rfl hp
  unfold req_t.xrecv
  rw [if_neg (by simp [hrr])]
  rw [req_t.xrecv_loop]
  rw [if_pos hmb]
  have h3 : req_t.envelope_check s d =
      some (.matched, ⟨(p, body) :: rest, d.out, d.log ++ [.received p delimiter]⟩) := by
    unfold req_t.envelope_check
    simp [hen, h1]
  rw [h3]
  simp only
  rw [h2]

/-! ### REQ socket: skipping messages -/

/-- The skip loop consumes the rest of a complete message. -/
theorem skip_frames_loop_message (s : req_t) (out : Nat → Option pipe_t)
    (rest : List (pipe_t × msg_t)) :
    ∀ (tl : List (pipe_t × msg_t)) (m : msg_t) (n : Nat) (log : List router_ev),
    is_message (m :: tl.map Prod.snd) = true → (∀ x ∈ tl, s.acceptable x.1 = true) →
    (tl ++ rest).length < n →
    req_t.skip_frames_loop n s m ⟨tl ++ rest, out, log⟩ =
      some (.ok (), ⟨rest, out, log ++ received_log tl⟩) := by
  intro tl
  induction tl with
  | nil =>
    intro m n log hmsg _ hn
    obtain ⟨k, rfl⟩ : ∃ k, n = k + 1 := ⟨n - 1, by omega⟩
    have hm : m.has_more = false := by simpa [is_message] using hmsg
    simp [req_t.skip_frames_loop, hm, received_log]
  | cons x tl ih =>
    intro m n log hmsg hacc hn
    obtain ⟨k, rfl⟩ : ∃ k, n = k + 1 := ⟨n - 1, by omega⟩
    obtain ⟨p, m1⟩ := x
    have hm : m.has_more = true ∧ is_message (m1 :: tl.map Prod.snd) = true := by
      simpa [is_message] using hmsg
    have hp : s.acceptable p = true := hacc (p, m1) (List.mem_cons_self _ _)
    have hk : (tl ++ rest).length < k := by simp at hn ⊢; omega
    have h1 := recv_reply_pipe_head s ⟨(p, m1) :: tl ++ rest, out, log⟩ p m1 (tl ++ rest)
      rfl hp
    have h2 := ih m1 k (log ++ [.received p m1]) hm.2
      (fun y hy => hacc y (List.mem_cons_of_mem _ hy)) hk
    rw [req_t.skip_frames_loop, if_pos hm.1, h1]
    simp only
    rw [h2]
    simp [received_log]

/-- With correlation enabled, the request-id check consumes a complete message whose first
frame is not the expected request id, and asks for a retry. -/
theorem check_request_id_mismatch (s : req_t) (d : dealer_t) (p : pipe_t) (m : msg_t)
    (tl rest : List (pipe_t × msg_t)) (hq : d.inq = (p, m) :: tl ++ rest)
    (hmsg : is_message (m :: tl.map Prod.snd) = true)
    (hacc : ∀ x ∈ (p, m) :: tl, s.acceptable x.1 = true)
    (hbad : matches_request_id s m = false) :
    req_t.check_request_id s d =
      some (.retry, ⟨rest, d.out, d.log ++ received_log ((p, m) :: tl)⟩) := by
  have hp : s.acceptable p = true := hacc (p, m) (List.mem_cons_self _ _)
  have h1 := recv_reply_pipe_head s d p m (tl ++ rest) (by simpa using hq) hp
  have h2 := skip_frames_loop_message s d.out rest tl m ((tl ++ rest).length + 1)
    (d.log ++ [.received p m]) hmsg (fun y hy => hacc y (List.mem_cons_of_mem _ hy))
    (Nat.lt_succ_self _)
  have hc : m.has_more = false ∨ m.size ≠ 4 ∨ u32_read m.data ≠ s.request_id := by
    simp only [matches_request_id, Bool.and_eq_false_iff, beq_eq_false_iff_ne] at hbad
    tauto
  unfold req_t.check_request_id
  rw [h1]
  simp only
  rw [if_pos hc]
  unfold req_t.skip_frames
  simp only
  rw [h2]
  simp [received_log]

/-- One uncorrelated message at the head of the queue is skipped by `xrecv`. -/
theorem xrecv_skip_one (s : req_t) (d : dealer_t) (m rest : List (pipe_t × msg_t))
    (hen : s.request_id_frames_enabled = true) (hrr : s.receiving_reply = true)
    (hmb : s.message_begins = true) (hq : d.inq = m ++ rest)
    (hmsg : is_message (m.map Prod.snd) = true)
    (hacc : ∀ x ∈ m, s.acceptable x.1 = true)
    (hbad : ∀ x ∈ m.head?, matches_request_id s x.2 = false) :
    req_t.xrecv s d = req_t.xrecv s ⟨rest, d.out, d.log ++ received_log m⟩ := by
  cases m with
  | nil => simp [is_message] at hmsg
  | cons x tl =>
    obtain ⟨p, m0⟩ := x
    have hb : matches_request_id s m0 = false := hbad (p, m0) (by simp)
    have h1 := check_request_id_mismatch s d p m0 tl rest (by simpa using hq)
      (by simpa using hmsg) hacc hb
    have h2 : req_t.envelope_check s d =
        some (.retry, ⟨rest, d.out, d.log ++ received_log ((p, m0) :: tl)⟩) := by
      unfold req_t.envelope_check
      simp [hen, h1]
    unfold req_t.xrecv
    rw [if_neg (by simp [hrr]), if_neg (by simp [hrr])]
    rw [req_t.xrecv_loop, if_pos hmb, h2]
    simp only
    apply xrecv_loop_bound
    · rw [hq]; simp; omega
    · simp

/-- Frames of unacceptable pipes at the head of the queue do not change what
`recv_reply_pipe` returns; they are consumed. -/
theorem recv_reply_pipe_foreign (s : req_t) (d : dealer_t) (m rest : List (pipe_t × msg_t))
    (hq : d.inq = m ++ rest) (hm : ∀ x ∈ m, s.acceptable x.1 = false) :
    req_t.recv_reply_pipe s d =
      req_t.recv_reply_pipe s ⟨rest, d.out, d.log ++ received_log m⟩ := by
  rcases recv_reply_pipe_cases s ⟨rest, d.out, d.log ++ received_log m⟩ with
    ⟨sk, p, x, r, h1, h2, h3, h4⟩ | ⟨h1, h2⟩
  · simp only at h1 h4
    rw [h4, recv_reply_pipe_skip s d (m ++ sk) p x r (by rw [hq, h1]; simp)
      (by
        intro y hy
        rcases List.mem_append.mp hy with h | h
        · exact hm y h
        · exact h2 y h) h3]
    simp [received_log]
  · simp only at h1 h2
    rw [h2, recv_reply_pipe_none s d (by
        intro y hy
        rw [hq] at hy
        rcases List.mem_append.mp hy with h | h
        · exact hm y h
        · exact h1 y h)]
    simp [received_log, hq]

/-- Frames of unacceptable pipes at the head of the queue are consumed by `xrecv` without
any other effect. -/
theorem xrecv_skip_foreign (s : req_t) (d : dealer_t) (m rest : List (pipe_t × msg_t))
    (hrr : s.receiving_reply = true)
    (hq : d.inq = m ++ rest) (hm : ∀ x ∈ m, s.acceptable x.1 = false) :
    req_t.xrecv s d = req_t.xrecv s ⟨rest, d.out, d.log ++ received_log m⟩ := by
  have h1 := recv_reply_pipe_foreign s d m rest hq hm
  have hb : req_t.xrecv_body s d =
      req_t.xrecv_body s ⟨rest, d.out, d.log ++ received_log m⟩ := by
    unfold req_t.xrecv_body; rw [h1]
  have hd : req_t.check_delimiter s d =
      req_t.check_delimiter s ⟨rest, d.out, d.log ++ received_log m⟩ := by
    unfold req_t.check_delimiter; rw [h1]
  have hi : req_t.check_request_id s d =
      req_t.check_request_id s ⟨rest, d.out, d.log ++ received_log m⟩ := by
    unfold req_t.check_request_id; rw [h1]
  have he : req_t.envelope_check s d =
      req_t.envelope_check s ⟨rest, d.out, d.log ++ received_log m⟩ := by
    unfold req_t.envelope_check
    by_cases hen : s.request_id_frames_enabled = true
    · rw [if_pos hen, if_pos hen, hi]
    · rw [if_neg hen, if_neg hen]
      exact hd
  unfold req_t.xrecv
  rw [if_neg (by simp [hrr]), if_neg (by simp [hrr])]
  rw [req_t.xrecv_loop, req_t.xrecv_loop, he, hb]
  by_cases hmb : s.message_begins = true
  · rw [if_pos hmb, if_pos hmb]
    obtain ⟨st, d1, g1, _, _, g4, _⟩ :=
      envelope_check_props s ⟨rest, d.out, d.log ++ received_log m⟩
    rw [g1]
    cases st with
    | returned rc => rfl
    | retry =>
      have hlt := g4 rfl
      simp only at hlt ⊢
      apply xrecv_loop_bound
      · rw [hq]; simp; omega
      · exact hlt
    | matched => rfl
  · rw [if_neg hmb, if_neg hmb]

/-- Reading back the bytes of a `uint32_t`. -/
theorem u32_read_bytes (v : Nat) : u32_read (u32_bytes v) = v % 2 ^ 32 := by
  simp only [u32_read, u32_bytes, Fin.ofNat, Fin.val_mk]
  omega

/-- The frames accepted by the router after more log entries. -/
theorem sent_frames_append (inq : List (pipe_t × msg_t)) (out : Nat → Option pipe_t)
    (l1 l2 : List router_ev) :
    (⟨inq, out, l1 ++ l2⟩ : dealer_t).sent_frames =
      (⟨inq, out, l1⟩ : dealer_t).sent_frames ++ (⟨inq, out, l2⟩ : dealer_t).sent_frames := by
  simp [dealer_t.sent_frames]

/-- Receives add nothing to the frames accepted by the router. -/
theorem sent_frames_received (inq : List (pipe_t × msg_t)) (out : Nat → Option pipe_t)
    (l : List (pipe_t × msg_t)) :
    (⟨inq, out, received_log l⟩ : dealer_t).sent_frames = [] := by
  simp [dealer_t.sent_frames, received_log, List.filterMap_map]
  
/-- The frames a new request adds to those accepted by the router. -/
theorem sent_frames_request (s : req_t) (inq inq0 : List (pipe_t × msg_t))
    (out : Nat → Option pipe_t) (log : List router_ev) (pid p q : pipe_t) (msg : msg_t) :
    (⟨inq, out, log ++ s.envelope_log pid p ++ received_log inq0 ++ [.recv_failed]
        ++ [.sent msg q]⟩ : dealer_t).sent_frames =
      (⟨inq0, out, log⟩ : dealer_t).sent_frames ++
        (if s.request_id_frames_enabled then
          [(⟨1, u32_bytes s.next_request_id⟩, pid), (⟨1, []⟩, p), (msg, q)]
        else [(⟨1, []⟩, p), (msg, q)]) := by
  by_cases hen : s.request_id_frames_enabled = true
  · simp [dealer_t.sent_frames, received_log, List.filterMap_append, List.filterMap_map,
      req_t.envelope_log, hen]
  · simp [dealer_t.sent_frames, received_log, List.filterMap_append, List.filterMap_map,
      req_t.envelope_log, hen]
/-- `xsend` in the middle of a request (the envelope is out, no reply is awaited): on a
router that accepts the frame, the frame is sent and the request completes exactly when the
frame is final. -/
theorem xsend_body_frame (s : req_t) (d : dealer_t) (msg : msg_t)
    (hmb : s.message_begins = false) (hrr : s.receiving_reply = false)
    (hout : ∀ n, (d.out n).isSome = true) :
    ∃ q, req_t.xsend s d msg =
      some (.ok (), (if msg.has_more = false then
          { s with receiving_reply := true, message_begins := true } else s),
        ⟨d.inq, d.out, d.log ++ [.sent msg q]⟩) := by
  obtain ⟨q, hq⟩ := sendpipe_accepts d msg hout
  refine ⟨q, ?_⟩
  unfold req_t.xsend
  simp only [hrr, Bool.false_eq_true, false_and, if_false, hmb]
  rw [hq]
  by_cases hm : msg.has_more = false
  · simp [hm]
  · simp [hm]

/-- The envelope phase always returns, with success, EAGAIN or a failed assertion. -/
theorem begin_request_rc (s : req_t) (d : dealer_t) :
    ∃ rc s1 d1, req_t.begin_request s d = some (rc, s1, d1) ∧
      (rc = .ok () ∨ rc = .err .EAGAIN ∨ rc = .abort) := by
  by_cases hen : s.request_id_frames_enabled = true
  · cases h0 : d.out d.nsent with
    | none =>
      have hs := sendpipe_refused d ⟨1, u32_bytes ((s.request_id + 1) % 2 ^ 32)⟩ h0
      simp only [Nat.reducePow] at hs
      have e : req_t.begin_request s d = some (.err .EAGAIN,
          { s with reply_pipe := none, request_id := (s.request_id + 1) % 4294967296 },
          ⟨d.inq, d.out, d.log ++
            [.send_failed ⟨1, u32_bytes ((s.request_id + 1) % 4294967296)⟩]⟩) := by
        simp [req_t.begin_request, hen, id_frame_eq, hs]
      exact ⟨_, _, _, e, Or.inr (Or.inl rfl)⟩
    | some p1 =>
      cases h1 : d.out (d.nsent + 1) with
      | none =>
        have hs := sendpipe_of_out d ⟨1, u32_bytes ((s.request_id + 1) % 2 ^ 32)⟩ p1 h0
        have hs2 := sendpipe_refused
          ⟨d.inq, d.out, d.log ++ [.sent ⟨1, u32_bytes ((s.request_id + 1) % 2 ^ 32)⟩ p1]⟩
          ⟨1, []⟩ (by
            obtain ⟨inq, out, log⟩ := d
            rw [nsent_sent]; exact h1)
        simp only [Nat.reducePow] at hs hs2
        have e : req_t.begin_request s d = some (.err .EAGAIN,
            { s with reply_pipe := some p1,
                     request_id := (s.request_id + 1) % 4294967296 },
            ⟨d.inq, d.out, d.log ++
              [.sent ⟨1, u32_bytes ((s.request_id + 1) % 4294967296)⟩ p1] ++
              [.send_failed ⟨1, []⟩]⟩) := by
          simp [req_t.begin_request, hen, id_frame_eq, bottom_frame_eq, hs, hs2]
        exact ⟨_, _, _, e, Or.inr (Or.inl rfl)⟩
      | some p =>
        exact ⟨_, _, _, begin_request_correlated s d p1 p hen h0 h1, Or.inl rfl⟩
  · have hen' : s.request_id_frames_enabled = false := by simpa using hen
    cases h0 : d.out d.nsent with
    | none =>
      have hs := sendpipe_refused d ⟨1, []⟩ h0
      have e : req_t.begin_request s d = some (.err .EAGAIN, { s with reply_pipe := none },
          ⟨d.inq, d.out, d.log ++ [.send_failed ⟨1, []⟩]⟩) := by
        simp [req_t.begin_request, hen', bottom_frame_eq, hs]
      exact ⟨_, _, _, e, Or.inr (Or.inl rfl)⟩
    | some p => exact ⟨_, _, _, begin_request_plain s d p hen' h0, Or.inl rfl⟩

/-- `xsend` always returns; it answers EFSM only from the strict check. -/
theorem xsend_rc (s : req_t) (d : dealer_t) (msg : msg_t)
    (hfsm : ¬ (s.receiving_reply = true ∧ s.strict = true)) :
    ∃ rc s1 d1, req_t.xsend s d msg = some (rc, s1, d1) ∧
      (rc = .ok () ∨ rc = .err .EAGAIN ∨ rc = .abort) := by
  unfold req_t.xsend
  rw [if_neg hfsm]
  simp only
  have key : ∀ s0 : req_t, ∃ rc s1 d1,
      (if s0.message_begins = true then req_t.begin_request s0 d
        else some (Res.ok (), s0, d)) = some (rc, s1, d1) ∧
      (rc = .ok () ∨ rc = .err .EAGAIN ∨ rc = .abort) := by
    intro s0
    by_cases hmb : s0.message_begins = true
    · rw [if_pos hmb]; exact begin_request_rc s0 d
    · rw [if_neg hmb]; exact ⟨_, _, _, rfl, Or.inl rfl⟩
  obtain ⟨rc, s1, d1, h, hrc⟩ := key
    (if s.receiving_reply = true then
      { s with receiving_reply := false, message_begins := true } else s)
  rw [h]
  rcases hrc with rfl | rfl | rfl
  · simp only
    cases h1 : d1.out d1.nsent with
    | none =>
      rw [sendpipe_refused d1 msg h1]
      exact ⟨_, _, _, rfl, Or.inr (Or.inl rfl)⟩
    | some q =>
      rw [sendpipe_of_out d1 msg q h1]
      by_cases hm : msg.has_more = false
      · simp only [hm, if_true]; exact ⟨_, _, _, rfl, Or.inl rfl⟩
      · simp only [hm, if_false]; exact ⟨_, _, _, rfl, Or.inl rfl⟩
  · exact ⟨_, _, _, rfl, Or.inr (Or.inl rfl)⟩
  · exact ⟨_, _, _, rfl, Or.inr (Or.inr rfl)⟩

/-- A frame returned by `recv_reply_pipe` is the first queued frame of an acceptable pipe. -/
theorem recv_reply_pipe_ok (s : req_t) (d : dealer_t) (m : msg_t) (d1 : dealer_t)
    (h : req_t.recv_reply_pipe s d = some (.ok m, d1)) :
    ∃ sk p, d.inq = sk ++ (p, m) :: d1.inq ∧ (∀ x ∈ sk, s.acceptable x.1 = false) ∧
      s.acceptable p = true := by
  rcases recv_reply_pipe_cases s d with ⟨sk, p, m', rest, h1, h2, h3, h4⟩ | ⟨_, h2⟩
  · rw [h4] at h
    simp only [Option.some.injEq, Prod.mk.injEq, Res.ok.injEq] at h
    obtain ⟨rfl, rfl⟩ := h
    exact ⟨sk, p, h1, h2, h3⟩
  · rw [h2] at h
    simp at h

/-- When the delimiter check passes, the frame it consumed is a valid delimiter of an
acceptable pipe. -/
theorem check_delimiter_matched (s : req_t) (d d1 : dealer_t)
    (h : req_t.check_delimiter s d = some (.matched, d1)) :
    ∃ sk p m, d.inq = sk ++ (p, m) :: d1.inq ∧ (∀ x ∈ sk, s.acceptable x.1 = false) ∧
      s.acceptable p = true ∧ valid_delimiter m = true := by
  unfold req_t.check_delimiter at h
  obtain ⟨rc0, d0, h1, _, _, h4⟩ := recv_reply_pipe_props s d
  rw [h1] at h
  rcases h4 with ⟨m1, p, rfl, _, _, _⟩ | ⟨rfl, _⟩
  · simp only at h
    split at h
    · obtain ⟨rc2, d2, g1, _, _⟩ := skip_frames_props s m1 d0
      rw [g1] at h
      cases rc2 <;> simp at h
    · rename_i hv
      simp only [Option.some.injEq, Prod.mk.injEq, true_and] at h
      subst h
      obtain ⟨sk, q, e, hsk, hq⟩ := recv_reply_pipe_ok s d m1 d0 h1
      refine ⟨sk, q, m1, e, hsk, hq, ?_⟩
      simp only [not_or, Bool.not_eq_false, ne_eq, Decidable.not_not] at hv
      simp [valid_delimiter, hv.1, hv.2]
  · simp at h

/-- When a pass of the envelope loop succeeds, the last frame it consumed is a valid
delimiter of an acceptable pipe. -/
theorem envelope_check_matched (s : req_t) (d d1 : dealer_t)
    (h : req_t.envelope_check s d = some (.matched, d1)) :
    ∃ pre p m, d.inq = pre ++ (p, m) :: d1.inq ∧ s.acceptable p = true ∧
      valid_delimiter m = true := by
  unfold req_t.envelope_check at h
  by_cases hen : s.request_id_frames_enabled = true
  · rw [if_pos hen] at h
    obtain ⟨st, d0, h1, _, ⟨pre0, hpre0⟩, _⟩ := check_request_id_props s d
    rw [h1] at h
    cases st with
    | returned rc0 => simp at h
    | retry => simp at h
    | matched =>
      obtain ⟨sk, p, m, e, _, hp, hv⟩ := check_delimiter_matched s d0 d1 h
      exact ⟨pre0 ++ sk, p, m, by rw [← hpre0, e]; simp, hp, hv⟩
  · rw [if_neg hen] at h
    obtain ⟨sk, p, m, e, _, hp, hv⟩ := check_delimiter_matched s d d1 h
    exact ⟨sk, p, m, e, hp, hv⟩

/-- A frame delivered by the last step of `xrecv` is the first queued frame of an acceptable
pipe. -/
theorem xrecv_body_ok (s : req_t) (d : dealer_t) (f : msg_t) (s1 : req_t) (d1 : dealer_t)
    (h : req_t.xrecv_body s d = some (.ok f, s1, d1)) :
    ∃ sk q, d.inq = sk ++ (q, f) :: d1.inq ∧ (∀ x ∈ sk, s.acceptable x.1 = false) ∧
      s.acceptable q = true := by
  unfold req_t.xrecv_body at h
  obtain ⟨rc0, d0, h1, _, _, h4⟩ := recv_reply_pipe_props s d
  rw [h1] at h
  rcases h4 with ⟨m1, p, rfl, _, _, _⟩ | ⟨rfl, _⟩
  · have hd : m1 = f ∧ d0 = d1 := by
      simp only at h
      split at h <;> (simp at h; exact ⟨h.1, h.2.2⟩)
    obtain ⟨rfl, rfl⟩ := hd
    exact recv_reply_pipe_ok s d m1 d0 h1
  · simp at h

/-- At the start of a reply, the frame that `xrecv` returns follows a valid delimiter, with
only frames of other pipes in between. -/
theorem xrecv_loop_after_delimiter (s : req_t) (hmb : s.message_begins = true) :
    ∀ (n : Nat) (d : dealer_t) (f : msg_t) (s1 : req_t) (d1 : dealer_t),
    req_t.xrecv_loop n s d = some (.ok f, s1, d1) →
    ∃ pre p delim sk q, d.inq = pre ++ (p, delim) :: sk ++ (q, f) :: d1.inq ∧
      valid_delimiter delim = true ∧ s.acceptable p = true ∧ s.acceptable q = true ∧
      (∀ x ∈ sk, s.acceptable x.1 = false) := by
  intro n
  induction n with
  | zero => intro d f s1 d1 h; simp [req_t.xrecv_loop] at h
  | succ k ih =>
    intro d f s1 d1 h
    unfold req_t.xrecv_loop at h
    rw [if_pos hmb] at h
    obtain ⟨st, d0, h1, _, ⟨pre0, hpre0⟩, _, h5⟩ := envelope_check_props s d
    rw [h1] at h
    cases st with
    | returned rc0 =>
      simp only [Option.some.injEq, Prod.mk.injEq] at h
      exact absurd h.1 (by
        intro e
        exact h5 f (by rw [e]))
    | retry =>
      obtain ⟨pre, p, delim, sk, q, e, hv, hp, hq, hsk⟩ := ih d0 f s1 d1 h
      exact ⟨pre0 ++ pre, p, delim, sk, q, by rw [← hpre0, e]; simp, hv, hp, hq, hsk⟩
    | matched =>
      obtain ⟨pre, p, delim, e, hp, hv⟩ := envelope_check_matched s d d0 h1
      obtain ⟨sk, q, e2, hsk, hq⟩ := xrecv_body_ok _ d0 f s1 d1 h
      exact ⟨pre, p, delim, sk, q, by rw [e, e2]; simp, hv, hp, hq, hsk⟩

/-- The delimiter check consumes a complete message whose first frame is not a valid
delimiter, and asks for a retry. -/
theorem check_delimiter_mismatch (s : req_t) (d : dealer_t) (p : pipe_t) (m : msg_t)
    (tl rest : List (pipe_t × msg_t)) (hq : d.inq = (p, m) :: tl ++ rest)
    (hmsg : is_message (m :: tl.map Prod.snd) = true)
    (hacc : ∀ x ∈ (p, m) :: tl, s.acceptable x.1 = true)
    (hbad : valid_delimiter m = false) :
    req_t.check_delimiter s d =
      some (.retry, ⟨rest, d.out, d.log ++ received_log ((p, m) :: tl)⟩) := by
  have hp : s.acceptable p = true := hacc (p, m) (List.mem_cons_self _ _)
  have h1 := recv_reply_pipe_head s d p m (tl ++ rest) (by simpa using hq) hp
  have h2 := skip_frames_loop_message s d.out rest tl m ((tl ++ rest).length + 1)
    (d.log ++ [.received p m]) hmsg (fun y hy => hacc y (List.mem_cons_of_mem _ hy))
    (Nat.lt_succ_self _)
  have hc : m.has_more = false ∨ m.size ≠ 0 := by
    simp only [valid_delimiter, Bool.and_eq_false_iff, beq_eq_false_iff_ne] at hbad
    exact hbad
  unfold req_t.check_delimiter
  rw [h1]
  simp only
  rw [if_pos hc]
  unfold req_t.skip_frames
  simp only
  rw [h2]
  simp [received_log]

/-- The request-id check passes on a matching first frame of an acceptable pipe. -/
theorem check_request_id_match (s : req_t) (d : dealer_t) (p : pipe_t) (m : msg_t)
    (rest : List (pipe_t × msg_t)) (hq : d.inq = (p, m) :: rest)
    (hp : s.acceptable p = true) (hm : matches_request_id s m = true) :
    req_t.check_request_id s d =
      some (.matched, ⟨rest, d.out, d.log ++ [.received p m]⟩) := by
  have h1 := recv_reply_pipe_head s d p m rest hq hp
  have hc : ¬ (m.has_more = false ∨ m.size ≠ 4 ∨ u32_read m.data ≠ s.request_id) := by
    simp only [matches_request_id, Bool.and_eq_true, beq_iff_eq] at hm
    simp [hm.1.1, hm.1.2, hm.2]
  unfold req_t.check_request_id
  rw [h1]
  simp only
  rw [if_neg hc]

/-- One message with an invalid delimiter at the head of the queue is skipped by `xrecv`. -/
theorem xrecv_skip_bad_delimiter (s : req_t) (d : dealer_t) (m rest : List (pipe_t × msg_t))
    (hrr : s.receiving_reply = true) (hmb : s.message_begins = true)
    (hq : d.inq = m ++ rest) (hmsg : is_message (m.map Prod.snd) = true)
    (hacc : ∀ x ∈ m, s.acceptable x.1 = true) (hbad : bad_delimiter s m) :
    req_t.xrecv s d = req_t.xrecv s ⟨rest, d.out, d.log ++ received_log m⟩ := by
  have h2 : req_t.envelope_check s d =
      some (.retry, ⟨rest, d.out, d.log ++ received_log m⟩) := by
    unfold bad_delimiter at hbad
    unfold req_t.envelope_check
    by_cases hen : s.request_id_frames_enabled = true
    · rw [if_pos hen] at hbad
      obtain ⟨p, idf, q, x, tl, rfl, hid, hx⟩ := hbad
      have hmore : idf.has_more = true := by
        simp only [matches_request_id, Bool.and_eq_true] at hid
        exact hid.1.1
      have hmsg2 : is_message (x :: tl.map Prod.snd) = true := by
        simpa [is_message, hmore] using hmsg
      have e1 := check_request_id_match s d p idf ((q, x) :: tl ++ rest) (by simpa using hq)
        (hacc _ (List.mem_cons_self _ _)) hid
      have e2 := check_delimiter_mismatch s
        ⟨(q, x) :: tl ++ rest, d.out, d.log ++ [.received p idf]⟩ q x tl rest rfl hmsg2
        (fun y hy => hacc y (List.mem_cons_of_mem _ hy)) hx
      rw [if_pos hen, e1]
      simp only
      rw [e2]
      simp [received_log]
    · rw [if_neg hen] at hbad
      obtain ⟨p, x, tl, rfl, hx⟩ := hbad
      have e2 := check_delimiter_mismatch s d p x tl rest (by simpa using hq)
        (by simpa using hmsg) hacc hx
      rw [if_neg hen]
      simp only
      rw [e2]
  have hne : m ≠ [] := by
    rintro rfl
    simp [is_message] at hmsg
  have hlen : 0 < m.length := List.length_pos.mpr hne
  unfold req_t.xrecv
  rw [if_neg (by simp [hrr]), if_neg (by simp [hrr])]
  rw [req_t.xrecv_loop, if_pos hmb, h2]
  simp only
  apply xrecv_loop_bound
  · rw [hq]; simp; omega
  · simp

/-- Messages that `xrecv` skips one by one are skipped in a row. -/
theorem xrecv_skip_all (s : req_t) (rest : List (pipe_t × msg_t)) :
    ∀ (bads : List (List (pipe_t × msg_t))) (d : dealer_t),
    d.inq = bads.flatten ++ rest →
    (∀ m ∈ bads, ∀ (d0 : dealer_t) (rest0 : List (pipe_t × msg_t)), d0.inq = m ++ rest0 →
      req_t.xrecv s d0 = req_t.xrecv s ⟨rest0, d0.out, d0.log ++ received_log m⟩) →
    req_t.xrecv s d = req_t.xrecv s ⟨rest, d.out, d.log ++ received_log bads.flatten⟩ := by
  intro bads
  induction bads with
  | nil =>
    intro d hq _
    obtain ⟨inq, out, log⟩ := d
    simp at hq
    simp [received_log, hq]
  | cons m ms ih =>
    intro d hq hskip
    have h1 := hskip m (List.mem_cons_self _ _) d (ms.flatten ++ rest) (by simpa using hq)
    have h2 := ih ⟨ms.flatten ++ rest, d.out, d.log ++ received_log m⟩ rfl
      (fun m' h => hskip m' (List.mem_cons_of_mem _ h))
    rw [h1, h2]
    simp [received_log]

/-- After an accepted frame is taken from a queue that does not end in the middle of a
message, the rest does not either, and it holds a further accepted frame if the frame taken
carries the more flag. -/
theorem complete_input_tail (s : req_t) (sk rest : List (pipe_t × msg_t)) (p : pipe_t)
    (m : msg_t) (hsk : ∀ x ∈ sk, s.acceptable x.1 = false) (hp : s.acceptable p = true)
    (h : complete_input s (sk ++ (p, m) :: rest) = true) :
    complete_input s rest = true ∧
    (m.has_more = true → ∃ x ∈ rest, s.acceptable x.1 = true) := by
  have hf : (sk ++ (p, m) :: rest).filter (fun x => s.acceptable x.1) =
      (p, m) :: rest.filter (fun x => s.acceptable x.1) := by
    rw [List.filter_append, List.filter_cons]
    have : sk.filter (fun x => s.acceptable x.1) = [] := by
      rw [List.filter_eq_nil_iff]
      intro x hx; simp [hsk x hx]
    simp [this, hp]
  unfold complete_input at h ⊢
  rw [hf] at h
  cases hF : rest.filter (fun x => s.acceptable x.1) with
  | nil =>
    rw [hF] at h
    refine ⟨by simp, ?_⟩
    intro hm
    simp [hm] at h
  | cons y ys =>
    rw [hF] at h
    rw [List.getLast?_cons_cons] at h
    refine ⟨h, fun _ => ?_⟩
    have hy : y ∈ rest.filter (fun x => s.acceptable x.1) := by rw [hF]; simp
    exact ⟨y, (List.mem_filter.mp hy).1, by simpa using (List.mem_filter.mp hy).2⟩

/-- On a queue that does not end in the middle of a message the skip loop ends without a
failed assertion. -/
theorem skip_frames_loop_safe (s : req_t) :
    ∀ (n : Nat) (m : msg_t) (d : dealer_t), d.inq.length < n →
    complete_input s d.inq = true →
    (m.has_more = true → ∃ x ∈ d.inq, s.acceptable x.1 = true) →
    ∃ d1, req_t.skip_frames_loop n s m d = some (.ok (), d1) ∧
      complete_input s d1.inq = true := by
  intro n
  induction n with
  | zero => intro m d h; omega
  | succ n ih =>
    intro m d hn hc hm
    rw [req_t.skip_frames_loop]
    by_cases hmore : m.has_more = true
    · simp only [hmore, if_true]
      rcases recv_reply_pipe_cases s d with
        ⟨sk, p, m1, rest, hq, hsk, hp, hr⟩ | ⟨hall, _⟩
      · rw [hr]
        rw [hq] at hc
        obtain ⟨hc1, hm1⟩ := complete_input_tail s sk rest p m1 hsk hp hc
        have hlen : rest.length < n := by
          have := congrArg List.length hq
          simp at this
          omega
        exact ih m1 ⟨rest, d.out, _⟩ hlen hc1 hm1
      · obtain ⟨x, hx, hacc⟩ := hm hmore
        rw [hall x hx] at hacc
        exact absurd hacc (by simp)
    · simp only [hmore, Bool.false_eq_true, if_false]
      exact ⟨d, rfl, hc⟩

/-- On a queue that does not end in the middle of a message `skip_frames` ends without a
failed assertion. -/
theorem skip_frames_safe (s : req_t) (m : msg_t) (d : dealer_t)
    (hc : complete_input s d.inq = true)
    (hm : m.has_more = true → ∃ x ∈ d.inq, s.acceptable x.1 = true) :
    ∃ d1, req_t.skip_frames s m d = some (.ok (), d1) ∧ complete_input s d1.inq = true :=
  skip_frames_loop_safe s _ m d (Nat.lt_succ_self _) hc hm

/-- On a queue that does not end in the middle of a message the request-id check does not
fail an assertion. -/
theorem check_request_id_safe (s : req_t) (d : dealer_t)
    (hc : complete_input s d.inq = true) :
    ∃ st d1, req_t.check_request_id s d = some (st, d1) ∧ st ≠ .returned .abort ∧
      complete_input s d1.inq = true := by
  unfold req_t.check_request_id
  rcases recv_reply_pipe_cases s d with ⟨sk, p, m, rest, hq, hsk, hp, hr⟩ | ⟨_, hr⟩
  · rw [hr]
    rw [hq] at hc
    obtain ⟨hc1, hm1⟩ := complete_input_tail s sk rest p m hsk hp hc
    simp only
    split
    · obtain ⟨d2, h2, hc2⟩ := skip_frames_safe s m ⟨rest, d.out, _⟩ hc1 hm1
      rw [h2]
      exact ⟨_, _, rfl, by simp, hc2⟩
    · exact ⟨_, _, rfl, by simp, hc1⟩
  · rw [hr]
    exact ⟨_, _, rfl, by simp, by simp [complete_input]⟩

/-- On a queue that does not end in the middle of a message the delimiter check does not fail
an assertion. -/
theorem check_delimiter_safe (s : req_t) (d : dealer_t)
    (hc : complete_input s d.inq = true) :
    ∃ st d1, req_t.check_delimiter s d = some (st, d1) ∧ st ≠ .returned .abort ∧
      complete_input s d1.inq = true := by
  unfold req_t.check_delimiter
  rcases recv_reply_pipe_cases s d with ⟨sk, p, m, rest, hq, hsk, hp, hr⟩ | ⟨_, hr⟩
  · rw [hr]
    rw [hq] at hc
    obtain ⟨hc1, hm1⟩ := complete_input_tail s sk rest p m hsk hp hc
    simp only
    split
    · obtain ⟨d2, h2, hc2⟩ := skip_frames_safe s m ⟨rest, d.out, _⟩ hc1 hm1
      rw [h2]
      exact ⟨_, _, rfl, by simp, hc2⟩
    · exact ⟨_, _, rfl, by simp, hc1⟩
  · rw [hr]
    exact ⟨_, _, rfl, by simp, by simp [complete_input]⟩

/-- On a queue that does not end in the middle of a message one envelope check does not fail
an assertion. -/
theorem envelope_check_safe (s : req_t) (d : dealer_t)
    (hc : complete_input s d.inq = true) :
    ∃ st d1, req_t.envelope_check s d = some (st, d1) ∧ st ≠ .returned .abort ∧
      complete_input s d1.inq = true := by
  unfold req_t.envelope_check
  by_cases hen : s.request_id_frames_enabled = true
  · simp only [hen, if_true]
    obtain ⟨st, d1, h1, hst, hc1⟩ := check_request_id_safe s d hc
    rw [h1]
    cases st with
    | matched => exact check_delimiter_safe s d1 hc1
    | retry => exact ⟨_, _, rfl, by simp, hc1⟩
    | returned rc => exact ⟨_, _, rfl, hst, hc1⟩
  · simp only [hen, Bool.false_eq_true, if_false]
    exact check_delimiter_safe s d hc

/-- On a queue that does not end in the middle of a message the loop of `xrecv` does not fail
an assertion. -/
theorem xrecv_loop_safe :
    ∀ (n : Nat) (s : req_t) (d : dealer_t) (rc : Res msg_t) (s1 : req_t) (d1 : dealer_t),
    complete_input s d.inq = true →
    req_t.xrecv_loop n s d = some (rc, s1, d1) → rc ≠ .abort := by
  intro n
  induction n with
  | zero => intro s d rc s1 d1 _ h; simp [req_t.xrecv_loop] at h
  | succ n ih =>
    intro s d rc s1 d1 hc h
    rw [req_t.xrecv_loop] at h
    by_cases hmb : s.message_begins = true
    · simp only [hmb, if_true] at h
      obtain ⟨st, d2, h2, hst, hc2⟩ := envelope_check_safe s d hc
      rw [h2] at h
      cases st with
      | returned rc2 =>
        simp only [Option.some.injEq, Prod.mk.injEq] at h
        obtain ⟨rfl, _, _⟩ := h
        intro habort; exact hst (by rw [habort])
      | retry => exact ih s d2 rc s1 d1 hc2 h
      | matched =>
        simp only at h
        rcases xrecv_body_rc _ _ _ _ _ h with ⟨m, rfl⟩ | rfl <;> simp
    · simp only [hmb, Bool.false_eq_true, if_false] at h
      rcases xrecv_body_rc _ _ _ _ _ h with ⟨m, rfl⟩ | rfl <;> simp

/-- The delivery of a frame leaves `reply_pipe` alone. -/
theorem xrecv_body_reply_pipe (s : req_t) (d : dealer_t) (rc : Res msg_t) (s1 : req_t)
    (d1 : dealer_t) (h : req_t.xrecv_body s d = some (rc, s1, d1)) :
    s1.reply_pipe = s.reply_pipe ∧
    (∀ f, rc = .ok f → f.has_more = false →
      s1.receiving_reply = false ∧ s1.message_begins = true) := by
  unfold req_t.xrecv_body at h
  cases hr : req_t.recv_reply_pipe s d with
  | none => simp [hr] at h
  | some v =>
    obtain ⟨rc0, d2⟩ := v
    cases rc0 with
    | ok m =>
      simp only [hr] at h
      by_cases hm : m.has_more = false
      · simp only [hm, if_true, Option.some.injEq, Prod.mk.injEq] at h
        obtain ⟨rfl, rfl, _⟩ := h
        simp
      · simp only [hm, if_false, Option.some.injEq, Prod.mk.injEq] at h
        obtain ⟨rfl, rfl, _⟩ := h
        refine ⟨rfl, ?_⟩
        intro f hf hf2
        simp only [Res.ok.injEq] at hf
        subst hf
        exact absurd hf2 hm
    | err e =>
      simp only [hr, Option.some.injEq, Prod.mk.injEq] at h
      obtain ⟨rfl, rfl, _⟩ := h
      exact ⟨rfl, fun f hf => by simp at hf⟩
    | abort =>
      simp only [hr, Option.some.injEq, Prod.mk.injEq] at h
      obtain ⟨rfl, rfl, _⟩ := h
      exact ⟨rfl, fun f hf => by simp at hf⟩

/-- The loop of `xrecv` leaves `reply_pipe` alone. -/
theorem xrecv_loop_reply_pipe :
    ∀ (n : Nat) (s : req_t) (d : dealer_t) (rc : Res msg_t) (s1 : req_t) (d1 : dealer_t),
    req_t.xrecv_loop n s d = some (rc, s1, d1) →
    s1.reply_pipe = s.reply_pipe ∧
    (∀ f, rc = .ok f → f.has_more = false →
      s1.receiving_reply = false ∧ s1.message_begins = true) := by
  intro n
  induction n with
  | zero => intro s d rc s1 d1 h; simp [req_t.xrecv_loop] at h
  | succ n ih =>
    intro s d rc s1 d1 h
    rw [req_t.xrecv_loop] at h
    by_cases hmb : s.message_begins = true
    · simp only [hmb, if_true] at h
      obtain ⟨st, d2, h2, _, _, _, hst⟩ := envelope_check_props s d
      rw [h2] at h
      cases st with
      | returned rc2 =>
        simp only [Option.some.injEq, Prod.mk.injEq] at h
        obtain ⟨rfl, rfl, _⟩ := h
        refine ⟨rfl, ?_⟩
        intro f hf
        exact absurd (by rw [hf]) (hst f)
      | retry => exact ih s d2 rc s1 d1 h
      | matched =>
        simp only at h
        have h3 := xrecv_body_reply_pipe _ _ _ _ _ h
        exact h3
    · simp only [hmb, Bool.false_eq_true, if_false] at h
      exact xrecv_body_reply_pipe _ _ _ _ _ h

/-! ### REQ socket: claims -/

/-- C1: on a strict socket with a reply outstanding, `xsend` returns -1 with EFSM and changes
neither the socket state nor the router (nothing is sent or received). -/
theorem xsend_strict_rejects (s : req_t) (d : dealer_t) (msg : msg_t)
    (hstrict : s.strict = true) (hrr : s.receiving_reply = true) :
    req_t.xsend s d msg = some (.err .EFSM, s, d) := by
  simp [req_t.xsend, hstrict, hrr]

/-- Witness of C1 at a concrete socket and router. -/
theorem xsend_strict_rejects_witness :
    demo_awaiting.strict = true ∧ demo_awaiting.receiving_reply = true ∧
    req_t.xsend demo_awaiting demo_router frame_world =
      some (.err .EFSM, demo_awaiting, demo_router) :=
  ⟨rfl, rfl, xsend_strict_rejects demo_awaiting demo_router frame_world rfl rfl⟩

/-- C2: with correlation enabled, at the start of a reply, `xrecv` consumes every leading
message that is either a complete message of an acceptable pipe whose first frame is not a
more-flagged 4-byte frame holding `request_id`, or made of frames of other pipes, and goes
on with the next message; no frame it returns belongs to those messages. -/
theorem xrecv_skips_uncorrelated (s : req_t) (bads : List (List (pipe_t × msg_t)))
    (rest : List (pipe_t × msg_t)) (d : dealer_t)
    (hen : s.request_id_frames_enabled = true) (hrr : s.receiving_reply = true)
    (hmb : s.message_begins = true) (hq : d.inq = bads.flatten ++ rest)
    (hbad : ∀ m ∈ bads, (∀ x ∈ m, s.acceptable x.1 = false) ∨
      (is_message (m.map Prod.snd) = true ∧ (∀ x ∈ m, s.acceptable x.1 = true) ∧
        ∀ x ∈ m.head?, matches_request_id s x.2 = false)) :
    req_t.xrecv s d = req_t.xrecv s ⟨rest, d.out, d.log ++ received_log bads.flatten⟩ ∧
    (∀ f s1 d1, req_t.xrecv s d = some (.ok f, s1, d1) → ∃ p, (p, f) ∈ rest) := by
  have key : ∀ (bads : List (List (pipe_t × msg_t))) (d : dealer_t),
      d.inq = bads.flatten ++ rest →
      (∀ m ∈ bads, (∀ x ∈ m, s.acceptable x.1 = false) ∨
        (is_message (m.map Prod.snd) = true ∧ (∀ x ∈ m, s.acceptable x.1 = true) ∧
          ∀ x ∈ m.head?, matches_request_id s x.2 = false)) →
      req_t.xrecv s d =
        req_t.xrecv s ⟨rest, d.out, d.log ++ received_log bads.flatten⟩ := by
    intro bads
    induction bads with
    | nil =>
      intro d hq _
      obtain ⟨inq, out, log⟩ := d
      simp at hq
      simp [received_log, hq]
    | cons m ms ih =>
      intro d hq hbad
      have h1 : req_t.xrecv s d =
          req_t.xrecv s ⟨ms.flatten ++ rest, d.out, d.log ++ received_log m⟩ := by
        rcases hbad m (List.mem_cons_self _ _) with hf | ⟨hmsg, hacc, hb⟩
        · exact xrecv_skip_foreign s d m (ms.flatten ++ rest) hrr (by simpa using hq) hf
        · exact xrecv_skip_one s d m (ms.flatten ++ rest) hen hrr hmb (by simpa using hq)
            hmsg hacc hb
      have h2 := ih ⟨ms.flatten ++ rest, d.out, d.log ++ received_log m⟩ rfl
        (fun m' h => hbad m' (List.mem_cons_of_mem _ h))
      rw [h1, h2]
      simp [received_log]
  have h := key bads d hq hbad
  refine ⟨h, ?_⟩
  intro f s1 d1 hf
  rw [h] at hf
  obtain ⟨rc, s2, d2, g1, _, _, g4⟩ :=
    xrecv_props s ⟨rest, d.out, d.log ++ received_log bads.flatten⟩
  rw [hf] at g1
  cases g1
  obtain ⟨q, _, hmem⟩ := g4 f rfl
  exact ⟨q, hmem⟩


/-- Witness of C2 at a concrete socket and router. -/
theorem xrecv_skips_uncorrelated_witness :
    req_t.xrecv demo_awaiting demo_replies =
      req_t.xrecv demo_awaiting
        ⟨[(7, ⟨1, [5, 0, 0, 0]⟩), (7, ⟨1, []⟩), (7, frame_ok)], demo_replies.out,
          demo_replies.log ++ received_log
            [(7, ⟨1, [4, 0, 0, 0]⟩), (7, ⟨1, []⟩), (7, ⟨0, [9]⟩), (4, ⟨0, [8]⟩)]⟩ :=
  (xrecv_skips_uncorrelated demo_awaiting
    [[(7, ⟨1, [4, 0, 0, 0]⟩), (7, ⟨1, []⟩), (7, ⟨0, [9]⟩)], [(4, ⟨0, [8]⟩)]]
    [(7, ⟨1, [5, 0, 0, 0]⟩), (7, ⟨1, []⟩), (7, frame_ok)] demo_replies rfl rfl rfl rfl
    (by decide)).1

/-- C3: with `reply_pipe = p`, `recv_reply_pipe` consumes the frames of other pipes and
returns the first frame of `p` (EAGAIN when there is none), `xrecv` returns only frames of
`p`; `xpipe_terminated q` clears `reply_pipe` exactly when `q = p`; with `reply_pipe` cleared
`recv_reply_pipe` returns the first queued frame, whatever its pipe. -/
theorem reply_pipe_affinity (s : req_t) (d : dealer_t) (p : pipe_t)
    (hp : s.reply_pipe = some p) :
    (∀ skipped m rest, d.inq = skipped ++ (p, m) :: rest → (∀ x ∈ skipped, x.1 ≠ p) →
      req_t.recv_reply_pipe s d =
        some (.ok m, ⟨rest, d.out, d.log ++ received_log (skipped ++ [(p, m)])⟩)) ∧
    ((∀ x ∈ d.inq, x.1 ≠ p) →
      req_t.recv_reply_pipe s d =
        some (.err .EAGAIN, ⟨[], d.out, d.log ++ received_log d.inq ++ [.recv_failed]⟩)) ∧
    (∀ m s1 d1, req_t.xrecv s d = some (.ok m, s1, d1) → (p, m) ∈ d.inq) ∧
    (∀ q, ((req_t.xpipe_terminated s d q).1.reply_pipe = none ↔ q = p) ∧
      (q ≠ p → (req_t.xpipe_terminated s d q).1 = s) ∧
      (req_t.xpipe_terminated s d p).1 = { s with reply_pipe := none }) ∧
    (∀ q m rest, d.inq = (q, m) :: rest →
      req_t.recv_reply_pipe (req_t.xpipe_terminated s d p).1 d =
        some (.ok m, ⟨rest, d.out, d.log ++ [.received q m]⟩)) := by
  have hacc : ∀ q, s.acceptable q = true ↔ q = p := by
    intro q; simp [req_t.acceptable, hp]
  have hacc' : ∀ q, q ≠ p → s.acceptable q = false := by
    intro q hq
    cases h : s.acceptable q with
    | false => rfl
    | true => exact absurd ((hacc q).mp h) hq
  refine ⟨?_, ?_, ?_, ?_, ?_⟩
  · intro skipped m rest hq hsk
    exact recv_reply_pipe_skip s d skipped p m rest hq (fun x hx => hacc' _ (hsk x hx))
      ((hacc p).mpr rfl)
  · intro h
    exact recv_reply_pipe_none s d (fun x hx => hacc' _ (h x hx))
  · intro m s1 d1 h
    obtain ⟨rc, s2, d2, g1, _, _, g4⟩ := xrecv_props s d
    rw [h] at g1
    cases g1
    obtain ⟨q, hq, hmem⟩ := g4 m rfl
    rw [(hacc q).mp hq] at hmem
    exact hmem
  · intro q
    refine ⟨?_, ?_, ?_⟩
    · by_cases hqp : q = p
      · simp [req_t.xpipe_terminated, hp, hqp]
      · have : ¬ p = q := fun h => hqp h.symm
        simp [req_t.xpipe_terminated, hp, hqp, this]
    · intro hqp
      have : ¬ p = q := fun h => hqp h.symm
      simp [req_t.xpipe_terminated, hp, this]
    · simp [req_t.xpipe_terminated, hp]
  · intro q m rest hq
    have h1 : (req_t.xpipe_terminated s d p).1.acceptable q = true := by
      simp [req_t.xpipe_terminated, hp, req_t.acceptable]
    have := recv_reply_pipe_skip (req_t.xpipe_terminated s d p).1 d [] q m rest
      (by simpa using hq) (by simp) h1
    simpa [received_log] using this


/-- Witness of C3 at a concrete socket and router. -/
theorem reply_pipe_affinity_witness :
    demo_awaiting.reply_pipe = some 7 ∧
    req_t.recv_reply_pipe demo_awaiting ⟨[(4, ⟨0, [8]⟩), (7, frame_ok)], fun _ => some 7, []⟩ =
      some (.ok frame_ok, ⟨[], fun _ => some 7,
        [] ++ received_log ([(4, ⟨0, [8]⟩)] ++ [(7, frame_ok)])⟩) :=
  ⟨rfl, (reply_pipe_affinity demo_awaiting
    ⟨[(4, ⟨0, [8]⟩), (7, frame_ok)], fun _ => some 7, []⟩ 7 rfl).1
    [(4, ⟨0, [8]⟩)] frame_ok [] rfl (by decide)⟩

/-- C4: when `xsend` begins a new request and the router accepts the envelope, the drain
loop terminates: it receives every frame that was queued, in order, up to the failing
receive that ends the loop, and leaves the queue empty, whether or not the frame of the
caller is then accepted; a frame returned by a later `xrecv` is one that arrived
afterwards. -/
theorem xsend_drains_stale (s : req_t) (d : dealer_t) (msg : msg_t)
    (hmb : s.message_begins = true)
    (hfsm : ¬ (s.receiving_reply = true ∧ s.strict = true))
    (henv : s.envelope_accepted d) :
    ∃ rc s1 d1 env last, req_t.xsend s d msg = some (rc, s1, d1) ∧
      d1.inq = [] ∧
      d1.log = d.log ++ env ++ received_log d.inq ++ [.recv_failed] ++ [last] ∧
      (∀ e ∈ env, ∃ f q, e = .sent f q) ∧
      (last = .send_failed msg ∨ ∃ p, last = .sent msg p) ∧
      (∀ x ∈ d.inq, router_ev.received x.1 x.2 ∈ d1.log) ∧
      (∀ fresh m s2 d2,
        req_t.xrecv s1 { d1 with inq := fresh } = some (.ok m, s2, d2) →
          ∃ q, (q, m) ∈ fresh) := by
  obtain ⟨rc, s1, env, last, h, hsent, hlast⟩ := xsend_drains s d msg hmb hfsm henv
  refine ⟨rc, s1, _, env, last, h, rfl, rfl, hsent, ?_, ?_, ?_⟩
  · rcases hlast with ⟨_, p, hp⟩ | ⟨_, hl⟩
    · exact Or.inr ⟨p, hp⟩
    · exact Or.inl hl
  · intro x hx
    simp only [received_log, List.mem_append, List.mem_map]
    exact Or.inl (Or.inl (Or.inr ⟨x, hx, rfl⟩))
  · intro fresh m s3 d3 h3
    obtain ⟨rc4, s4, d4, g1, _, _, g4⟩ := xrecv_props s1
      { inq := fresh, out := d.out,
        log := d.log ++ env ++ received_log d.inq ++ [.recv_failed] ++ [last] }
    rw [h3] at g1
    cases g1
    obtain ⟨q, _, hmem⟩ := g4 m rfl
    exact ⟨q, hmem⟩

/-- Witness of C4 at a concrete socket and router. -/
theorem xsend_drains_stale_witness :
    demo_idle.message_begins = true ∧
    ∃ rc s1 d1, req_t.xsend demo_idle demo_router frame_hello = some (rc, s1, d1) ∧
      d1.inq = [] ∧ router_ev.received 3 ⟨0, [1]⟩ ∈ d1.log :=
  ⟨rfl, by
    obtain ⟨rc, s1, d1, _, _, h1, h2, _, _, _, h5, _⟩ :=
      xsend_drains_stale demo_idle demo_router frame_hello rfl (by decide)
        ⟨rfl, fun _ => rfl⟩
    exact ⟨rc, s1, d1, h1, h2, h5 (3, ⟨0, [1]⟩) (by decide)⟩⟩

/-- C5: the request-reply cycle on a strict socket without correlation, on a router that
accepts sends: a final frame is sent and the socket awaits the reply; a second `xsend` is
rejected with EFSM and changes nothing; when the reply pipe delivers an empty more-flagged
delimiter and a final body frame, `xrecv` returns that body frame and the socket is
send-ready again, so the next `xsend` succeeds. -/
theorem req_cycle (s : req_t) (d : dealer_t) (hello world delimiter body next : msg_t)
    (hstrict : s.strict = true) (hcorr : s.request_id_frames_enabled = false)
    (hrr : s.receiving_reply = false) (hmb : s.message_begins = true)
    (hout : ∀ n, (d.out n).isSome = true)
    (hhello : hello.has_more = false)
    (hdelim : delimiter.has_more = true ∧ delimiter.size = 0)
    (hbody : body.has_more = false) :
    ∃ s1 d1 p, req_t.xsend s d hello = some (.ok (), s1, d1) ∧
      s1.receiving_reply = true ∧ s1.message_begins = true ∧ s1.reply_pipe = some p ∧
      req_t.xsend s1 d1 world = some (.err .EFSM, s1, d1) ∧
      ∃ s2 d2, req_t.xrecv s1 { d1 with inq := [(p, delimiter), (p, body)] } =
          some (.ok body, s2, d2) ∧
        s2.receiving_reply = false ∧ s2.message_begins = true ∧ d2.inq = [] ∧
        ∃ s3 d3, req_t.xsend s2 d2 next = some (.ok (), s3, d3) := by
  obtain ⟨s1, env, p0, p, h1, _, hrr1, hmb1, hp1, hst1, hen1⟩ :=
    xsend_new_request s d hello hmb (by simp [hrr]) hout
  rw [hhello] at hrr1 hmb1
  simp only [Bool.not_false] at hrr1 hmb1
  rw [hstrict] at hst1
  rw [hcorr] at hen1
  refine ⟨s1, _, p, h1, hrr1, hmb1, hp1, by simp [req_t.xsend, hrr1, hst1], ?_⟩
  have hacc : s1.acceptable p = true := by simp [req_t.acceptable, hp1]
  have hx := xrecv_plain_reply s1
    ⟨[(p, delimiter), (p, body)], d.out,
      d.log ++ env ++ received_log d.inq ++ [.recv_failed] ++ [.sent hello p0]⟩
    p delimiter body [] rfl hrr1 hmb1 hen1 hacc hdelim.1 hdelim.2
  rw [if_pos hbody] at hx
  refine ⟨_, _, hx, rfl, rfl, rfl, ?_⟩
  obtain ⟨s3, env3, p3, _, h3, _⟩ := xsend_new_request
    { s1 with receiving_reply := false, message_begins := true }
    ⟨[], d.out, _⟩ next rfl (by simp) hout
  exact ⟨s3, _, h3⟩


/-- Witness of C5 at a concrete socket and router. -/
theorem req_cycle_witness :
    ∃ s1 d1 p, req_t.xsend demo_idle demo_router frame_hello = some (.ok (), s1, d1) ∧
      s1.receiving_reply = true ∧ s1.message_begins = true ∧ s1.reply_pipe = some p ∧
      req_t.xsend s1 d1 frame_world = some (.err .EFSM, s1, d1) ∧
      ∃ s2 d2, req_t.xrecv s1 { d1 with inq := [(p, frame_delimiter), (p, frame_ok)] } =
          some (.ok frame_ok, s2, d2) ∧
        s2.receiving_reply = false ∧ s2.message_begins = true ∧ d2.inq = [] ∧
        ∃ s3 d3, req_t.xsend s2 d2 frame_hello = some (.ok (), s3, d3) :=
  req_cycle demo_idle demo_router frame_hello frame_world frame_delimiter frame_ok frame_hello
    rfl rfl rfl rfl (fun _ => rfl) rfl ⟨rfl, rfl⟩ rfl

/-- C12: `xrecv` answers -1 with EFSM exactly when no request is outstanding
(`receiving_reply = false`), whatever the router holds; it then asks the router for nothing
and leaves the socket unchanged. -/
theorem xrecv_efsm_iff (s : req_t) (d : dealer_t) :
    ((∃ s1 d1, req_t.xrecv s d = some (.err .EFSM, s1, d1)) ↔ s.receiving_reply = false) ∧
    (s.receiving_reply = false → req_t.xrecv s d = some (.err .EFSM, s, d)) := by
  have h2 : s.receiving_reply = false → req_t.xrecv s d = some (.err .EFSM, s, d) := by
    intro h; simp [req_t.xrecv, h]
  refine ⟨⟨?_, fun h => ⟨s, d, h2 h⟩⟩, h2⟩
  rintro ⟨s1, d1, h⟩
  by_contra hrr
  unfold req_t.xrecv at h
  rw [if_neg hrr] at h
  rcases xrecv_loop_rc s _ d _ s1 d1 h with ⟨m, hm⟩ | hm | hm <;> simp at hm

/-- C13: on a relaxed socket (`strict = false`) with a reply outstanding, `xsend` is `xsend`
from the idle state with the same other fields; on a router that accepts sends it returns 0,
`reply_pipe` is the pipe of the new delimiter, a fresh envelope is sent, the queued input is
drained and the frame of the caller is forwarded. -/
theorem xsend_relaxed (s : req_t) (d : dealer_t) (msg : msg_t)
    (hstrict : s.strict = false) (hrr : s.receiving_reply = true)
    (hout : ∀ n, (d.out n).isSome = true) :
    req_t.xsend s d msg =
      req_t.xsend { s with receiving_reply := false, message_begins := true } d msg ∧
    ∃ pid p q, req_t.xsend s d msg =
      some (.ok (), { s with receiving_reply := !msg.has_more,
                             message_begins := !msg.has_more,
                             reply_pipe := some p, request_id := s.next_request_id },
        ⟨[], d.out, d.log ++ s.envelope_log pid p ++ received_log d.inq
          ++ [.recv_failed] ++ [.sent msg q]⟩) := by
  refine ⟨by simp [req_t.xsend, hstrict, hrr], ?_⟩
  exact xsend_exact s d msg (Or.inr hrr) (by simp [hstrict]) hout

/-- Witness of C13 at a relaxed socket that is receiving a reply. -/
theorem xsend_relaxed_witness :
    demo_relaxed.strict = false ∧ demo_relaxed.receiving_reply = true ∧
    req_t.xsend demo_relaxed demo_router frame_hello =
      req_t.xsend { demo_relaxed with receiving_reply := false, message_begins := true }
        demo_router frame_hello :=
  ⟨rfl, rfl, (xsend_relaxed demo_relaxed demo_router frame_hello rfl rfl (fun _ => rfl)).1⟩

/-- C14: at the start of a reply, `xrecv` consumes every leading complete message in which
the frame in the place of the delimiter (the first frame without correlation, the frame after
the matching request id with correlation) is not a more-flagged empty frame, and goes on with
the next message; and the frame `xrecv` returns is the frame of the reply pipe that follows
a valid delimiter. -/
theorem xrecv_delimiter (s : req_t) (bads : List (List (pipe_t × msg_t)))
    (rest : List (pipe_t × msg_t)) (d : dealer_t)
    (hrr : s.receiving_reply = true) (hmb : s.message_begins = true)
    (hq : d.inq = bads.flatten ++ rest)
    (hbad : ∀ m ∈ bads, is_message (m.map Prod.snd) = true ∧
      (∀ x ∈ m, s.acceptable x.1 = true) ∧ bad_delimiter s m) :
    req_t.xrecv s d = req_t.xrecv s ⟨rest, d.out, d.log ++ received_log bads.flatten⟩ ∧
    (∀ f s1 d1, req_t.xrecv s d = some (.ok f, s1, d1) →
      ∃ pre p delim sk q, rest = pre ++ (p, delim) :: sk ++ (q, f) :: d1.inq ∧
        valid_delimiter delim = true ∧ s.acceptable p = true ∧ s.acceptable q = true ∧
        (∀ x ∈ sk, s.acceptable x.1 = false)) := by
  have h := xrecv_skip_all s rest bads d hq (fun m hm d0 rest0 hq0 =>
    xrecv_skip_bad_delimiter s d0 m rest0 hrr hmb hq0 (hbad m hm).1 (hbad m hm).2.1
      (hbad m hm).2.2)
  refine ⟨h, ?_⟩
  intro f s1 d1 hf
  rw [h] at hf
  unfold req_t.xrecv at hf
  rw [if_neg (by simp [hrr])] at hf
  exact xrecv_loop_after_delimiter s hmb _ _ f s1 d1 hf

/-- Witness of C14: a reply whose first frame is not empty is skipped. -/
theorem xrecv_delimiter_witness :
    req_t.xrecv demo_awaiting_plain demo_plain_replies =
      req_t.xrecv demo_awaiting_plain
        ⟨[(7, frame_delimiter), (7, frame_ok)], demo_plain_replies.out,
          demo_plain_replies.log ++ received_log [(7, ⟨1, [9]⟩), (7, ⟨0, [8]⟩)]⟩ :=
  (xrecv_delimiter demo_awaiting_plain [[(7, ⟨1, [9]⟩), (7, ⟨0, [8]⟩)]]
    [(7, frame_delimiter), (7, frame_ok)] demo_plain_replies rfl rfl rfl
    (by
      intro m hm
      simp only [List.mem_singleton] at hm
      subst hm
      refine ⟨by decide, by decide, ?_⟩
      simp only [bad_delimiter, demo_awaiting_plain]
      exact ⟨7, ⟨1, [9]⟩, [(7, ⟨0, [8]⟩)], rfl, by decide⟩)).1

/-- C15 (as amended): an `xsend` that begins a new request on a router that accepts sends
returns 0.  With correlation `request_id` becomes `(request_id + 1) mod 2 ^ 32`, which is
greater than the old value unless the old value is `2 ^ 32 - 1`, and the frames accepted by
the router are a more-flagged 4-byte frame holding the new id, the empty more-flagged
delimiter and the frame of the caller; without correlation `request_id` is unchanged and
only the delimiter precedes the frame of the caller.  `reply_pipe` is the pipe that took the
delimiter, and `message_begins` stays false until a frame without the more flag is sent. -/
theorem xsend_envelope (s : req_t) (d : dealer_t) (msg : msg_t)
    (hmb : s.message_begins = true)
    (hfsm : ¬ (s.receiving_reply = true ∧ s.strict = true))
    (hout : ∀ n, (d.out n).isSome = true) :
    ∃ pid p q s1 d1, req_t.xsend s d msg = some (.ok (), s1, d1) ∧
      s1.reply_pipe = some p ∧
      (msg.has_more = true → s1.message_begins = false ∧ s1.receiving_reply = false) ∧
      (msg.has_more = false → s1.message_begins = true ∧ s1.receiving_reply = true) ∧
      (msg.has_more = true → ∀ (d2 : dealer_t) (m2 : msg_t),
        (∀ n, (d2.out n).isSome = true) →
        ∃ q2, req_t.xsend s1 d2 m2 =
          some (.ok (), (if m2.has_more = false then
              { s1 with receiving_reply := true, message_begins := true } else s1),
            ⟨d2.inq, d2.out, d2.log ++ [.sent m2 q2]⟩)) ∧
      (s.request_id_frames_enabled = true →
        s1.request_id = (s.request_id + 1) % 2 ^ 32 ∧
        (s.request_id + 1 < 2 ^ 32 → s.request_id < s1.request_id) ∧
        ∃ idf : msg_t, idf.has_more = true ∧ idf.size = 4 ∧
          u32_read idf.data = s1.request_id ∧
          d1.sent_frames = d.sent_frames ++ [(idf, pid), (⟨msg_t.more, []⟩, p), (msg, q)]) ∧
      (s.request_id_frames_enabled = false →
        s1.request_id = s.request_id ∧
        d1.sent_frames = d.sent_frames ++ [(⟨msg_t.more, []⟩, p), (msg, q)]) := by
  obtain ⟨pid, p, q, h⟩ := xsend_exact s d msg (Or.inl hmb) hfsm hout
  refine ⟨pid, p, q, _, _, h, rfl, ?_, ?_, ?_, ?_, ?_⟩
  · intro hm; simp [hm]
  · intro hm; simp [hm]
  · intro hm d2 m2 hout2
    exact xsend_body_frame _ d2 m2 (by simp [hm]) (by simp [hm]) hout2
  · intro hen
    have hid : s.next_request_id = (s.request_id + 1) % 2 ^ 32 := by
      simp [req_t.next_request_id, hen]
    refine ⟨hid, ?_, ⟨1, u32_bytes s.next_request_id⟩, by simp [msg_t.has_more, msg_t.more],
      by simp [msg_t.size, u32_bytes],
      ?_, ?_⟩
    · intro hlt
      simp only [hid]
      rw [Nat.mod_eq_of_lt hlt]
      omega
    · simp only [u32_read_bytes, hid]
      exact Nat.mod_mod _ _
    · rw [sent_frames_request]
      obtain ⟨inq, out, log⟩ := d
      simp [hen, dealer_t.sent_frames, msg_t.more]
  · intro hen
    refine ⟨by simp [req_t.next_request_id, hen], ?_⟩
    rw [sent_frames_request]
    obtain ⟨inq, out, log⟩ := d
    simp [hen, dealer_t.sent_frames, msg_t.more]

/-- Witness of C15 (as amended) without correlation. -/
theorem xsend_envelope_witness :
    ∃ p q s1 d1, req_t.xsend demo_idle demo_router frame_hello = some (.ok (), s1, d1) ∧
      s1.reply_pipe = some p ∧ s1.request_id = 77 ∧
      d1.sent_frames = demo_router.sent_frames ++ [(⟨msg_t.more, []⟩, p), (frame_hello, q)] := by
  obtain ⟨pid, p, q, s1, d1, h, hp, _, _, _, _, h2⟩ :=
    xsend_envelope demo_idle demo_router frame_hello rfl (by decide) (fun _ => rfl)
  exact ⟨p, q, s1, d1, h, hp, (h2 rfl).1, (h2 rfl).2⟩

/-- Counterexample to C15 as stated: from `request_id = 2 ^ 32 - 1` the new request id is 0,
which is not greater. -/
theorem xsend_envelope_counterexample :
    (req_t.xsend demo_last_id demo_router frame_hello).map
      (fun r => (r.1, r.2.1.request_id)) = some (.ok (), 0) ∧
    ¬ (demo_last_id.request_id < 0) := by
  decide

/-- C16: `xhas_in` is true exactly when `receiving_reply` is true and the router reports
input; with `receiving_reply = false` it returns false and the router is not consulted. -/
theorem xhas_in_iff (s : req_t) (d : dealer_t) :
    ((req_t.xhas_in s d).1 = true ↔ s.receiving_reply = true ∧ d.xhas_in.1 = true) ∧
    (s.receiving_reply = false → req_t.xhas_in s d = (false, d)) ∧
    (s.receiving_reply = true → req_t.xhas_in s d = d.xhas_in) := by
  by_cases hrr : s.receiving_reply = true
  · simp [req_t.xhas_in, hrr]
  · simp [req_t.xhas_in, hrr]

/-- C17: `xhas_out` is false without consulting the router when `strict` and
`receiving_reply` are both true, and is the `xhas_out` of the router in every other state;
on a strict socket, after `xhas_out = true` the next `xsend` returns and is not rejected with
EFSM. -/
theorem xhas_out_spec (s : req_t) (d : dealer_t) :
    (s.strict = true ∧ s.receiving_reply = true → req_t.xhas_out s d = (false, d)) ∧
    (¬ (s.strict = true ∧ s.receiving_reply = true) → req_t.xhas_out s d = d.xhas_out) ∧
    (s.strict = true → (req_t.xhas_out s d).1 = true →
      ∀ msg, ∃ rc s1 d1, req_t.xsend s (req_t.xhas_out s d).2 msg = some (rc, s1, d1) ∧
        rc ≠ .err .EFSM) := by
  refine ⟨?_, ?_, ?_⟩
  · rintro ⟨h1, h2⟩
    simp [req_t.xhas_out, h1, h2]
  · intro h
    have h' : ¬ (s.receiving_reply = true ∧ s.strict = true) := fun ⟨a, b⟩ => h ⟨b, a⟩
    simp only [req_t.xhas_out, h', if_false]
  · intro hst hout msg
    have hrr : ¬ (s.receiving_reply = true ∧ s.strict = true) := by
      rintro ⟨h1, h2⟩
      simp [req_t.xhas_out, h1, h2] at hout
    obtain ⟨rc, s1, d1, h, hrc⟩ := xsend_rc s (req_t.xhas_out s d).2 msg hrr
    refine ⟨rc, s1, d1, h, ?_⟩
    rcases hrc with rfl | rfl | rfl <;> simp

/-- Witness of C17 on a strict socket that awaits a reply. -/
theorem xhas_out_spec_witness :
    req_t.xhas_out demo_awaiting demo_router = (false, demo_router) :=
  (xhas_out_spec demo_awaiting demo_router).1 ⟨rfl, rfl⟩

/-- C18: `xsetsockopt` with option CORRELATE (RELAXED) and a 4-byte value `v >= 0` sets
`request_id_frames_enabled` to `v != 0` (`strict` to `v == 0`), returns 0 and leaves the
router alone; for a negative value, a value of another length or another option it changes
no field of the socket and returns what `xsetsockopt` of the router returns. -/
theorem xsetsockopt_spec (CORRELATE RELAXED : Int) (hne : RELAXED ≠ CORRELATE)
    (answer : Int → List Byte → Res Unit) (s : req_t) (d : dealer_t)
    (option_ : Int) (optval_ : List Byte) :
    (option_ = CORRELATE → optval_.length = 4 → req_t.int_read optval_ ≥ 0 →
      req_t.xsetsockopt CORRELATE RELAXED answer s d option_ optval_ =
        (.ok (), { s with request_id_frames_enabled := decide (req_t.int_read optval_ ≠ 0) }, d)) ∧
    (option_ = RELAXED → optval_.length = 4 → req_t.int_read optval_ ≥ 0 →
      req_t.xsetsockopt CORRELATE RELAXED answer s d option_ optval_ =
        (.ok (), { s with strict := decide (req_t.int_read optval_ = 0) }, d)) ∧
    (((option_ ≠ CORRELATE ∧ option_ ≠ RELAXED) ∨ optval_.length ≠ 4 ∨ req_t.int_read optval_ < 0) →
      req_t.xsetsockopt CORRELATE RELAXED answer s d option_ optval_ =
        ((d.xsetsockopt answer option_ optval_).1, s,
          (d.xsetsockopt answer option_ optval_).2)) := by
  refine ⟨?_, ?_, ?_⟩
  · intro ho hl hv
    simp [req_t.xsetsockopt, ho, hl, hv]
  · intro ho hl hv
    have : ¬ RELAXED = CORRELATE := hne
    simp [req_t.xsetsockopt, ho, hl, hv, this]
  · intro h
    unfold req_t.xsetsockopt
    by_cases hc : option_ = CORRELATE
    · simp only [hc, if_true]
      rcases h with h | h | h
      · exact absurd hc h.1
      · simp [h]
      · by_cases hl : optval_.length = 4
        · have : ¬ (req_t.int_read optval_ ≥ 0) := by omega
          simp [hl, this]
        · simp [hl]
    · simp only [hc, if_false]
      by_cases hr : option_ = RELAXED
      · simp only [hr, if_true]
        rcases h with h | h | h
        · exact absurd hr h.2
        · simp [h]
        · by_cases hl : optval_.length = 4
          · have : ¬ (req_t.int_read optval_ ≥ 0) := by omega
            simp [hl, this]
          · simp [hl]
      · simp only [hr, if_false]

/-- Witness of C18: CORRELATE (52) with the value 1 enables correlation. -/
theorem xsetsockopt_spec_witness :
    req_t.xsetsockopt 52 53 (fun _ _ => .err .EINVAL) demo_idle demo_router 52 [1, 0, 0, 0] =
      (.ok (), { demo_idle with
        request_id_frames_enabled := decide (req_t.int_read [1, 0, 0, 0] ≠ 0) }, demo_router) :=
  (xsetsockopt_spec 52 53 (by decide) (fun _ _ => .err .EINVAL) demo_idle demo_router 52
    [1, 0, 0, 0]).1 rfl rfl (by decide)

/-- When the frames the socket accepts from the queue do not end in the middle of a message
(the last of them does not carry the more flag), whatever their request ids and delimiters,
`xrecv` returns a frame or an error code and fails no assertion. -/
theorem xrecv_complete_safe (s : req_t) (d : dealer_t)
    (hc : complete_input s d.inq = true) :
    ∃ rc s1 d1, req_t.xrecv s d = some (rc, s1, d1) ∧ rc ≠ .abort ∧
      ((∃ f, rc = .ok f) ∨ rc = .err .EFSM ∨ rc = .err .EAGAIN) := by
  obtain ⟨rc, s1, d1, h, _⟩ := xrecv_props s d
  have hna : rc ≠ .abort := by
    unfold req_t.xrecv at h
    by_cases hrr : s.receiving_reply = false
    · simp only [hrr, if_true, Option.some.injEq, Prod.mk.injEq] at h
      obtain ⟨rfl, _, _⟩ := h
      simp
    · simp only [hrr, if_false] at h
      exact xrecv_loop_safe _ s d rc s1 d1 hc h
  refine ⟨rc, s1, d1, h, hna, ?_⟩
  unfold req_t.xrecv at h
  by_cases hrr : s.receiving_reply = false
  · simp only [hrr, if_true, Option.some.injEq, Prod.mk.injEq] at h
    exact Or.inr (Or.inl h.1.symm)
  · simp only [hrr, if_false] at h
    rcases xrecv_loop_rc s _ d rc s1 d1 h with hok | hag | hab
    · exact Or.inl hok
    · exact Or.inr (Or.inr hag)
    · exact absurd hab hna

/-- An instance of `xrecv_complete_safe`: a stale reply, a frame of another pipe and the reply
to request 5 are queued; `xrecv` returns the frame of the reply. -/
theorem xrecv_complete_safe_example :
    ∃ rc s1 d1, req_t.xrecv demo_awaiting demo_replies = some (rc, s1, d1) ∧ rc ≠ .abort ∧
      ((∃ f, rc = .ok f) ∨ rc = .err .EFSM ∨ rc = .err .EAGAIN) :=
  xrecv_complete_safe demo_awaiting demo_replies (by decide)

/-- C25 (evaluation at the failing inputs): a reply is outstanding on pipe 7 and the router
holds one frame of pipe 7, more-flagged, the rest of its message not yet available.  Without
correlation the frame is not a delimiter (it is not empty); with correlation it carries
request id 4 while 5 is awaited.  In both cases `xrecv` receives the frame, enters the skip
loop, the next receive fails, and `errno_assert (rc == 0)` fails: `xrecv` does not return to
the caller. -/
theorem xrecv_partial_aborts :
    (req_t.xrecv demo_awaiting_plain demo_partial).map (fun r => (r.1, r.2.2.log)) =
      some (.abort, [.received 7 ⟨1, [9]⟩, .recv_failed]) ∧
    (req_t.xrecv demo_awaiting demo_partial_id).map (fun r => (r.1, r.2.2.log)) =
      some (.abort, [.received 7 ⟨1, [4, 0, 0, 0]⟩, .recv_failed]) := by
  constructor <;> decide

/-- C26 (as amended): `xrecv` never writes `reply_pipe`.  After it delivers the final frame of
a reply the socket is ready to send (`receiving_reply = false`, `message_begins = true`) and
`reply_pipe` holds what it held before.  `reply_pipe` is cleared by `xpipe_terminated` for
that pipe, and the next `xsend` that begins a request on an accepting router replaces it by
the pipe that takes the new delimiter. -/
theorem xrecv_keeps_reply_pipe (s : req_t) (d : dealer_t) :
    (∃ rc s1 d1, req_t.xrecv s d = some (rc, s1, d1) ∧ s1.reply_pipe = s.reply_pipe ∧
      (∀ f, rc = .ok f → f.has_more = false →
        s1.receiving_reply = false ∧ s1.message_begins = true)) ∧
    (∀ p, s.reply_pipe = some p → (req_t.xpipe_terminated s d p).1.reply_pipe = none) ∧
    (∀ msg, s.message_begins = true → ¬ (s.receiving_reply = true ∧ s.strict = true) →
      (∀ n, (d.out n).isSome = true) →
      ∃ p s1 d1, req_t.xsend s d msg = some (.ok (), s1, d1) ∧ s1.reply_pipe = some p) := by
  refine ⟨?_, ?_, ?_⟩
  · obtain ⟨rc, s1, d1, h, _⟩ := xrecv_props s d
    refine ⟨rc, s1, d1, h, ?_⟩
    unfold req_t.xrecv at h
    by_cases hrr : s.receiving_reply = false
    · simp only [hrr, if_true, Option.some.injEq, Prod.mk.injEq] at h
      obtain ⟨rfl, rfl, _⟩ := h
      exact ⟨rfl, fun f hf => by simp at hf⟩
    · simp only [hrr, if_false] at h
      exact xrecv_loop_reply_pipe _ s d rc s1 d1 h
  · intro p hp
    simp [req_t.xpipe_terminated, hp]
  · intro msg hmb hfsm hout
    obtain ⟨_, p, _, h⟩ := xsend_exact s d msg (Or.inl hmb) hfsm hout
    exact ⟨p, _, _, h, rfl⟩

/-- Witness of C26 (as amended): the socket awaits a reply on pipe 7; after `xrecv` the reply
pipe is still pipe 7. -/
theorem xrecv_keeps_reply_pipe_witness :
    ∃ rc s1 d1, req_t.xrecv demo_awaiting demo_replies = some (rc, s1, d1) ∧
      s1.reply_pipe = some 7 := by
  obtain ⟨rc, s1, d1, h, hp, _⟩ := (xrecv_keeps_reply_pipe demo_awaiting demo_replies).1
  exact ⟨rc, s1, d1, h, hp⟩

/-- Counterexample to C26 as stated: a request is sent through pipe 5 and its reply, a
delimiter and a final frame, is received; the socket is back in the send-ready state and
`reply_pipe` is still pipe 5. -/
theorem xrecv_keeps_reply_pipe_counterexample :
    (req_t.xsend demo_idle demo_router frame_hello).bind (fun r1 =>
      (req_t.xrecv r1.2.1 { r1.2.2 with inq := [(5, frame_delimiter), (5, frame_ok)] }).map
        (fun r2 => (r1.1, r2.1, r2.2.1.receiving_reply, r2.2.1.message_begins,
          r2.2.1.reply_pipe))) =
      some (.ok (), .ok frame_ok, false, true, some 5) := by
  decide

/-- C27 (as amended): in an `xsend` that begins a new request on a router that accepts sends,
the calls on the router are, in order: the sends of the envelope (the request-id frame if
correlation is enabled, then the delimiter), the receives of the drain (one per queued frame
and the failing one that ends it), and the send of the frame of the caller.  The drain
follows the envelope and precedes the frame of the caller. -/
theorem xsend_drain_order (s : req_t) (d : dealer_t) (msg : msg_t)
    (hmb : s.message_begins = true)
    (hfsm : ¬ (s.receiving_reply = true ∧ s.strict = true))
    (hout : ∀ n, (d.out n).isSome = true) :
    ∃ (s1 : req_t) (d1 : dealer_t) (envelope drain : List router_ev) (pid p q : pipe_t),
      req_t.xsend s d msg = some (.ok (), s1, d1) ∧
      d1.log = d.log ++ envelope ++ drain ++ [.sent msg q] ∧
      envelope = (if s.request_id_frames_enabled then
          [.sent ⟨1, u32_bytes s1.request_id⟩ pid, .sent ⟨1, []⟩ p]
        else [.sent ⟨1, []⟩ p]) ∧
      drain = received_log d.inq ++ [.recv_failed] := by
  obtain ⟨pid, p, q, h⟩ := xsend_exact s d msg (Or.inl hmb) hfsm hout
  refine ⟨_, _, s.envelope_log pid p, received_log d.inq ++ [.recv_failed], pid, p, q, h,
    by simp [List.append_assoc], ?_, rfl⟩
  simp [req_t.envelope_log]

/-- Witness of C27 (as amended): a new request on a router that holds one stale frame. -/
theorem xsend_drain_order_witness :
    ∃ (s1 : req_t) (d1 : dealer_t) (envelope drain : List router_ev) (pid p q : pipe_t),
      req_t.xsend demo_idle demo_router frame_hello = some (.ok (), s1, d1) ∧
      d1.log = demo_router.log ++ envelope ++ drain ++ [.sent frame_hello q] ∧
      envelope = (if demo_idle.request_id_frames_enabled then
          [.sent ⟨1, u32_bytes s1.request_id⟩ pid, .sent ⟨1, []⟩ p]
        else [.sent ⟨1, []⟩ p]) ∧
      drain = received_log demo_router.inq ++ [.recv_failed] :=
  xsend_drain_order demo_idle demo_router frame_hello rfl (by decide) (fun _ => rfl)

/-- Counterexample to C27 as stated: with one stale frame queued, the delimiter of the new
request is handed to the router before the drain receives the stale frame. -/
theorem xsend_drain_order_counterexample :
    (req_t.xsend demo_idle demo_router frame_hello).map (fun r => r.2.2.log) =
      some [.sent frame_delimiter 5, .received 3 ⟨0, [1]⟩, .recv_failed,
        .sent frame_hello 5] := by
  decide

/-! ### REQ session: envelope grammar -/

/-- On a base session that accepts every frame, the calls of `push_all` all succeed and end
in state `st1` exactly when the pure run of the state machine does. -/
theorem push_all_steps (rc : Nat → Option Errno) (hrc : ∀ k, rc k = none) :
    ∀ (fs : List msg_t) (st st1 : session_state) (pushed : List msg_t),
    ((∀ r ∈ (req_session_t.push_all ⟨st, ⟨rc, pushed⟩⟩ fs).1, r ≠ .err .EFAULT) ∧
      (req_session_t.push_all ⟨st, ⟨rc, pushed⟩⟩ fs).2.state = st1) ↔
    session_steps st fs = some st1 := by
  intro fs
  induction fs with
  | nil => intro st st1 pushed; simp [req_session_t.push_all, session_steps]
  | cons m rest ih =>
    intro st st1 pushed
    cases st
    · by_cases h1 : m.flags = msg_t.more
      · by_cases h4 : m.size = 4
        · simp [req_session_t.push_all, req_session_t.push_msg, session_steps, h1, h4,
            session_base_t.push_msg, hrc, ih]
        · by_cases h0 : m.size = 0
          · simp [req_session_t.push_all, req_session_t.push_msg, session_steps, h1, h4, h0,
              session_base_t.push_msg, hrc, ih]
          · simp [req_session_t.push_all, req_session_t.push_msg, session_steps, h1, h4, h0]
      · simp [req_session_t.push_all, req_session_t.push_msg, session_steps, h1]
    · by_cases h : m.flags = msg_t.more ∧ m.size = 0
      · simp [req_session_t.push_all, req_session_t.push_msg, session_steps, h,
          session_base_t.push_msg, hrc, ih]
      · simp [req_session_t.push_all, req_session_t.push_msg, session_steps, h]
    · by_cases h1 : m.flags = msg_t.more
      · simp [req_session_t.push_all, req_session_t.push_msg, session_steps, h1,
          session_base_t.push_msg, hrc, ih]
      · by_cases h0 : m.flags = 0
        · have hne : ¬ (0 : Nat) = msg_t.more := by decide
          simp [req_session_t.push_all, req_session_t.push_msg, session_steps, h0, hne,
            session_base_t.push_msg, hrc, ih]
        · simp [req_session_t.push_all, req_session_t.push_msg, session_steps, h1, h0]

/-- The body of a message: frames with flags `more` and a final frame with flags 0 take
the state machine from `body` to `bottom`. -/
theorem session_steps_body (rest : List msg_t) (last : msg_t) (hl : last.flags = 0) :
    ∀ mid : List msg_t, (∀ f ∈ mid, f.flags = msg_t.more) →
    session_steps .body (mid ++ last :: rest) = session_steps .bottom rest := by
  intro mid
  induction mid with
  | nil =>
    intro _
    have hne : ¬ (0 : Nat) = msg_t.more := by decide
    simp [session_steps, hl, hne]
  | cons f tl ih =>
    intro h
    have hf : f.flags = msg_t.more := h f (List.mem_cons_self _ _)
    simp [session_steps, hf, ih (fun g hg => h g (List.mem_cons_of_mem _ hg))]

/-- A message of the grammar takes the state machine from `bottom` back to `bottom`. -/
theorem session_steps_message (m rest : List msg_t) (hm : is_envelope_message m) :
    session_steps .bottom (m ++ rest) = session_steps .bottom rest := by
  obtain ⟨pre, delim, mid, last, rfl, hpre, hd0, hdm, hmid, hl⟩ := hm
  have hb := session_steps_body rest last hl mid hmid
  have h40 : ¬ (delim.size = 4) := by omega
  rcases hpre with rfl | ⟨id, rfl, h4, hidm⟩
  · simp [session_steps, hd0, hdm, hb]
  · simp [session_steps, h4, hidm, hd0, hdm, hb]

/-- A run from `body` that ends in `bottom` starts with the rest of a message. -/
theorem session_steps_body_inv :
    ∀ fs : List msg_t, session_steps .body fs = some .bottom →
    ∃ mid last rest, fs = mid ++ last :: rest ∧ (∀ f ∈ mid, f.flags = msg_t.more) ∧
      last.flags = 0 ∧ session_steps .bottom rest = some .bottom := by
  intro fs
  induction fs with
  | nil => intro h; simp [session_steps] at h
  | cons f tl ih =>
    intro h
    by_cases h1 : f.flags = msg_t.more
    · simp [session_steps, h1] at h
      obtain ⟨mid, last, rest, e, hmid, hl, hr⟩ := ih h
      refine ⟨f :: mid, last, rest, by simp [e], ?_, hl, hr⟩
      intro g hg
      rcases List.mem_cons.mp hg with rfl | hg
      · exact h1
      · exact hmid g hg
    · by_cases h0 : f.flags = 0
      · have hne : ¬ (0 : Nat) = msg_t.more := by decide
        simp [session_steps, h0, hne] at h
        exact ⟨[], f, tl, rfl, by simp, h0, h⟩
      · simp [session_steps, h1, h0] at h

/-- A nonempty run from `bottom` back to `bottom` starts with a message of the grammar. -/
theorem session_steps_bottom_inv (f : msg_t) (tl : List msg_t)
    (h : session_steps .bottom (f :: tl) = some .bottom) :
    ∃ m rest, f :: tl = m ++ rest ∧ is_envelope_message m ∧
      session_steps .bottom rest = some .bottom ∧ rest.length < (f :: tl).length := by
  by_cases h4 : f.flags = msg_t.more ∧ f.size = 4
  · simp only [session_steps, h4, and_self, if_true] at h
    cases tl with
    | nil => simp [session_steps] at h
    | cons g tl2 =>
      by_cases hg : g.flags = msg_t.more ∧ g.size = 0
      · simp only [session_steps, hg, and_self, if_true] at h
        obtain ⟨mid, last, rest, e, hmid, hl, hr⟩ := session_steps_body_inv tl2 h
        refine ⟨[f] ++ g :: mid ++ [last], rest, by simp [e], ?_, hr, by simp [e]; omega⟩
        exact ⟨[f], g, mid, last, rfl, Or.inr ⟨f, rfl, h4.2, h4.1⟩, hg.2, hg.1, hmid, hl⟩
      · simp [session_steps, hg] at h
  · by_cases h0 : f.flags = msg_t.more ∧ f.size = 0
    · simp only [session_steps, h4, if_false, h0, and_self, if_true] at h
      obtain ⟨mid, last, rest, e, hmid, hl, hr⟩ := session_steps_body_inv tl h
      refine ⟨[] ++ f :: mid ++ [last], rest, by simp [e], ?_, hr, by simp [e]; omega⟩
      exact ⟨[], f, mid, last, rfl, Or.inl rfl, h0.2, h0.1, hmid, hl⟩
    · simp [session_steps, h4, h0] at h

/-- The runs of the state machine from `bottom` back to `bottom` are the streams of the
envelope grammar. -/
theorem session_steps_iff_stream :
    ∀ (n : Nat) (fs : List msg_t), fs.length ≤ n →
    (session_steps .bottom fs = some .bottom ↔ is_envelope_stream fs) := by
  intro n
  induction n with
  | zero =>
    intro fs hn
    have : fs = [] := List.length_eq_zero.mp (by omega)
    subst this
    simp only [session_steps, true_iff]
    exact ⟨[], rfl, by simp⟩
  | succ k ih =>
    intro fs hn
    cases fs with
    | nil =>
      simp only [session_steps, true_iff]
      exact ⟨[], rfl, by simp⟩
    | cons f tl =>
      constructor
      · intro h
        obtain ⟨m, rest, e, hm, hr, hlen⟩ := session_steps_bottom_inv f tl h
        obtain ⟨ms, e2, hms⟩ := (ih rest (by simp at hn hlen; omega)).mp hr
        refine ⟨m :: ms, by simp [e, e2], ?_⟩
        intro x hx
        rcases List.mem_cons.mp hx with rfl | hx
        · exact hm
        · exact hms x hx
      · rintro ⟨ms, e, hms⟩
        rw [e]
        clear e hn
        induction ms with
        | nil => simp [session_steps]
        | cons m ms ih2 =>
          rw [List.flatten_cons, session_steps_message m ms.flatten
            (hms m (List.mem_cons_self _ _))]
          exact ih2 (fun x hx => hms x (List.mem_cons_of_mem _ hx))

/-- C6: from state `bottom`, over a base session that accepts every forwarded frame, no
call of `push_msg` on the frames of a finite sequence fails with EFAULT and the session ends
in `bottom` if and only if the sequence is a concatenation of envelope messages
(optional 4-byte `more` frame, empty `more` frame, any number of `more` frames, one frame
with flags 0). -/
theorem push_msg_grammar (b : session_base_t) (hb : ∀ k, b.rc k = none) (fs : List msg_t) :
    ((∀ r ∈ (req_session_t.push_all ⟨.bottom, b⟩ fs).1, r ≠ .err .EFAULT) ∧
      (req_session_t.push_all ⟨.bottom, b⟩ fs).2.state = .bottom) ↔
    is_envelope_stream fs := by
  obtain ⟨rc, pushed⟩ := b
  rw [push_all_steps rc hb fs .bottom .bottom pushed]
  exact session_steps_iff_stream fs.length fs (le_refl _)


/-- Witness of C6: a correlated and a plain message in a row are accepted. -/
theorem push_msg_grammar_witness :
    is_envelope_stream [⟨1, [5, 0, 0, 0]⟩, frame_delimiter, frame_ok, frame_delimiter, frame_hello] :=
  (push_msg_grammar demo_session.base (fun _ => rfl)
    [⟨1, [5, 0, 0, 0]⟩, frame_delimiter, frame_ok, frame_delimiter, frame_hello]).mp
    ⟨by decide, by decide⟩


/-- C7: a frame that violates what the current state expects makes `push_msg` return -1 with
EFAULT; the session is unchanged: the state is the same and nothing was forwarded to the base
session. -/
theorem push_msg_rejects (s : req_session_t) (m : msg_t)
    (hviol : violates_envelope s.state m) :
    s.push_msg m = (.err .EFAULT, s) := by
  obtain ⟨st, b⟩ := s
  cases st <;> simp only [violates_envelope] at hviol <;>
    simp only [req_session_t.push_msg]
  · by_cases h1 : m.flags = msg_t.more
    · have h4 : ¬ m.size = 4 := fun h => hviol ⟨h1, Or.inl h⟩
      have h0 : ¬ m.size = 0 := fun h => hviol ⟨h1, Or.inr h⟩
      simp [h1, h4, h0]
    · simp [h1]
  · simp [hviol]
  · simp [hviol.1, hviol.2]


/-- Witness of C7: a final frame in state `bottom` is rejected. -/
theorem push_msg_rejects_witness :
    violates_envelope demo_session.state frame_hello ∧
    demo_session.push_msg frame_hello = (.err .EFAULT, demo_session) :=
  ⟨by simp [violates_envelope, demo_session, frame_hello, msg_t.more],
   push_msg_rejects demo_session frame_hello
    (by simp [violates_envelope, demo_session, frame_hello, msg_t.more])⟩

/-! ### Socket poller: the output buffer -/

open socket_poller_t

/-- Writing a slot keeps the length of the buffer. -/
theorem write_event_length (buf : List event_t) (k : Nat) (f : event_t → event_t) :
    (write_event buf k f).length = buf.length := by
  unfold write_event
  split <;> simp

/-- What a write leaves in each slot. -/
theorem write_event_getElem? (buf : List event_t) (k i : Nat) (f : event_t → event_t) :
    (write_event buf k f)[i]? = if i = k then buf[k]?.map f else buf[i]? := by
  unfold write_event
  by_cases hik : i = k
  · subst hik
    cases h : buf[i]? with
    | none => simp [h]
    | some e =>
      have hlt : i < buf.length := by
        rcases List.getElem?_eq_some_iff.mp h with ⟨hlt, _⟩
        exact hlt
      simp [h, List.getElem?_set, hlt]
  · cases h : buf[k]? with
    | none => simp [hik]
    | some e =>
      have : ¬ k = i := fun h => hik h.symm
      simp [hik, List.getElem?_set, this]

/-- The loop of `zero_trail_events` after `m` iterations. -/
theorem zero_trail_fold (buf : List event_t) (found : Nat) :
    ∀ (m i : Nat),
    ((List.range m).foldl
      (fun (b : List event_t) (j : Nat) =>
        write_event b ((found : Int) + Int.ofNat j).toNat (fun _ => event_t.cleared))
      buf)[i]? =
    if found ≤ i ∧ i < found + m then buf[i]?.map (fun _ => event_t.cleared) else buf[i]? := by
  intro m
  induction m with
  | zero =>
    intro i
    have : ¬ (found ≤ i ∧ i < found + 0) := by omega
    rw [if_neg this]
    simp
  | succ k ih =>
    intro i
    rw [List.range_succ, List.foldl_append]
    simp only [List.foldl_cons, List.foldl_nil]
    rw [write_event_getElem?]
    have hk : ((found : Int) + Int.ofNat k).toNat = found + k := by
      simp only [Int.ofNat_eq_coe]; omega
    rw [hk]
    by_cases hik : i = found + k
    · subst hik
      have h1 : ¬ (found ≤ found + k ∧ found + k < found + k) := by omega
      have h2 : found ≤ found + k ∧ found + k < found + (k + 1) := by omega
      rw [if_pos rfl, ih, if_neg h1, if_pos h2]
    · rw [if_neg hik, ih]
      by_cases h1 : found ≤ i ∧ i < found + k
      · have : found ≤ i ∧ i < found + (k + 1) := ⟨h1.1, by omega⟩
        rw [if_pos h1, if_pos this]
      · have : ¬ (found ≤ i ∧ i < found + (k + 1)) := by
          intro h; apply h1; exact ⟨h.1, by omega⟩
        rw [if_neg h1, if_neg this]

/-- What `zero_trail_events` leaves in each slot. -/
theorem zero_trail_events_getElem? (buf : List event_t) (n_events_ : Int) (found i : Nat) :
    (zero_trail_events buf n_events_ found)[i]? =
    if found ≤ i ∧ (i : Int) < n_events_ then buf[i]?.map (fun _ => event_t.cleared)
    else buf[i]? := by
  unfold zero_trail_events
  rw [zero_trail_fold]
  by_cases h : found ≤ i ∧ (i : Int) < n_events_
  · have : found ≤ i ∧ i < found + (n_events_ - (found : Int)).toNat := ⟨h.1, by omega⟩
    rw [if_pos h, if_pos this]
  · have : ¬ (found ≤ i ∧ i < found + (n_events_ - (found : Int)).toNat) := by
      intro h'; apply h; exact ⟨h'.1, by omega⟩
    rw [if_neg h, if_neg this]

/-- The scan never lowers the count, stops at the capacity, and leaves the buffer alone when
it finds nothing. -/
theorem check_events_loop_props (sock_events : socket_id → query_t Nat)
    (raw_events : item_t → Nat) (n_events_ : Int) :
    ∀ (items : List item_t) (buf : List event_t) (found0 f : Nat) (scanned : List event_t),
    check_events_loop sock_events raw_events items buf n_events_ found0 = (.ok f, scanned) →
    found0 ≤ f ∧ (f = found0 → scanned = buf) ∧ (f = found0 ∨ (f : Int) ≤ n_events_) ∧
    scanned.length = buf.length := by
  intro items
  induction items with
  | nil =>
    intro buf found0 f scanned h
    simp only [check_events_loop, Prod.mk.injEq, Res.ok.injEq] at h
    obtain ⟨rfl, rfl⟩ := h
    simp
  | cons it rest ih =>
    intro buf found0 f scanned h
    unfold check_events_loop at h
    by_cases hlt : (found0 : Int) < n_events_
    · rw [if_pos hlt] at h
      cases hs : it.socket with
      | some sock =>
        simp only [hs] at h
        cases hq : sock_events sock with
        | failed e => simp [hq] at h
        | value ev =>
          simp only [hq] at h
          by_cases hev : it.events &&& ev ≠ 0
          · rw [if_pos hev] at h
            obtain ⟨h1, _, h3, h4⟩ := ih _ _ _ _ h
            rw [write_event_length] at h4
            refine ⟨by omega, fun hf => by omega, ?_, h4⟩
            rcases h3 with h3 | h3
            · right; omega
            · right; exact h3
          · rw [if_neg hev] at h
            exact ih _ _ _ _ h
      | none =>
        simp only [hs] at h
        by_cases hev : raw_events it ≠ 0
        · rw [if_pos hev] at h
          obtain ⟨h1, _, h3, h4⟩ := ih _ _ _ _ h
          rw [write_event_length] at h4
          refine ⟨by omega, fun hf => by omega, ?_, h4⟩
          rcases h3 with h3 | h3
          · right; omega
          · right; exact h3
        · rw [if_neg hev] at h
          exact ih _ _ _ _ h
    · rw [if_neg hlt] at h
      simp only [Prod.mk.injEq, Res.ok.injEq] at h
      obtain ⟨rfl, rfl⟩ := h
      simp


/-- A count returned by the loop of `wait` (array-based backend) is the non-zero count of a
scan of the unchanged buffer, and the buffer returned is that of the scan with its trail
cleared. -/
theorem wait_poll_loop_found (cfg : config_t) (env : env_t) (n_events_ timeout_ : Int) :
    ∀ (fuel k : Nat) (p : socket_poller_t) (t : timer_t) (buf : List event_t)
      (calls : List os_call) (r : wait_result) (F : Nat),
    wait_poll_loop cfg env n_events_ timeout_ fuel k p t buf calls = some r →
    r.rc = .ok F →
    F ≠ 0 ∧ r.poller.items = p.items ∧
    ∃ (k1 : Nat) (raw : item_t → Nat) (scanned : List event_t),
      check_events_loop (env.events k1) raw p.items buf n_events_ 0 = (.ok F, scanned) ∧
      r.events = zero_trail_events scanned n_events_ F := by
  intro fuel
  induction fuel with
  | zero => intro k p t buf calls r F h; simp [wait_poll_loop] at h
  | succ n ih =>
    intro k p t buf calls r F h hrc
    unfold wait_poll_loop at h
    simp only at h
    split at h
    · split at h <;> (cases h; simp at hrc)
    · split at h
      · cases h; simp at hrc
      · split at h
        · rename_i found events1 hce
          split at h
          · cases h
            simp only [Res.ok.injEq] at hrc
            subst hrc
            rename_i hne
            exact ⟨hne, rfl, k, _, events1, hce, rfl⟩
          · rename_i h0
            have h0' : found = 0 := by simpa using h0
            subst h0'
            have hb := (check_events_loop_props _ _ _ _ _ _ _ _ hce).2.1 rfl
            split at h
            · cases h; simp at hrc
            · rw [hb] at h
              have hi := ih _ _ _ _ _ _ _ h hrc
              exact hi
        · rename_i hne _
          cases h
          simp only at hrc
          exact absurd hrc (hne F)


/-- The same for the bitset backend. -/
theorem wait_select_loop_found (cfg : config_t) (env : env_t) (n_events_ timeout_ : Int) :
    ∀ (fuel k : Nat) (p : socket_poller_t) (t : timer_t) (buf : List event_t)
      (calls : List os_call) (r : wait_result) (F : Nat),
    wait_select_loop cfg env n_events_ timeout_ fuel k p t buf calls = some r →
    r.rc = .ok F →
    F ≠ 0 ∧ r.poller.items = p.items ∧
    ∃ (k1 : Nat) (raw : item_t → Nat) (scanned : List event_t),
      check_events_loop (env.events k1) raw p.items buf n_events_ 0 = (.ok F, scanned) ∧
      r.events = zero_trail_events scanned n_events_ F := by
  intro fuel
  induction fuel with
  | zero => intro k p t buf calls r F h; simp [wait_select_loop] at h
  | succ n ih =>
    intro k p t buf calls r F h hrc
    unfold wait_select_loop at h
    simp only at h
    split at h
    · split at h <;> split at h <;> (cases h; simp at hrc)
    · split at h
      · cases h; simp at hrc
      · split at h
        · cases h; simp at hrc
        · split at h
          · rename_i found events1 hce
            split at h
            · cases h
              simp only [Res.ok.injEq] at hrc
              subst hrc
              rename_i hne
              exact ⟨hne, rfl, k, _, events1, hce, rfl⟩
            · rename_i h0
              have h0' : found = 0 := by simpa using h0
              subst h0'
              have hb := (check_events_loop_props _ _ _ _ _ _ _ _ hce).2.1 rfl
              split at h
              · cases h; simp at hrc
              · rw [hb] at h
                have hi := ih _ _ _ _ _ _ _ h hrc
                exact hi
          · rename_i hne _
            cases h
            simp only at hrc
            exact absurd hrc (hne F)

/-! ### Socket poller: registration -/

/-- The search loop finds nothing exactly when no item satisfies the test. -/
theorem update_first_none (pred : item_t → Bool) (f : item_t → item_t) :
    ∀ l : List item_t, update_first pred f l = none ↔ ∀ x ∈ l, pred x = false := by
  intro l
  induction l with
  | nil => simp [update_first]
  | cons it rest ih =>
    by_cases hp : pred it = true
    · simp [update_first, hp]
    · simp [update_first, hp, ih]

/-- On success the first item that satisfies the test is updated in place. -/
theorem update_first_some (pred : item_t → Bool) (f : item_t → item_t) :
    ∀ l l1 : List item_t, update_first pred f l = some l1 →
    ∃ pre it post, l = pre ++ it :: post ∧ pred it = true ∧ (∀ x ∈ pre, pred x = false) ∧
      l1 = pre ++ f it :: post := by
  intro l
  induction l with
  | nil => intro l1 h; simp [update_first] at h
  | cons it rest ih =>
    intro l1 h
    by_cases hp : pred it = true
    · simp only [update_first, hp, if_true, Option.some.injEq] at h
      exact ⟨[], it, rest, rfl, hp, by simp, by simp [h]⟩
    · simp only [update_first, hp, Bool.false_eq_true, if_false, Option.map_eq_some'] at h
      obtain ⟨l2, h2, rfl⟩ := h
      obtain ⟨pre, it2, post, e, hp2, hpre, e2⟩ := ih l2 h2
      refine ⟨it :: pre, it2, post, by simp [e], hp2, ?_, by simp [e2]⟩
      intro x hx
      rcases List.mem_cons.mp hx with rfl | hx
      · simpa using hp
      · exact hpre x hx

/-- The search loop finds nothing exactly when no item satisfies the test. -/
theorem erase_first_none (pred : item_t → Bool) :
    ∀ l : List item_t, erase_first pred l = none ↔ ∀ x ∈ l, pred x = false := by
  intro l
  induction l with
  | nil => simp [erase_first]
  | cons it rest ih =>
    by_cases hp : pred it = true
    · simp [erase_first, hp]
    · simp [erase_first, hp, ih]

/-- On success the first item that satisfies the test is erased. -/
theorem erase_first_some (pred : item_t → Bool) :
    ∀ l l1 : List item_t, erase_first pred l = some l1 →
    ∃ pre it post, l = pre ++ it :: post ∧ pred it = true ∧ (∀ x ∈ pre, pred x = false) ∧
      l1 = pre ++ post := by
  intro l
  induction l with
  | nil => intro l1 h; simp [erase_first] at h
  | cons it rest ih =>
    intro l1 h
    by_cases hp : pred it = true
    · simp only [erase_first, hp, if_true, Option.some.injEq] at h
      exact ⟨[], it, rest, rfl, hp, by simp, by simp [h]⟩
    · simp only [erase_first, hp, Bool.false_eq_true, if_false, Option.map_eq_some'] at h
      obtain ⟨l2, h2, rfl⟩ := h
      obtain ⟨pre, it2, post, e, hp2, hpre, e2⟩ := ih l2 h2
      refine ⟨it :: pre, it2, post, by simp [e], hp2, ?_, by simp [e2]⟩
      intro x hx
      rcases List.mem_cons.mp hx with rfl | hx
      · simpa using hp
      · exact hpre x hx


/-- Unique keys, stated on the list of keys. -/
theorem unique_keys_iff_nodup (items : List item_t) :
    unique_keys items ↔ (items.map item_t.key).Nodup := by
  unfold unique_keys List.Nodup
  rw [List.pairwise_map]
  apply List.Pairwise.iff
  intro a b
  cases ha : a.socket <;> cases hb : b.socket <;> simp [item_t.key, ha, hb]

/-- An item whose socket is `s` has key `inl s`, and conversely. -/
theorem key_inl (x : item_t) (s : socket_id) : x.key = .inl s ↔ x.socket = some s := by
  cases h : x.socket <;> simp [item_t.key, h]

/-- A raw-descriptor item with descriptor `d` has key `inr d`, and conversely. -/
theorem key_inr (x : item_t) (d : fd_t) :
    x.key = .inr d ↔ (x.socket = none ∧ x.fd = d) := by
  cases h : x.socket <;> simp [item_t.key, h]

/-- With unique keys, the items after a given item have other keys. -/
theorem unique_keys_after (pre post : List item_t) (it : item_t)
    (h : unique_keys (pre ++ it :: post)) : ∀ x ∈ post, x.key ≠ it.key := by
  rw [unique_keys_iff_nodup] at h
  simp only [List.map_append, List.map_cons] at h
  have h2 := (List.nodup_append.mp h).2.1
  have h3 := (List.nodup_cons.mp h2).1
  intro x hx e
  exact h3 (e ▸ List.mem_map_of_mem _ hx)

/-- Changing the interest of an item keeps the keys. -/
theorem update_first_keys (pred : item_t → Bool) (f : item_t → item_t)
    (hf : ∀ x, (f x).key = x.key) (l l1 : List item_t)
    (h : update_first pred f l = some l1) : l1.map item_t.key = l.map item_t.key := by
  obtain ⟨pre, it, post, e, _, _, e1⟩ := update_first_some pred f l l1 h
  simp [e, e1, hf]

/-- Erasing an item leaves a sublist. -/
theorem erase_first_sublist (pred : item_t → Bool) (l l1 : List item_t)
    (h : erase_first pred l = some l1) : l1.Sublist l := by
  obtain ⟨pre, it, post, e, _, _, e1⟩ := erase_first_some pred l l1 h
  rw [e, e1]
  exact List.Sublist.append (List.Sublist.refl _) (List.sublist_cons_self _ _)

/-- Unique keys are kept by `add`. -/
theorem add_unique (env : env_t) (sig : fd_t) (p : socket_poller_t) (s : socket_id)
    (u e : Nat) (h : unique_keys p.items) : unique_keys (add env sig p s u e).2.items := by
  unfold add
  by_cases hany : p.items.any (fun it => it.socket = some s) = true
  · simp only [hany, if_true]; exact h
  · simp only [hany, Bool.false_eq_true, if_false]
    cases hts : env.thread_safe s with
    | none => exact h
    | some ts =>
      rw [unique_keys_iff_nodup] at h ⊢
      have hno : ∀ x ∈ p.items, x.socket ≠ some s := by
        intro x hx hs
        apply hany
        rw [List.any_eq_true]
        exact ⟨x, hx, by simp [hs]⟩
      have hitems : ((p.items ++ [(⟨some s, 0, u, e, -1⟩ : item_t)]).map item_t.key).Nodup := by
        simp only [List.map_append, List.map_cons, List.map_nil]
        rw [List.nodup_append]
        refine ⟨h, by simp, ?_⟩
        intro k hk hk2
        simp only [List.mem_singleton] at hk2
        obtain ⟨x, hx, rfl⟩ := List.mem_map.mp hk
        exact hno x hx ((key_inl x s).mp (by simpa [item_t.key] using hk2))
      cases ts <;> simpa using hitems

/-- Unique keys are kept by `add_fd`. -/
theorem add_fd_unique (p : socket_poller_t) (d : fd_t) (u e : Nat)
    (h : unique_keys p.items) : unique_keys (add_fd p d u e).2.items := by
  unfold add_fd
  by_cases hany : p.items.any (fun it => it.socket = none ∧ it.fd = d) = true
  · simp only [hany, if_true]; exact h
  · simp only [hany, Bool.false_eq_true, if_false]
    rw [unique_keys_iff_nodup] at h ⊢
    have hno : ∀ x ∈ p.items, ¬ (x.socket = none ∧ x.fd = d) := by
      intro x hx hs
      apply hany
      rw [List.any_eq_true]
      exact ⟨x, hx, by simp [hs.1, hs.2]⟩
    simp only [List.map_append, List.map_cons, List.map_nil]
    rw [List.nodup_append]
    refine ⟨h, by simp, ?_⟩
    intro k hk hk2
    simp only [List.mem_singleton] at hk2
    obtain ⟨x, hx, rfl⟩ := List.mem_map.mp hk
    exact hno x hx ((key_inr x d).mp (by simpa [item_t.key] using hk2))

/-- Unique keys are kept by `modify`. -/
theorem modify_unique (p : socket_poller_t) (s : socket_id) (e : Nat)
    (h : unique_keys p.items) : unique_keys (socket_poller_t.modify p s e).2.items := by
  unfold socket_poller_t.modify
  split
  · exact h
  · next items hu =>
    rw [unique_keys_iff_nodup] at h ⊢
    simp only
    rw [update_first_keys _ _ (fun x => by simp [item_t.key]) _ _ hu]
    exact h

/-- Unique keys are kept by `modify_fd`. -/
theorem modify_fd_unique (p : socket_poller_t) (d : fd_t) (e : Nat)
    (h : unique_keys p.items) : unique_keys (modify_fd p d e).2.items := by
  unfold modify_fd
  split
  · exact h
  · next items hu =>
    rw [unique_keys_iff_nodup] at h ⊢
    simp only
    rw [update_first_keys _ _ (fun x => by simp [item_t.key]) _ _ hu]
    exact h

/-- Unique keys are kept by `remove`. -/
theorem remove_unique (env : env_t) (p : socket_poller_t) (s : socket_id)
    (h : unique_keys p.items) : unique_keys (remove env p s).2.items := by
  unfold remove
  split
  · exact h
  · next items hu =>
    have hs := erase_first_sublist _ _ _ hu
    have : unique_keys items := by
      rw [unique_keys_iff_nodup] at h ⊢
      exact List.Nodup.sublist (List.Sublist.map _ hs) h
    by_cases hts : env.thread_safe s = some true
    · simp only [hts, if_true]; exact this
    · simp only [hts, if_false]; exact this

/-- Unique keys are kept by `remove_fd`. -/
theorem remove_fd_unique (p : socket_poller_t) (d : fd_t)
    (h : unique_keys p.items) : unique_keys (remove_fd p d).2.items := by
  unfold remove_fd
  split
  · exact h
  · next items hu =>
    have hs := erase_first_sublist _ _ _ hu
    rw [unique_keys_iff_nodup] at h ⊢
    exact List.Nodup.sublist (List.Sublist.map _ hs) h

/-- Unique keys are kept by every call. -/
theorem call_unique (env : env_t) (sig : fd_t) (p : socket_poller_t) (c : poller_call)
    (h : unique_keys p.items) : unique_keys (c.run env sig p).items := by
  cases c with
  | add s u e => exact add_unique env sig p s u e h
  | add_fd d u e => exact add_fd_unique p d u e h
  | modify s e => exact modify_unique p s e h
  | modify_fd d e => exact modify_fd_unique p d e h
  | remove s => exact remove_unique env p s h
  | remove_fd d => exact remove_fd_unique p d h

/-- Unique keys are kept by every sequence of calls. -/
theorem run_calls_unique (env : env_t) (sig : fd_t) (calls : List poller_call) :
    ∀ p : socket_poller_t, unique_keys p.items →
      unique_keys (run_calls env sig p calls).items := by
  induction calls with
  | nil => intro p h; exact h
  | cons c rest ih =>
    intro p h
    simp only [run_calls, List.foldl_cons]
    exact ih _ (call_unique env sig p c h)

/-- When some item satisfies the test, the first such item is the one updated. -/
theorem update_first_found (pred : item_t → Bool) (f : item_t → item_t) (l : List item_t)
    (h : ∃ x ∈ l, pred x = true) :
    ∃ pre it post, l = pre ++ it :: post ∧ pred it = true ∧ (∀ x ∈ pre, pred x = false) ∧
      update_first pred f l = some (pre ++ f it :: post) := by
  cases hu : update_first pred f l with
  | none =>
    obtain ⟨x, hx, hp⟩ := h
    have := (update_first_none pred f l).mp hu x hx
    simp [hp] at this
  | some l1 =>
    obtain ⟨pre, it, post, e, hp, hpre, e1⟩ := update_first_some pred f l l1 hu
    exact ⟨pre, it, post, e, hp, hpre, by rw [e1]⟩

/-- When some item satisfies the test, the first such item is the one erased. -/
theorem erase_first_found (pred : item_t → Bool) (l : List item_t)
    (h : ∃ x ∈ l, pred x = true) :
    ∃ pre it post, l = pre ++ it :: post ∧ pred it = true ∧ (∀ x ∈ pre, pred x = false) ∧
      erase_first pred l = some (pre ++ post) := by
  cases hu : erase_first pred l with
  | none =>
    obtain ⟨x, hx, hp⟩ := h
    have := (erase_first_none pred l).mp hu x hx
    simp [hp] at this
  | some l1 =>
    obtain ⟨pre, it, post, e, hp, hpre, e1⟩ := erase_first_some pred l l1 hu
    exact ⟨pre, it, post, e, hp, hpre, by rw [e1]⟩

/-- With unique keys, no item after a socket item has the same socket. -/
theorem unique_socket_after (pre post : List item_t) (it : item_t) (s : socket_id)
    (hs : it.socket = some s) (h : unique_keys (pre ++ it :: post)) :
    ∀ x ∈ post, x.socket ≠ some s := by
  intro x hx hxs
  apply unique_keys_after pre post it h x hx
  rw [(key_inl x s).mpr hxs, (key_inl it s).mpr hs]

/-- With unique keys, no raw-descriptor item after a raw-descriptor item has the same
descriptor. -/
theorem unique_fd_after (pre post : List item_t) (it : item_t) (d : fd_t)
    (hs : it.socket = none ∧ it.fd = d) (h : unique_keys (pre ++ it :: post)) :
    ∀ x ∈ post, ¬ (x.socket = none ∧ x.fd = d) := by
  intro x hx hxs
  apply unique_keys_after pre post it h x hx
  rw [(key_inr x d).mpr hxs, (key_inr it d).mpr hs]

/-- The contract of `modify`. -/
theorem modify_spec (p : socket_poller_t) (s : socket_id) (e : Nat) :
    ((socket_poller_t.modify p s e).1 = .err .EINVAL ↔ ∀ x ∈ p.items, x.socket ≠ some s) ∧
    ((∀ x ∈ p.items, x.socket ≠ some s) → socket_poller_t.modify p s e = (.err .EINVAL, p)) ∧
    ((∃ x ∈ p.items, x.socket = some s) →
      ∃ pre it post, p.items = pre ++ it :: post ∧ it.socket = some s ∧
        (∀ x ∈ pre, x.socket ≠ some s) ∧
        (unique_keys p.items → ∀ x ∈ post, x.socket ≠ some s) ∧
        socket_poller_t.modify p s e =
          (.ok (), { p with items := pre ++ { it with events := e } :: post,
                            need_rebuild := true })) := by
  by_cases hex : ∃ x ∈ p.items, x.socket = some s
  · obtain ⟨pre, it, post, hl, hp, hpre, hu⟩ :=
      update_first_found (fun it => it.socket = some s) (fun it => { it with events := e })
        p.items (by simpa using hex)
    have hm : socket_poller_t.modify p s e =
        (.ok (), { p with items := pre ++ { it with events := e } :: post,
                          need_rebuild := true }) := by
      simp only [socket_poller_t.modify, hu]
    have hit : it.socket = some s := by simpa using hp
    refine ⟨?_, ?_, ?_⟩
    · rw [hm]
      constructor
      · intro h; simp at h
      · intro h
        obtain ⟨x, hx, hxs⟩ := hex
        exact absurd hxs (h x hx)
    · intro h
      obtain ⟨x, hx, hxs⟩ := hex
      exact absurd hxs (h x hx)
    · intro _
      refine ⟨pre, it, post, hl, hit, ?_, ?_, hm⟩
      · intro x hx; simpa using hpre x hx
      · intro hk; rw [hl] at hk; exact unique_socket_after pre post it s hit hk
  · have hno : ∀ x ∈ p.items, x.socket ≠ some s := by
      intro x hx hxs; exact hex ⟨x, hx, hxs⟩
    have hu : update_first (fun it => decide (it.socket = some s))
        (fun it => { it with events := e }) p.items = none :=
      (update_first_none _ _ _).mpr (by intro x hx; simpa using hno x hx)
    have hm : socket_poller_t.modify p s e = (.err .EINVAL, p) := by
      simp only [socket_poller_t.modify, hu]
    refine ⟨?_, fun _ => hm, fun h => absurd h hex⟩
    rw [hm]
    exact ⟨fun _ => hno, fun _ => rfl⟩

/-- The contract of `modify_fd`. -/
theorem modify_fd_spec (p : socket_poller_t) (d : fd_t) (e : Nat) :
    ((modify_fd p d e).1 = .err .EINVAL ↔
      ∀ x ∈ p.items, ¬ (x.socket = none ∧ x.fd = d)) ∧
    ((∀ x ∈ p.items, ¬ (x.socket = none ∧ x.fd = d)) → modify_fd p d e = (.err .EINVAL, p)) ∧
    ((∃ x ∈ p.items, x.socket = none ∧ x.fd = d) →
      ∃ pre it post, p.items = pre ++ it :: post ∧ (it.socket = none ∧ it.fd = d) ∧
        (∀ x ∈ pre, ¬ (x.socket = none ∧ x.fd = d)) ∧
        (unique_keys p.items → ∀ x ∈ post, ¬ (x.socket = none ∧ x.fd = d)) ∧
        modify_fd p d e =
          (.ok (), { p with items := pre ++ { it with events := e } :: post,
                            need_rebuild := true })) := by
  by_cases hex : ∃ x ∈ p.items, x.socket = none ∧ x.fd = d
  · obtain ⟨pre, it, post, hl, hp, hpre, hu⟩ :=
      update_first_found (fun it => it.socket = none ∧ it.fd = d)
        (fun it => { it with events := e }) p.items (by simpa using hex)
    have hm : modify_fd p d e =
        (.ok (), { p with items := pre ++ { it with events := e } :: post,
                          need_rebuild := true }) := by
      simp only [modify_fd, hu]
    have hit : it.socket = none ∧ it.fd = d := by simpa using hp
    refine ⟨?_, ?_, ?_⟩
    · rw [hm]
      constructor
      · intro h; simp at h
      · intro h
        obtain ⟨x, hx, hxs⟩ := hex
        exact absurd hxs (h x hx)
    · intro h
      obtain ⟨x, hx, hxs⟩ := hex
      exact absurd hxs (h x hx)
    · intro _
      refine ⟨pre, it, post, hl, hit, ?_, ?_, hm⟩
      · intro x hx; simpa using hpre x hx
      · intro hk; rw [hl] at hk; exact unique_fd_after pre post it d hit hk
  · have hno : ∀ x ∈ p.items, ¬ (x.socket = none ∧ x.fd = d) := by
      intro x hx hxs; exact hex ⟨x, hx, hxs⟩
    have hu : update_first (fun it => decide (it.socket = none ∧ it.fd = d))
        (fun it => { it with events := e }) p.items = none :=
      (update_first_none _ _ _).mpr (by intro x hx; simpa using hno x hx)
    have hm : modify_fd p d e = (.err .EINVAL, p) := by
      simp only [modify_fd, hu]
    refine ⟨?_, fun _ => hm, fun h => absurd h hex⟩
    rw [hm]
    exact ⟨fun _ => hno, fun _ => rfl⟩

/-- The contract of `remove`. -/
theorem remove_spec (env : env_t) (p : socket_poller_t) (s : socket_id) :
    ((remove env p s).1 = .err .EINVAL ↔ ∀ x ∈ p.items, x.socket ≠ some s) ∧
    ((∀ x ∈ p.items, x.socket ≠ some s) → remove env p s = (.err .EINVAL, p)) ∧
    ((∃ x ∈ p.items, x.socket = some s) →
      ∃ pre it post, p.items = pre ++ it :: post ∧ it.socket = some s ∧
        (∀ x ∈ pre, x.socket ≠ some s) ∧
        (unique_keys p.items → ∀ x ∈ post, x.socket ≠ some s) ∧
        (remove env p s).1 = .ok () ∧
        (remove env p s).2.items = pre ++ post ∧
        (remove env p s).2.need_rebuild = true) := by
  by_cases hex : ∃ x ∈ p.items, x.socket = some s
  · obtain ⟨pre, it, post, hl, hp, hpre, hu⟩ :=
      erase_first_found (fun it => it.socket = some s) p.items (by simpa using hex)
    have hm : (remove env p s).1 = .ok () ∧ (remove env p s).2.items = pre ++ post ∧
        (remove env p s).2.need_rebuild = true := by
      simp only [remove, hu]
      by_cases hts : env.thread_safe s = some true <;> simp [hts]
    have hit : it.socket = some s := by simpa using hp
    refine ⟨?_, ?_, ?_⟩
    · rw [hm.1]
      constructor
      · intro h; simp at h
      · intro h
        obtain ⟨x, hx, hxs⟩ := hex
        exact absurd hxs (h x hx)
    · intro h
      obtain ⟨x, hx, hxs⟩ := hex
      exact absurd hxs (h x hx)
    · intro _
      refine ⟨pre, it, post, hl, hit, ?_, ?_, hm⟩
      · intro x hx; simpa using hpre x hx
      · intro hk; rw [hl] at hk; exact unique_socket_after pre post it s hit hk
  · have hno : ∀ x ∈ p.items, x.socket ≠ some s := by
      intro x hx hxs; exact hex ⟨x, hx, hxs⟩
    have hu : erase_first (fun it => decide (it.socket = some s)) p.items = none :=
      (erase_first_none _ _).mpr (by intro x hx; simpa using hno x hx)
    have hm : remove env p s = (.err .EINVAL, p) := by
      simp only [remove, hu]
    refine ⟨?_, fun _ => hm, fun h => absurd h hex⟩
    rw [hm]
    exact ⟨fun _ => hno, fun _ => rfl⟩

/-- The contract of `remove_fd`. -/
theorem remove_fd_spec (p : socket_poller_t) (d : fd_t) :
    ((remove_fd p d).1 = .err .EINVAL ↔
      ∀ x ∈ p.items, ¬ (x.socket = none ∧ x.fd = d)) ∧
    ((∀ x ∈ p.items, ¬ (x.socket = none ∧ x.fd = d)) → remove_fd p d = (.err .EINVAL, p)) ∧
    ((∃ x ∈ p.items, x.socket = none ∧ x.fd = d) →
      ∃ pre it post, p.items = pre ++ it :: post ∧ (it.socket = none ∧ it.fd = d) ∧
        (∀ x ∈ pre, ¬ (x.socket = none ∧ x.fd = d)) ∧
        (unique_keys p.items → ∀ x ∈ post, ¬ (x.socket = none ∧ x.fd = d)) ∧
        remove_fd p d = (.ok (), { p with items := pre ++ post, need_rebuild := true })) := by
  by_cases hex : ∃ x ∈ p.items, x.socket = none ∧ x.fd = d
  · obtain ⟨pre, it, post, hl, hp, hpre, hu⟩ :=
      erase_first_found (fun it => it.socket = none ∧ it.fd = d) p.items (by simpa using hex)
    have hm : remove_fd p d =
        (.ok (), { p with items := pre ++ post, need_rebuild := true }) := by
      simp only [remove_fd, hu]
    have hit : it.socket = none ∧ it.fd = d := by simpa using hp
    refine ⟨?_, ?_, ?_⟩
    · rw [hm]
      constructor
      · intro h; simp at h
      · intro h
        obtain ⟨x, hx, hxs⟩ := hex
        exact absurd hxs (h x hx)
    · intro h
      obtain ⟨x, hx, hxs⟩ := hex
      exact absurd hxs (h x hx)
    · intro _
      refine ⟨pre, it, post, hl, hit, ?_, ?_, hm⟩
      · intro x hx; simpa using hpre x hx
      · intro hk; rw [hl] at hk; exact unique_fd_after pre post it d hit hk
  · have hno : ∀ x ∈ p.items, ¬ (x.socket = none ∧ x.fd = d) := by
      intro x hx hxs; exact hex ⟨x, hx, hxs⟩
    have hu : erase_first (fun it => decide (it.socket = none ∧ it.fd = d)) p.items = none :=
      (erase_first_none _ _).mpr (by intro x hx; simpa using hno x hx)
    have hm : remove_fd p d = (.err .EINVAL, p) := by
      simp only [remove_fd, hu]
    refine ⟨?_, fun _ => hm, fun h => absurd h hex⟩
    rw [hm]
    exact ⟨fun _ => hno, fun _ => rfl⟩

/-! ### Socket poller: the timeout -/

/-- With no events on any socket and none on any raw descriptor the scan finds nothing and
leaves the buffer alone. -/
theorem check_events_loop_quiet (sock_events : socket_id → query_t Nat)
    (raw_events : item_t → Nat) (n_events_ : Int)
    (hs : ∀ s, sock_events s = .value 0) (hr : ∀ it, raw_events it = 0) :
    ∀ (items : List item_t) (buf : List event_t) (found : Nat),
    check_events_loop sock_events raw_events items buf n_events_ found = (.ok found, buf) := by
  intro items
  induction items with
  | nil => intro buf found; simp [check_events_loop]
  | cons it rest ih =>
    intro buf found
    unfold check_events_loop
    by_cases hlt : (found : Int) < n_events_
    · simp only [hlt, if_true]
      cases hsock : it.socket with
      | none => simp [hr, ih]
      | some sock => simp [hs, ih]
    · simp [hlt]

/-- After a `poll ()` that reports nothing, every entry has `revents = 0`. -/
theorem set_revents_zero (fds : List pollfd) (revs : List Nat) (h : ∀ r ∈ revs, r = 0) :
    ∀ e ∈ set_revents fds revs, e.revents = 0 := by
  intro e he
  simp only [set_revents, List.mem_map] at he
  obtain ⟨x, _, rfl⟩ := he
  simp only
  by_cases hi : x.1 < revs.length
  · rw [List.getD_eq_getElem _ _ hi]
    exact h _ (List.getElem_mem _)
  · rw [List.getD_eq_default _ _ (by omega)]

/-- A raw descriptor has no events when every `revents` it can read is 0. -/
theorem raw_events_poll_quiet (cfg : config_t) (env : env_t) (p : socket_poller_t)
    (it : item_t) (hstray : ∀ i, env.stray i = 0)
    (hfds : ∀ fds, p.pollfds = some fds → ∀ e ∈ fds, e.revents = 0) :
    raw_events_poll cfg env p it = 0 := by
  unfold raw_events_poll
  cases hp : p.pollfds with
  | none => simp [hstray]
  | some fds =>
    by_cases hi : 0 ≤ it.pollfd_index
    · cases hg : fds[it.pollfd_index.toNat]? with
      | none => simp [hi, hg, hstray]
      | some e =>
        have he : e.revents = 0 := hfds fds hp e (List.getElem?_mem hg)
        simp [hi, hg, he]
    · simp [hi, hstray]


/-- One iteration of the loop of `wait` when nothing is ready: `poll ()` is called with the
computed timeout, the scan finds nothing, and `adjust_timeout` decides between the return
with EAGAIN and the next iteration. -/
theorem wait_poll_loop_quiet_step (cfg : config_t) (env : env_t) (n_events_ : Int)
    (timeout_ : Int) (hpos : 0 < timeout_)
    (hpoll : ∀ k, ∃ revs, env.poll k = .value revs ∧ ∀ r ∈ revs, r = 0)
    (hev : ∀ k s, env.events k s = .value 0) (hstray : ∀ i, env.stray i = 0)
    (fuel k : Nat) (p : socket_poller_t) (t : timer_t) (buf : List event_t)
    (calls : List os_call) :
    ∃ p1, wait_poll_loop cfg env n_events_ timeout_ (fuel + 1) k p t buf calls =
      (if (adjust_timeout (env.now_ms k) timeout_ t).1 = 0 then
        some ⟨.err .EAGAIN, buf, p1, calls ++ [.poll (if t.first_pass then 0
          else to_int32 ((t.end_ + 2 ^ 64 - t.now % 2 ^ 64) % 2 ^ 64))]⟩
      else wait_poll_loop cfg env n_events_ timeout_ fuel (k + 1) p1
        (adjust_timeout (env.now_ms k) timeout_ t).2 buf
        (calls ++ [.poll (if t.first_pass then 0
          else to_int32 ((t.end_ + 2 ^ 64 - t.now % 2 ^ 64) % 2 ^ 64))])) := by
  obtain ⟨revs, hrevs, hzero⟩ := hpoll k
  refine ⟨{ p with pollfds := p.pollfds.map (fun fds => set_revents fds revs) }, ?_⟩
  have hneg : ¬ timeout_ < 0 := by omega
  have hfds : ∀ fds, ({ p with pollfds := p.pollfds.map (fun fds => set_revents fds revs) } :
      socket_poller_t).pollfds = some fds → ∀ e ∈ fds, e.revents = 0 := by
    intro fds hf e he
    simp only [Option.map_eq_some'] at hf
    obtain ⟨fds0, _, rfl⟩ := hf
    exact set_revents_zero fds0 revs hzero e he
  have hscan : check_events_poll cfg env k
      { p with pollfds := p.pollfds.map (fun fds => set_revents fds revs) } buf n_events_ =
      (.ok 0, buf) := by
    unfold check_events_poll
    exact check_events_loop_quiet _ _ _ (hev k)
      (fun it => raw_events_poll_quiet cfg env _ it hstray hfds) _ _ _
  rw [wait_poll_loop]
  simp only [hrevs, hneg, if_false]
  rw [hscan]
  cases hp : p.pollfds with
  | none => simp [recv_signal, hstray]
  | some fds =>
    cases hs : set_revents fds revs with
    | nil => simp [recv_signal, hs, hstray]
    | cons e tl =>
      have he : e.revents = 0 :=
        set_revents_zero fds revs hzero e (hs ▸ List.mem_cons_self _ _)
      simp [recv_signal, hs, he]


/-- A value below `2 ^ 31` is unchanged by the conversion to `int`. -/
theorem to_int32_small (v : Nat) (h : v < 2 ^ 31) : to_int32 v = (v : Int) := by
  unfold to_int32
  simp only [Nat.reducePow] at h ⊢
  have : v % 4294967296 = v := Nat.mod_eq_of_lt (by omega)
  rw [this, if_pos h]

/-- The timeout that `wait` computes when `now < end` and `end - now` fits an `int`. -/
theorem sub_wait_exact (now end_ : Nat) (h1 : now < end_) (h2 : end_ < 2 ^ 64)
    (h3 : end_ < now + 2 ^ 31) :
    to_int32 ((end_ + 2 ^ 64 - now % 2 ^ 64) % 2 ^ 64) = Int.ofNat (end_ - now) := by
  have e : (end_ + 2 ^ 64 - now % 2 ^ 64) % 2 ^ 64 = end_ - now := by
    simp only [Nat.reducePow] at h2 h3 ⊢
    have : now % 18446744073709551616 = now := Nat.mod_eq_of_lt (by omega)
    rw [this]
    omega
  rw [e, to_int32_small _ (by simp only [Nat.reducePow] at h3 ⊢; omega)]
  rfl

/-- After the first pass `adjust_timeout` reads the clock and compares it with `end`. -/
theorem adjust_timeout_later (clock : Nat) (timeout_ : Int) (hpos : 0 < timeout_)
    (now end_ : Nat) :
    adjust_timeout clock timeout_ ⟨now, end_, false⟩ =
      (if clock % 2 ^ 64 ≥ end_ then 0 else 1, ⟨clock % 2 ^ 64, end_, false⟩) := by
  have h0 : timeout_ ≠ 0 := by omega
  have h1 : ¬ timeout_ < 0 := by omega
  unfold adjust_timeout
  simp only [h0, h1, if_false, Bool.false_eq_true]
  by_cases h : clock % 2 ^ 64 ≥ end_
  · simp only [h, if_true]
  · simp only [h, if_false]

/-- In the first pass `adjust_timeout` reads the clock and sets `end = now + timeout_`. -/
theorem adjust_timeout_first (clock : Nat) (T : Nat) (hpos : 0 < T) (now end_ : Nat) :
    adjust_timeout clock (T : Int) ⟨now, end_, true⟩ =
      (1, ⟨clock % 2 ^ 64, (clock % 2 ^ 64 + T) % 2 ^ 64, false⟩) := by
  have h0 : (T : Int) ≠ 0 := by omega
  have h1 : ¬ (T : Int) < 0 := by omega
  unfold adjust_timeout
  simp only [h0, h1, if_false, if_true]
  have : (((clock % 2 ^ 64 : Nat) : Int) + (T : Int)).toNat = clock % 2 ^ 64 + T := by
    omega
  simp only [this]


/-- With nothing ready, the loop of `wait` after the first pass returns EAGAIN at the first
iteration whose clock reading has reached `end`; before that each `poll ()` is called with
`end - now`. -/
theorem wait_poll_loop_expires (cfg : config_t) (env : env_t) (n_events_ : Int) (T : Nat)
    (hT : 0 < T)
    (hpoll : ∀ k, ∃ revs, env.poll k = .value revs ∧ ∀ r ∈ revs, r = 0)
    (hev : ∀ k s, env.events k s = .value 0) (hstray : ∀ i, env.stray i = 0)
    (E : Nat) (hE : E < 2 ^ 64) (hsub : ∀ j, E < env.now_ms j + 2 ^ 31) :
    ∀ (m k : Nat) (p : socket_poller_t) (buf : List event_t) (calls : List os_call)
      (fuel : Nat),
    env.now_ms k < E →
    (∀ j, j < m → env.now_ms (k + 1 + j) < E) →
    E ≤ env.now_ms (k + 1 + m) → env.now_ms (k + 1 + m) < 2 ^ 64 →
    m + 1 ≤ fuel →
    ∃ p1, wait_poll_loop cfg env n_events_ (T : Int) fuel (k + 1) p ⟨env.now_ms k, E, false⟩
        buf calls =
      some ⟨.err .EAGAIN, buf, p1,
        calls ++ (List.range (m + 1)).map
          (fun j => os_call.poll (Int.ofNat (E - env.now_ms (k + j))))⟩ := by
  have hpos : (0 : Int) < (T : Int) := by omega
  intro m
  induction m with
  | zero =>
    intro k p buf calls fuel hk _ hexp hlt hfuel
    obtain ⟨f, rfl⟩ : ∃ f, fuel = f + 1 := ⟨fuel - 1, by omega⟩
    obtain ⟨p1, hstep⟩ := wait_poll_loop_quiet_step cfg env n_events_ (T : Int) hpos hpoll hev
      hstray f (k + 1) p ⟨env.now_ms k, E, false⟩ buf calls
    refine ⟨p1, ?_⟩
    rw [hstep, adjust_timeout_later _ _ hpos]
    have hmod : env.now_ms (k + 1) % 2 ^ 64 = env.now_ms (k + 1) := Nat.mod_eq_of_lt hlt
    have hge : env.now_ms (k + 1) % 2 ^ 64 ≥ E := by rw [hmod]; exact hexp
    simp only [hge, if_true, Bool.false_eq_true, if_false,
      sub_wait_exact _ _ hk hE (hsub k)]
    simp [List.range_succ]
  | succ m ih =>
    intro k p buf calls fuel hk hbefore hexp hlt hfuel
    obtain ⟨f, rfl⟩ : ∃ f, fuel = f + 1 := ⟨fuel - 1, by omega⟩
    obtain ⟨p1, hstep⟩ := wait_poll_loop_quiet_step cfg env n_events_ (T : Int) hpos hpoll hev
      hstray f (k + 1) p ⟨env.now_ms k, E, false⟩ buf calls
    have hk1 : env.now_ms (k + 1) < E := by simpa using hbefore 0 (by omega)
    have hmod : env.now_ms (k + 1) % 2 ^ 64 = env.now_ms (k + 1) :=
      Nat.mod_eq_of_lt (by omega)
    have hnge : ¬ env.now_ms (k + 1) ≥ E := by omega
    obtain ⟨p2, hrest⟩ := ih (k + 1) p1 buf
      (calls ++ [os_call.poll (Int.ofNat (E - env.now_ms k))]) f hk1
      (fun j hj => by have := hbefore (j + 1) (by omega); rwa [show k + 1 + (j + 1) = k + 1 + 1 + j by omega] at this)
      (by rwa [show k + 1 + 1 + m = k + 1 + (m + 1) by omega])
      (by rwa [show k + 1 + 1 + m = k + 1 + (m + 1) by omega])
      (by omega)
    refine ⟨p2, ?_⟩
    rw [hstep, adjust_timeout_later _ _ hpos]
    simp only [hmod, hnge, if_false, Bool.false_eq_true, sub_wait_exact _ _ hk hE (hsub k),
      one_ne_zero]
    rw [hrest]
    congr 2
    rw [List.range_succ_eq_map (m + 1), List.map_cons, List.map_map, List.append_assoc]
    simp only [List.singleton_append, Nat.add_zero, List.cons.injEq, true_and]
    congr 2
    apply List.map_congr_left
    intro j _
    simp only [Function.comp, Nat.succ_eq_add_one]
    rw [show k + (j + 1) = k + 1 + j by omega]

/-- With nothing ready, the loop of `wait` after the first pass has not returned while every
clock reading is below `end`. -/
theorem wait_poll_loop_pending (cfg : config_t) (env : env_t) (n_events_ : Int) (T : Nat)
    (hT : 0 < T)
    (hpoll : ∀ k, ∃ revs, env.poll k = .value revs ∧ ∀ r ∈ revs, r = 0)
    (hev : ∀ k s, env.events k s = .value 0) (hstray : ∀ i, env.stray i = 0)
    (E : Nat) (hE : E < 2 ^ 64) :
    ∀ (fuel k : Nat) (p : socket_poller_t) (now : Nat) (buf : List event_t)
      (calls : List os_call),
    (∀ j, j < fuel → env.now_ms (k + 1 + j) < E) →
    wait_poll_loop cfg env n_events_ (T : Int) fuel (k + 1) p ⟨now, E, false⟩ buf calls =
      none := by
  have hpos : (0 : Int) < (T : Int) := by omega
  intro fuel
  induction fuel with
  | zero => intro k p now buf calls _; rfl
  | succ f ih =>
    intro k p now buf calls hbefore
    obtain ⟨p1, hstep⟩ := wait_poll_loop_quiet_step cfg env n_events_ (T : Int) hpos hpoll hev
      hstray f (k + 1) p ⟨now, E, false⟩ buf calls
    have hk1 : env.now_ms (k + 1) < E := by simpa using hbefore 0 (by omega)
    have hmod : env.now_ms (k + 1) % 2 ^ 64 = env.now_ms (k + 1) :=
      Nat.mod_eq_of_lt (by omega)
    have hnge : ¬ env.now_ms (k + 1) ≥ E := by omega
    rw [hstep, adjust_timeout_later _ _ hpos]
    simp only [hmod, hnge, if_false, Bool.false_eq_true, one_ne_zero]
    exact ih (k + 1) p1 _ buf _
      (fun j hj => by have := hbefore (j + 1) (by omega); rwa [show k + 1 + (j + 1) = k + 1 + 1 + j by omega] at this)


/-- With a positive timeout, a successful rebuild and a non-empty poll set, `wait` under
`ZMQ_POLL_BASED_ON_POLL` is its loop started in the first pass. -/
theorem wait_enters_poll_loop (cfg : config_t) (env : env_t) (p p1 : socket_poller_t)
    (events_ : List event_t) (n_events_ : Int) (timeout_ : Int) (fuel : Nat)
    (hbackend : cfg.backend = .poll)
    (hreb : (if p.need_rebuild then rebuild cfg env p else .ok p) = .ok p1)
    (hsize : p1.poll_size ≠ 0) (hpos : 0 < timeout_) :
    wait cfg env p events_ n_events_ timeout_ fuel =
      wait_poll_loop cfg env n_events_ timeout_ fuel 0 p1 ⟨0, 0, true⟩ events_ [] := by
  have hneg : ¬ (p.items = [] ∧ timeout_ < 0) := by omega
  unfold wait
  rw [if_neg hneg, hreb]
  simp only [hsize, if_false, hbackend]

/-- The first pass of `wait` when nothing is ready: `poll ()` is called with timeout 0, the
clock is read and `end` is set. -/
theorem wait_first_pass (cfg : config_t) (env : env_t) (n_events_ : Int) (T : Nat)
    (hT : 0 < T) (hend : env.now_ms 0 + T < 2 ^ 64)
    (hpoll : ∀ k, ∃ revs, env.poll k = .value revs ∧ ∀ r ∈ revs, r = 0)
    (hev : ∀ k s, env.events k s = .value 0) (hstray : ∀ i, env.stray i = 0)
    (fuel : Nat) (p : socket_poller_t) (buf : List event_t) :
    ∃ p1, wait_poll_loop cfg env n_events_ (T : Int) (fuel + 1) 0 p ⟨0, 0, true⟩ buf [] =
      wait_poll_loop cfg env n_events_ (T : Int) fuel 1 p1
        ⟨env.now_ms 0, env.now_ms 0 + T, false⟩ buf [.poll 0] := by
  have hpos : (0 : Int) < (T : Int) := by omega
  obtain ⟨p1, hstep⟩ := wait_poll_loop_quiet_step cfg env n_events_ (T : Int) hpos hpoll hev
    hstray fuel 0 p ⟨0, 0, true⟩ buf []
  refine ⟨p1, ?_⟩
  have h0 : env.now_ms 0 % 2 ^ 64 = env.now_ms 0 := Nat.mod_eq_of_lt (by omega)
  have h1 : (env.now_ms 0 + T) % 2 ^ 64 = env.now_ms 0 + T := Nat.mod_eq_of_lt hend
  rw [hstep, adjust_timeout_first _ _ hT]
  simp only [h0, h1, one_ne_zero, if_false, if_true, List.nil_append, Nat.zero_add]

/-- With no items the loop of `wait` in the array-based backend never returns EFAULT. -/
theorem wait_poll_loop_empty (cfg : config_t) (env : env_t) (n_events_ timeout_ : Int) :
    ∀ (fuel k : Nat) (p : socket_poller_t) (t : timer_t) (buf : List event_t)
      (calls : List os_call) (r : wait_result),
    p.items = [] →
    wait_poll_loop cfg env n_events_ timeout_ fuel k p t buf calls = some r →
    r.rc ≠ .err .EFAULT := by
  intro fuel
  induction fuel with
  | zero => intro k p t buf calls r _ h; simp [wait_poll_loop] at h
  | succ f ih =>
    intro k p t buf calls r hp h
    rw [wait_poll_loop] at h
    cases hpoll : env.poll k with
    | failed e =>
      simp only [hpoll] at h
      split at h <;> (simp only [Option.some.injEq] at h; subst h; simp)
    | value revents =>
      simp only [hpoll] at h
      split at h
      · simp only [Option.some.injEq] at h; subst h; simp
      · have hscan : ∀ buf, check_events_poll cfg env k
            { p with pollfds := p.pollfds.map (fun fds => set_revents fds revents) } buf
            n_events_ = (.ok 0, buf) := by
          intro buf; simp [check_events_poll, hp, check_events_loop]
        rw [hscan] at h
        simp only [ne_eq, not_true_eq_false, if_false] at h
        split at h
        · simp only [Option.some.injEq] at h; subst h; simp
        · exact ih _ _ _ _ _ _ (by simpa using hp) h

/-- With no items the loop of `wait` in the bitset backend never returns EFAULT. -/
theorem wait_select_loop_empty (cfg : config_t) (env : env_t) (n_events_ timeout_ : Int) :
    ∀ (fuel k : Nat) (p : socket_poller_t) (t : timer_t) (buf : List event_t)
      (calls : List os_call) (r : wait_result),
    p.items = [] →
    wait_select_loop cfg env n_events_ timeout_ fuel k p t buf calls = some r →
    r.rc ≠ .err .EFAULT := by
  intro fuel
  induction fuel with
  | zero => intro k p t buf calls r _ h; simp [wait_select_loop] at h
  | succ f ih =>
    intro k p t buf calls r hp h
    rw [wait_select_loop] at h
    cases hsel : env.select k with
    | failed e =>
      simp only [hsel] at h
      split at h
      · split at h
        · simp only [Option.some.injEq] at h; subst h; simp_all
        · simp only [Option.some.injEq] at h; subst h; simp
      · split at h
        · next hc =>
          simp only [Option.some.injEq] at h; subst h
          rcases hc with rfl | rfl <;> simp
        · simp only [Option.some.injEq] at h; subst h; simp
    | value v =>
      obtain ⟨rin, rout, rerr⟩ := v
      simp only [hsel] at h
      split at h
      · simp only [Option.some.injEq] at h; subst h; simp
      · split at h
        · simp only [Option.some.injEq] at h; subst h; simp
        · have hscan : ∀ buf a b c, check_events_select cfg env k p buf n_events_ a b c =
              (.ok 0, buf) := by
            intro buf a b c; simp [check_events_select, hp, check_events_loop]
          rw [hscan] at h
          simp only [ne_eq, not_true_eq_false, if_false] at h
          split at h
          · simp only [Option.some.injEq] at h; subst h; simp
          · exact ih _ _ _ _ _ _ hp h


/-- A rebuild of a poller without items leaves it without items. -/
theorem rebuild_empty_items (cfg : config_t) (env : env_t) (p p1 : socket_poller_t)
    (hp : p.items = []) (h : rebuild cfg env p = .ok p1) : p1.items = [] := by
  unfold rebuild at h
  cases hb : cfg.backend with
  | poll =>
    simp only [hb, rebuild_poll, hp, count_pollfds, if_true, Res.ok.injEq] at h
    subst h; rfl
  | select =>
    simp only [hb, rebuild_select, hp, List.length_nil, find_thread_safe] at h
    simp [fill_pollsets] at h
    subst h; rfl
  | unsupported =>
    simp only [hb, Res.ok.injEq] at h
    subst h; exact hp

/-- When the poll set is empty after the rebuild, `wait` makes no call on the backend: it
returns -1 with EAGAIN, at once for timeout 0, else after `Sleep` (Windows) or
`usleep (timeout_ * 1000)`. -/
theorem wait_zero_interest (cfg : config_t) (env : env_t) (p p1 : socket_poller_t)
    (events_ : List event_t) (n_events_ : Int) (timeout_ : Int) (fuel : Nat)
    (hcheck : ¬ (p.items = [] ∧ timeout_ < 0))
    (hreb : (if p.need_rebuild then rebuild cfg env p else .ok p) = .ok p1)
    (hsize : p1.poll_size = 0) :
    wait cfg env p events_ n_events_ timeout_ fuel =
      some ⟨.err .EAGAIN, events_, p1,
        if timeout_ = 0 then []
        else if cfg.windows then [.Sleep (if timeout_ > 0 then some timeout_ else none)]
        else [.usleep (timeout_ * 1000)]⟩ := by
  unfold wait
  rw [if_neg hcheck, hreb]
  simp only [hsize, if_true]
  by_cases h0 : timeout_ = 0
  · simp [h0]
  · by_cases hw : cfg.windows = true <;> simp [h0, hw]

/-- The scan started with `found0` slots filled: it fills the next slots with the ready items
in order until the capacity is reached and leaves every other slot alone. -/
theorem check_events_loop_order (sock_events : socket_id → query_t Nat)
    (raw_events : item_t → Nat) (C : Nat) :
    ∀ (items : List item_t) (buf : List event_t) (found0 : Nat),
    (∀ it ∈ items, ∀ sock, it.socket = some sock → ∃ ev, sock_events sock = .value ev) →
    found0 ≤ C → C ≤ buf.length →
    ∃ out, check_events_loop sock_events raw_events items buf (C : Int) found0 =
        (.ok (min C (found0 + (ready_items sock_events raw_events items).length)), out) ∧
      out.length = buf.length ∧
      (∀ k, k < found0 → out[k]? = buf[k]?) ∧
      (∀ k, min C (found0 + (ready_items sock_events raw_events items).length) ≤ k →
        out[k]? = buf[k]?) ∧
      (∀ j, found0 + j < min C (found0 + (ready_items sock_events raw_events items).length) →
        ∃ it slot0, (ready_items sock_events raw_events items)[j]? = some it ∧
          buf[found0 + j]? = some slot0 ∧
          out[found0 + j]? =
            some (describes slot0 it (pending_events sock_events raw_events it))) := by
  intro items
  induction items with
  | nil =>
    intro buf found0 _ h0 _
    refine ⟨buf, ?_, rfl, fun _ _ => rfl, fun _ _ => rfl, ?_⟩
    · simp [check_events_loop, ready_items, Nat.min_eq_right h0]
    · intro j hj
      simp [ready_items] at hj
  | cons it rest ih =>
    intro buf found0 hq h0 hbuf
    have hq' : ∀ x ∈ rest, ∀ sock, x.socket = some sock → ∃ ev, sock_events sock = .value ev :=
      fun x hx => hq x (List.mem_cons_of_mem _ hx)
    by_cases hlt : found0 < C
    · have hlt' : (found0 : Int) < (C : Int) := by exact_mod_cast hlt
      -- the slot to be written exists
      obtain ⟨slot0, hslot⟩ : ∃ e, buf[found0]? = some e :=
        ⟨buf[found0], List.getElem?_eq_getElem (by omega)⟩
      by_cases hready : pending_events sock_events raw_events it ≠ 0
      · -- the item is ready: slot `found0` is written
        have hstep : check_events_loop sock_events raw_events (it :: rest) buf (C : Int) found0 =
            check_events_loop sock_events raw_events rest
              (buf.set found0 (describes slot0 it (pending_events sock_events raw_events it)))
              (C : Int) (found0 + 1) := by
          rw [check_events_loop]
          simp only [hlt', if_true]
          cases hs : it.socket with
          | none =>
            have hp : raw_events it ≠ 0 := by simpa [pending_events, hs] using hready
            simp [hp, write_event, hslot, describes, hs, pending_events]
          | some sock =>
            obtain ⟨ev, hev⟩ := hq it (List.mem_cons_self _ _) sock hs
            have hp : it.events &&& ev ≠ 0 := by
              simpa [pending_events, hs, hev] using hready
            simp [hev, hp, write_event, hslot, describes, hs, pending_events]
        have hrl : ready_items sock_events raw_events (it :: rest) =
            it :: ready_items sock_events raw_events rest := by
          simp [ready_items, List.filter_cons, hready]
        obtain ⟨out, hout, hlen, hlow, hhigh, hmid⟩ :=
          ih (buf.set found0 (describes slot0 it (pending_events sock_events raw_events it)))
            (found0 + 1) hq' (by omega) (by simpa using hbuf)
        refine ⟨out, ?_, by simpa using hlen, ?_, ?_, ?_⟩
        · rw [hstep, hout, hrl]
          simp only [List.length_cons]
          congr 3
          omega
        · intro k hk
          rw [hlow k (by omega), List.getElem?_set_ne (by omega)]
        · intro k hk
          rw [hrl, List.length_cons] at hk
          rw [hhigh k (by omega), List.getElem?_set_ne (by omega)]
        · intro j hj
          rw [hrl, List.length_cons] at hj
          cases j with
          | zero =>
            refine ⟨it, slot0, by simp [hrl], by simpa using hslot, ?_⟩
            rw [Nat.add_zero, hlow found0 (by omega),
              List.getElem?_set_eq_of_lt _ (by omega)]
          | succ j =>
            obtain ⟨it2, slot2, h1, h2, h3⟩ := hmid j (by omega)
            refine ⟨it2, slot2, by simpa [hrl] using h1, ?_, ?_⟩
            · rw [← h2, show found0 + (j + 1) = found0 + 1 + j by omega,
                List.getElem?_set_ne (by omega)]
            · rw [show found0 + (j + 1) = found0 + 1 + j by omega]
              exact h3
      · -- the item is not ready: nothing is written
        have hzero : pending_events sock_events raw_events it = 0 := by simpa using hready
        have hstep : check_events_loop sock_events raw_events (it :: rest) buf (C : Int) found0 =
            check_events_loop sock_events raw_events rest buf (C : Int) found0 := by
          rw [check_events_loop]
          simp only [hlt', if_true]
          cases hs : it.socket with
          | none =>
            have hp : raw_events it = 0 := by simpa [pending_events, hs] using hzero
            simp [hp]
          | some sock =>
            obtain ⟨ev, hev⟩ := hq it (List.mem_cons_self _ _) sock hs
            have hp : it.events &&& ev = 0 := by
              simpa [pending_events, hs, hev] using hzero
            simp [hev, hp]
        have hrl : ready_items sock_events raw_events (it :: rest) =
            ready_items sock_events raw_events rest := by
          simp [ready_items, List.filter_cons, hzero]
        rw [hstep, hrl]
        exact ih buf found0 hq' h0 hbuf
    · -- the capacity is reached
      have heq : found0 = C := by omega
      have hnlt : ¬ (found0 : Int) < (C : Int) := by omega
      refine ⟨buf, ?_, rfl, fun _ _ => rfl, fun _ _ => rfl, ?_⟩
      · rw [check_events_loop]
        simp only [hnlt, if_false]
        congr 2
        omega
      · intro j hj
        omega

/-! ### I/O thread: the mailbox -/

/-- The loop of `in_event` over `n` outcomes that are commands or EINTR, followed by EAGAIN:
it processes the commands in order and stops at the EAGAIN. -/
theorem in_event_loop_drains (mailbox : mailbox_t) :
    ∀ (n k fuel : Nat) (processed : List command_t),
    (∀ j, j < n → (∃ c, mailbox.recv (k + j) = .value c) ∨
      mailbox.recv (k + j) = .failed .EINTR) →
    mailbox.recv (k + n) = .failed .EAGAIN → n + 1 ≤ fuel →
    io_thread_t.in_event_loop mailbox fuel (k + 1) (mailbox.recv k) processed =
      some ⟨.ok (), processed ++ delivered mailbox k n, k + n + 1⟩ := by
  intro n
  induction n with
  | zero =>
    intro k fuel processed _ hlast hfuel
    obtain ⟨f, rfl⟩ : ∃ f, fuel = f + 1 := ⟨fuel - 1, by omega⟩
    rw [Nat.add_zero] at hlast
    simp [io_thread_t.in_event_loop, hlast, delivered]
  | succ n ih =>
    intro k fuel processed hres hlast hfuel
    obtain ⟨f, rfl⟩ : ∃ f, fuel = f + 1 := ⟨fuel - 1, by omega⟩
    have hrest := ih (k + 1) f
    have hres' : ∀ j, j < n → (∃ c, mailbox.recv (k + 1 + j) = .value c) ∨
        mailbox.recv (k + 1 + j) = .failed .EINTR := by
      intro j hj
      have := hres (j + 1) (by omega)
      rwa [show k + (j + 1) = k + 1 + j by omega] at this
    have hlast' : mailbox.recv (k + 1 + n) = .failed .EAGAIN := by
      rwa [show k + 1 + n = k + (n + 1) by omega]
    have hsplit : delivered mailbox k (n + 1) =
        (match mailbox.recv k with
          | .value cmd => [cmd]
          | .failed _ => []) ++ delivered mailbox (k + 1) n := by
      unfold delivered
      rw [List.range_succ_eq_map, List.filterMap_cons, List.filterMap_map]
      have : (fun j => match mailbox.recv (k + j) with
            | .value cmd => some cmd
            | .failed _ => none) ∘ Nat.succ =
          (fun j => match mailbox.recv (k + 1 + j) with
            | .value cmd => some cmd
            | .failed _ => none) := by
        funext j
        simp only [Function.comp, Nat.succ_eq_add_one]
        rw [show k + (j + 1) = k + 1 + j by omega]
      rw [this]
      cases h0 : mailbox.recv (k + 0) with
      | value c => simp [show mailbox.recv k = .value c by simpa using h0]
      | failed e => simp [show mailbox.recv k = .failed e by simpa using h0]
    rcases hres 0 (by omega) with ⟨c, hc⟩ | hintr
    · rw [Nat.add_zero] at hc
      rw [hsplit, hc]
      simp only [io_thread_t.in_event_loop]
      rw [hrest (processed ++ [c]) hres' hlast' (by omega)]
      simp [Nat.add_assoc, Nat.add_comm 1 n]
    · rw [Nat.add_zero] at hintr
      rw [hsplit, hintr]
      simp only [io_thread_t.in_event_loop, if_true]
      rw [hrest processed hres' hlast' (by omega)]
      simp [Nat.add_assoc, Nat.add_comm 1 n]

/-! ### Socket poller: claims -/

/-- C8: `add` of a socket that is already registered, and `add_fd` of a descriptor that a
raw-descriptor item already holds, return -1 with EINVAL and leave the poller unchanged: the
item sequence, `need_rebuild`, the signaler and the signaler attachments are as before. -/
theorem add_duplicate_rejected (env : env_t) (new_signaler : fd_t) (p : socket_poller_t)
    (s : socket_id) (d : fd_t) (user_data events : Nat) :
    ((∃ it ∈ p.items, it.socket = some s) →
      socket_poller_t.add env new_signaler p s user_data events = (.err .EINVAL, p)) ∧
    ((∃ it ∈ p.items, it.socket = none ∧ it.fd = d) →
      socket_poller_t.add_fd p d user_data events = (.err .EINVAL, p)) := by
  constructor
  · rintro ⟨it, hit, hs⟩
    have : p.items.any (fun it => decide (it.socket = some s)) = true :=
      List.any_eq_true.mpr ⟨it, hit, by simpa using hs⟩
    rw [socket_poller_t.add, if_pos this]
  · rintro ⟨it, hit, hs⟩
    have : p.items.any (fun it => decide (it.socket = none ∧ it.fd = d)) = true :=
      List.any_eq_true.mpr ⟨it, hit, by simpa using hs⟩
    rw [socket_poller_t.add_fd, if_pos this]

/-- Witness of C8: a second `add` of socket 11 and a second `add_fd` of descriptor 3. -/
theorem add_duplicate_rejected_witness :
    add demo_quiet 50 demo_poller_socket 11 8 2 = (.err .EINVAL, demo_poller_socket) ∧
    add_fd demo_poller_fd 3 8 2 = (.err .EINVAL, demo_poller_fd) :=
  ⟨(add_duplicate_rejected demo_quiet 50 demo_poller_socket 11 3 8 2).1
      ⟨⟨some 11, 0, 7, 1, -1⟩, by decide, rfl⟩,
   (add_duplicate_rejected demo_quiet 50 demo_poller_fd 11 3 8 2).2
      ⟨⟨none, 3, 0, 1, -1⟩, by decide, rfl, rfl⟩⟩

/-- C9 (as amended): when `wait` with capacity `n_events_` returns a count `F`, then
`0 < F <= n_events_`, the slots `F .. n_events_ - 1` of the output buffer are in the cleared
state, and the slots `0 .. F - 1` hold what the scan that found the `F` ready items wrote. -/
theorem wait_zero_fill (cfg : config_t) (env : env_t) (p : socket_poller_t)
    (events_ : List event_t) (n_events_ timeout_ : Int) (fuel : Nat) (r : wait_result)
    (F : Nat)
    (h : wait cfg env p events_ n_events_ timeout_ fuel = some r) (hrc : r.rc = .ok F)
    (hlen : n_events_ ≤ events_.length) :
    0 < F ∧ (F : Int) ≤ n_events_ ∧
    (∀ i : Nat, F ≤ i → (i : Int) < n_events_ → r.events[i]? = some event_t.cleared) ∧
    ∃ (k : Nat) (raw : item_t → Nat) (scanned : List event_t),
      check_events_loop (env.events k) raw r.poller.items events_ n_events_ 0
        = (.ok F, scanned) ∧
      ∀ i : Nat, i < F → r.events[i]? = scanned[i]? := by
  have key : F ≠ 0 ∧ ∃ (k : Nat) (raw : item_t → Nat) (scanned : List event_t),
      check_events_loop (env.events k) raw r.poller.items events_ n_events_ 0
        = (.ok F, scanned) ∧
      r.events = zero_trail_events scanned n_events_ F := by
    unfold wait at h
    split at h
    · cases h; simp at hrc
    · split at h
      · split at h
        · split at h
          · cases h; simp at hrc
          · split at h <;> (cases h; simp at hrc)
        · split at h
          · obtain ⟨h1, h2, k, raw, scanned, h3, h4⟩ :=
              wait_poll_loop_found _ _ _ _ _ _ _ _ _ _ _ _ h hrc
            exact ⟨h1, k, raw, scanned, by rw [h2]; exact h3, h4⟩
          · obtain ⟨h1, h2, k, raw, scanned, h3, h4⟩ :=
              wait_select_loop_found _ _ _ _ _ _ _ _ _ _ _ _ h hrc
            exact ⟨h1, k, raw, scanned, by rw [h2]; exact h3, h4⟩
          · cases h; simp at hrc
      · cases h; simp at hrc
  obtain ⟨hF, k, raw, scanned, hce, hev⟩ := key
  obtain ⟨_, _, hcap, hlen2⟩ := check_events_loop_props _ _ _ _ _ _ _ _ hce
  have hcap' : (F : Int) ≤ n_events_ := by
    rcases hcap with h0 | h1
    · exact absurd h0 hF
    · exact h1
  refine ⟨Nat.pos_of_ne_zero hF, hcap', ?_, k, raw, scanned, hce, ?_⟩
  · intro i hi hin
    rw [hev, zero_trail_events_getElem?, if_pos ⟨hi, hin⟩]
    have hlt : i < scanned.length := by rw [hlen2]; omega
    rw [List.getElem?_eq_getElem hlt]
    rfl
  · intro i hi
    rw [hev, zero_trail_events_getElem?, if_neg (by omega)]

/-- Witness of C9 (as amended): one ready socket, capacity 3; slots 1 and 2 are cleared. -/
theorem wait_zero_fill_witness :
    demo_wait.rc = .ok 1 ∧
    (∀ i : Nat, 1 ≤ i → (i : Int) < 3 → demo_wait.events[i]? = some event_t.cleared) :=
  ⟨rfl, (wait_zero_fill (linux .poll) demo_ready demo_poller_socket
    [demo_stale, demo_stale, demo_stale] 3 0 1 demo_wait 1 (by decide) rfl (by decide)).2.2.1⟩

/-- Counterexample to C9 as stated: with capacity 1 and a scan that finds `F = 0` ready
items, `wait` returns -1 with EAGAIN and slot 0 still holds its stale content. -/
theorem wait_zero_fill_counterexample :
    (wait (linux .poll) demo_quiet demo_poller_fd [demo_stale] 1 0 1).map
      (fun r => (r.rc, r.events,
        (check_events_poll (linux .poll) demo_quiet 0 r.poller [demo_stale] 1).1)) =
      some (.err .EAGAIN, [demo_stale], .ok 0) ∧
    demo_stale ≠ event_t.cleared := by
  decide

/-- C10 (evaluation at the failing input): in the array-based backend, with descriptor 3
registered with an all-zero interest mask, the first `wait` leaves `need_rebuild` set and a
second `wait` with no mutation in between runs `rebuild` again (two rebuilds); in the bitset
backend the same calls rebuild once. -/
theorem wait_rebuilds_twice :
    ((wait (linux .poll) demo_quiet demo_poller_idle [] 0 0 1).bind (fun r1 =>
      (wait (linux .poll) demo_quiet r1.poller [] 0 0 1).map (fun r2 =>
        (r1.rc, r1.poller.need_rebuild, r1.poller.rebuilds, r2.poller.rebuilds)))) =
      some (.err .EAGAIN, true, 1, 2) ∧
    ((wait (linux .select) demo_quiet demo_poller_idle [] 0 0 1).bind (fun r1 =>
      (wait (linux .select) demo_quiet r1.poller [] 0 0 1).map (fun r2 =>
        (r1.rc, r1.poller.need_rebuild, r1.poller.rebuilds, r2.poller.rebuilds)))) =
      some (.err .EAGAIN, false, 1, 1) := by
  decide

/-- Under the array-based backend, for a timeout `T` with `0 < T < 2 ^ 31`, a non-decreasing
clock whose first reading `c0` has `c0 + T < 2 ^ 64`, and nothing ever ready, `wait` returns
-1 with EAGAIN at the first iteration `m + 1` whose clock reading is at least
`end = c0 + T`, given enough iterations, and has not returned while all readings are below
`end`; the first `poll ()` has timeout 0 and every later one has timeout `end - now` with
`0 < end - now <= T`. -/
theorem wait_poll_timeout (cfg : config_t) (env : env_t) (p p1 : socket_poller_t)
    (events_ : List event_t) (n_events_ : Int) (T : Nat)
    (hbackend : cfg.backend = .poll)
    (hreb : (if p.need_rebuild then rebuild cfg env p else .ok p) = .ok p1)
    (hsize : p1.poll_size ≠ 0)
    (hT : 0 < T) (hint : T < 2 ^ 31)
    (hmono : ∀ i j, i ≤ j → env.now_ms i ≤ env.now_ms j)
    (hend : env.now_ms 0 + T < 2 ^ 64)
    (hpoll : ∀ k, ∃ revs, env.poll k = .value revs ∧ ∀ r ∈ revs, r = 0)
    (hev : ∀ k s, env.events k s = .value 0) (hstray : ∀ i, env.stray i = 0) :
    (∀ m, (∀ j, 1 ≤ j → j ≤ m → env.now_ms j < env.now_ms 0 + T) →
      env.now_ms 0 + T ≤ env.now_ms (m + 1) → env.now_ms (m + 1) < 2 ^ 64 →
      (∀ fuel, m + 2 ≤ fuel →
        ∃ p2, wait cfg env p events_ n_events_ (T : Int) fuel =
          some ⟨.err .EAGAIN, events_, p2,
            .poll 0 :: (List.range (m + 1)).map
              (fun j => os_call.poll (Int.ofNat (env.now_ms 0 + T - env.now_ms j)))⟩) ∧
      (∀ j, j ≤ m → 0 < env.now_ms 0 + T - env.now_ms j ∧
        env.now_ms 0 + T - env.now_ms j ≤ T)) ∧
    (∀ fuel, (∀ j, 1 ≤ j → j < fuel → env.now_ms j < env.now_ms 0 + T) →
      wait cfg env p events_ n_events_ (T : Int) fuel = none) := by
  have hpos : (0 : Int) < (T : Int) := by omega
  have hE : env.now_ms 0 + T < 2 ^ 64 := hend
  have hsub : ∀ j, env.now_ms 0 + T < env.now_ms j + 2 ^ 31 := by
    intro j
    have := hmono 0 j (Nat.zero_le j)
    omega
  constructor
  · intro m hbefore hexp hlt
    constructor
    · intro fuel hfuel
      obtain ⟨f, rfl⟩ : ∃ f, fuel = f + 1 := ⟨fuel - 1, by omega⟩
      rw [wait_enters_poll_loop cfg env p p1 events_ n_events_ _ _ hbackend hreb hsize hpos]
      obtain ⟨p2, h2⟩ := wait_first_pass cfg env n_events_ T hT hend hpoll hev hstray f p1
        events_
      obtain ⟨p3, h3⟩ := wait_poll_loop_expires cfg env n_events_ T hT hpoll hev hstray
        (env.now_ms 0 + T) hE hsub m 0 p2 events_ [.poll 0] f (by omega)
        (fun j hj => by simpa [Nat.add_comm] using hbefore (j + 1) (by omega) (by omega))
        (by simpa [Nat.add_comm] using hexp) (by simpa [Nat.add_comm] using hlt) (by omega)
      refine ⟨p3, ?_⟩
      rw [h2, h3]
      simp
    · intro j hj
      have hj0 := hmono 0 j (Nat.zero_le j)
      have : env.now_ms j < env.now_ms 0 + T := by
        rcases Nat.eq_zero_or_pos j with rfl | hpos1
        · omega
        · exact hbefore j hpos1 hj
      omega
  · intro fuel hbefore
    rw [wait_enters_poll_loop cfg env p p1 events_ n_events_ _ _ hbackend hreb hsize hpos]
    cases fuel with
    | zero => rfl
    | succ f =>
      obtain ⟨p2, h2⟩ := wait_first_pass cfg env n_events_ T hT hend hpoll hev hstray f p1
        events_
      rw [h2]
      exact wait_poll_loop_pending cfg env n_events_ T hT hpoll hev hstray
        (env.now_ms 0 + T) hE f 0 p2 _ events_ _
        (fun j hj => by simpa [Nat.add_comm] using hbefore (j + 1) (by omega) (by omega))


/-- An instance of `wait_poll_timeout`: descriptor 3 registered for input, nothing ready, a
clock that reads 0, 1, 2, 3 and `T = 3`: `wait` calls `poll ()` with 0, 3, 2 and 1 and returns
EAGAIN at the iteration that reads 3. -/
theorem wait_poll_timeout_example :
    ∃ p2, wait (linux .poll) demo_quiet demo_poller_fd [demo_stale] 1 3 4 =
      some ⟨.err .EAGAIN, [demo_stale], p2, [.poll 0, .poll 3, .poll 2, .poll 1]⟩ :=
  ((wait_poll_timeout (linux .poll) demo_quiet demo_poller_fd demo_poller_built [demo_stale]
    1 3 rfl rfl (by decide) (by decide) (by decide) (fun _ _ h => h) (by decide)
    (fun _ => ⟨[], rfl, by simp⟩) (fun _ _ => rfl) (fun _ => rfl)).1 2
    (fun j _ h2 => by show j < 0 + 3; omega) (by decide) (by decide)).1 4 (by decide)

/-- C11 (evaluation at the failing input): descriptor 3 is registered for input, nothing is
ready, the clock reads 0 after the first pass and the timeout is `T = 2 ^ 31` ms.  In the
array-based backend `int timeout = end - now` is `-2 ^ 31`, and that is what the second
`poll ()` is called with: the sub-wait is not in `(0, T]`.  In the bitset backend the same
call passes `end - now` to `select ()` exactly, as 2147483 s and 648000 us.  With
`T = 2 ^ 31 - 1` the array-based backend passes `end - now = T`. -/
theorem wait_timeout_truncates :
    (wait (linux .poll) demo_jump demo_poller_fd [demo_stale] 1 2147483648 2).map
        (fun r => (r.rc, r.calls)) =
      some (.err .EAGAIN, [.poll 0, .poll (-2147483648)]) ∧
    (wait (linux .select) demo_jump demo_poller_fd [demo_stale] 1 2147483648 2).map
        (fun r => (r.rc, r.calls)) =
      some (.err .EAGAIN, [.select (some (0, 0)), .select (some (2147483, 648000))]) ∧
    (wait (linux .poll) demo_jump demo_poller_fd [demo_stale] 1 2147483647 2).map
        (fun r => (r.rc, r.calls)) =
      some (.err .EAGAIN, [.poll 0, .poll 2147483647]) := by
  refine ⟨?_, ?_, ?_⟩ <;> decide

/-- C19: `modify`, `modify_fd`, `remove` and `remove_fd` return -1 with EINVAL exactly when no
item with that socket (no raw-descriptor item with that descriptor) is registered, and then
the poller, with its item sequence and dirty flag, is unchanged; on success the first matching
item, which under unique keys is the only one, has its interest replaced (modify) or is erased
(remove), all other items stay in their order, and the dirty flag is set. -/
theorem poller_not_found (env : env_t) (p : socket_poller_t) (s : socket_id) (d : fd_t)
    (e : Nat) :
    (((socket_poller_t.modify p s e).1 = .err .EINVAL ↔ ∀ x ∈ p.items, x.socket ≠ some s) ∧
     ((∀ x ∈ p.items, x.socket ≠ some s) → socket_poller_t.modify p s e = (.err .EINVAL, p)) ∧
     ((∃ x ∈ p.items, x.socket = some s) →
       ∃ pre it post, p.items = pre ++ it :: post ∧ it.socket = some s ∧
         (∀ x ∈ pre, x.socket ≠ some s) ∧
         (unique_keys p.items → ∀ x ∈ post, x.socket ≠ some s) ∧
         socket_poller_t.modify p s e =
           (.ok (), { p with items := pre ++ { it with events := e } :: post,
                             need_rebuild := true }))) ∧
    (((modify_fd p d e).1 = .err .EINVAL ↔
       ∀ x ∈ p.items, ¬ (x.socket = none ∧ x.fd = d)) ∧
     ((∀ x ∈ p.items, ¬ (x.socket = none ∧ x.fd = d)) →
       modify_fd p d e = (.err .EINVAL, p)) ∧
     ((∃ x ∈ p.items, x.socket = none ∧ x.fd = d) →
       ∃ pre it post, p.items = pre ++ it :: post ∧ (it.socket = none ∧ it.fd = d) ∧
         (∀ x ∈ pre, ¬ (x.socket = none ∧ x.fd = d)) ∧
         (unique_keys p.items → ∀ x ∈ post, ¬ (x.socket = none ∧ x.fd = d)) ∧
         modify_fd p d e =
           (.ok (), { p with items := pre ++ { it with events := e } :: post,
                             need_rebuild := true }))) ∧
    (((remove env p s).1 = .err .EINVAL ↔ ∀ x ∈ p.items, x.socket ≠ some s) ∧
     ((∀ x ∈ p.items, x.socket ≠ some s) → remove env p s = (.err .EINVAL, p)) ∧
     ((∃ x ∈ p.items, x.socket = some s) →
       ∃ pre it post, p.items = pre ++ it :: post ∧ it.socket = some s ∧
         (∀ x ∈ pre, x.socket ≠ some s) ∧
         (unique_keys p.items → ∀ x ∈ post, x.socket ≠ some s) ∧
         (remove env p s).1 = .ok () ∧
         (remove env p s).2.items = pre ++ post ∧
         (remove env p s).2.need_rebuild = true)) ∧
    (((remove_fd p d).1 = .err .EINVAL ↔
       ∀ x ∈ p.items, ¬ (x.socket = none ∧ x.fd = d)) ∧
     ((∀ x ∈ p.items, ¬ (x.socket = none ∧ x.fd = d)) → remove_fd p d = (.err .EINVAL, p)) ∧
     ((∃ x ∈ p.items, x.socket = none ∧ x.fd = d) →
       ∃ pre it post, p.items = pre ++ it :: post ∧ (it.socket = none ∧ it.fd = d) ∧
         (∀ x ∈ pre, ¬ (x.socket = none ∧ x.fd = d)) ∧
         (unique_keys p.items → ∀ x ∈ post, ¬ (x.socket = none ∧ x.fd = d)) ∧
         remove_fd p d = (.ok (), { p with items := pre ++ post, need_rebuild := true }))) :=
  ⟨modify_spec p s e, modify_fd_spec p d e, remove_spec env p s, remove_fd_spec p d⟩

/-- C20: in every poller state reachable from the empty poller by a sequence of add, add_fd,
modify, modify_fd, remove and remove_fd calls, successful or failed, no two items have the
same socket and no two raw-descriptor items have the same descriptor. -/
theorem poller_keys_unique (env : env_t) (new_signaler : fd_t) (calls : List poller_call) :
    unique_keys (run_calls env new_signaler socket_poller_t.init calls).items :=
  run_calls_unique env new_signaler calls _ (by simp [unique_keys, socket_poller_t.init])

/-- C21: with no registered item and a negative timeout `wait` returns -1 with EFAULT at
once: the output buffer and the poller (with its rebuild counter) are unchanged and no call
is made on the backend; with no registered item and a timeout `>= 0` the result of `wait` is
never EFAULT. -/
theorem wait_empty_infinite (cfg : config_t) (env : env_t) (p : socket_poller_t)
    (events_ : List event_t) (n_events_ : Int) (timeout_ : Int) (fuel : Nat)
    (hempty : p.items = []) :
    (timeout_ < 0 →
      wait cfg env p events_ n_events_ timeout_ fuel =
        some ⟨.err .EFAULT, events_, p, []⟩) ∧
    (0 ≤ timeout_ → ∀ r, wait cfg env p events_ n_events_ timeout_ fuel = some r →
      r.rc ≠ .err .EFAULT) := by
  constructor
  · intro hneg
    simp [wait, hempty, hneg]
  · intro hpos r h
    have hno : ¬ (p.items = [] ∧ timeout_ < 0) := by omega
    unfold wait at h
    rw [if_neg hno] at h
    cases hreb : (if p.need_rebuild then rebuild cfg env p else .ok p) with
    | abort => simp only [hreb, Option.some.injEq] at h; subst h; simp
    | err e => simp only [hreb, Option.some.injEq] at h; subst h; simp
    | ok p1 =>
      have hp1 : p1.items = [] := by
        by_cases hn : p.need_rebuild = true
        · simp only [hn, if_true] at hreb
          exact rebuild_empty_items cfg env p p1 hempty hreb
        · have hn2 : p.need_rebuild = false := by simpa using hn
          simp only [hn2, Bool.false_eq_true, if_false, Res.ok.injEq] at hreb
          subst hreb; exact hempty
      simp only [hreb] at h
      split at h
      · split at h
        · simp only [Option.some.injEq] at h; subst h; simp
        · split at h <;> (simp only [Option.some.injEq] at h; subst h; simp)
      · cases hb : cfg.backend with
        | poll =>
          simp only [hb] at h
          exact wait_poll_loop_empty cfg env n_events_ timeout_ _ _ _ _ _ _ r hp1 h
        | select =>
          simp only [hb] at h
          exact wait_select_loop_empty cfg env n_events_ timeout_ _ _ _ _ _ _ r hp1 h
        | unsupported =>
          simp only [hb, Option.some.injEq] at h; subst h; simp

/-- Witness of C21: the poller after construction, with timeout -1 and with timeout 0. -/
theorem wait_empty_infinite_witness :
    wait (linux .poll) demo_quiet socket_poller_t.init [demo_stale] 1 (-1) 1 =
      some ⟨.err .EFAULT, [demo_stale], socket_poller_t.init, []⟩ ∧
    ∀ r, wait (linux .poll) demo_quiet socket_poller_t.init [demo_stale] 1 0 1 = some r →
      r.rc ≠ .err .EFAULT :=
  ⟨(wait_empty_infinite (linux .poll) demo_quiet socket_poller_t.init [demo_stale] 1 (-1) 1
      rfl).1 (by decide),
   (wait_empty_infinite (linux .poll) demo_quiet socket_poller_t.init [demo_stale] 1 0 1
      rfl).2 (by decide)⟩

/-- C22 (evaluation at the failing input): descriptor 3 is registered with an all-zero
interest mask, so the poll set is empty after the rebuild, and the timeout is -1 (infinite).
Outside Windows `wait` calls `usleep (-1000)` and then returns -1 with EAGAIN; the Windows
branch calls `Sleep (INFINITE)`.  With timeout 5 both sleep for 5 ms. -/
theorem wait_zero_interest_negative :
    (wait (linux .poll) demo_quiet demo_poller_idle [] 0 (-1) 1).map
      (fun r => (r.rc, r.poller.poll_size, r.calls)) =
      some (.err .EAGAIN, 0, [.usleep (-1000)]) ∧
    (wait demo_windows demo_quiet demo_poller_idle [] 0 (-1) 1).map
      (fun r => (r.rc, r.poller.poll_size, r.calls)) =
      some (.err .EAGAIN, 0, [.Sleep none]) ∧
    (wait (linux .poll) demo_quiet demo_poller_idle [] 0 5 1).map
      (fun r => (r.rc, r.poller.poll_size, r.calls)) =
      some (.err .EAGAIN, 0, [.usleep 5000]) ∧
    (wait demo_windows demo_quiet demo_poller_idle [] 0 5 1).map
      (fun r => (r.rc, r.poller.poll_size, r.calls)) =
      some (.err .EAGAIN, 0, [.Sleep (some 5)]) := by
  decide

/-- C23: when no readiness query fails, the scan with capacity `C` over a buffer of at least
`C` slots returns `found = min (C, number of ready items)`; slot `k < found` describes the
`k`-th ready item in registration order, with the user data of that item; for a socket item
the reported events are the interest mask AND the pending events, which is not zero; the
slots from `found` on are not written. -/
theorem check_events_order (sock_events : socket_id → query_t Nat)
    (raw_events : item_t → Nat) (items : List item_t) (buf : List event_t) (C : Nat)
    (hq : ∀ it ∈ items, ∀ sock, it.socket = some sock → ∃ ev, sock_events sock = .value ev)
    (hbuf : C ≤ buf.length) :
    ∃ out, check_events_loop sock_events raw_events items buf (C : Int) 0 =
        (.ok (min C (ready_items sock_events raw_events items).length), out) ∧
      (∀ k, k < min C (ready_items sock_events raw_events items).length →
        ∃ it slot0 slot, (ready_items sock_events raw_events items)[k]? = some it ∧
          buf[k]? = some slot0 ∧ out[k]? = some slot ∧
          slot = describes slot0 it (pending_events sock_events raw_events it) ∧
          slot.socket = it.socket ∧ slot.user_data = it.user_data ∧
          (it.socket = none → slot.fd = it.fd) ∧ slot.events ≠ 0 ∧
          (∀ sock ev, it.socket = some sock → sock_events sock = .value ev →
            slot.events = it.events &&& ev)) ∧
      (∀ k, min C (ready_items sock_events raw_events items).length ≤ k →
        out[k]? = buf[k]?) := by
  obtain ⟨out, hout, _, _, hhigh, hmid⟩ :=
    check_events_loop_order sock_events raw_events C items buf 0 hq (Nat.zero_le _) hbuf
  simp only [Nat.zero_add] at hout hhigh hmid
  refine ⟨out, by simpa using hout, ?_, hhigh⟩
  intro k hk
  obtain ⟨it, slot0, h1, h2, h3⟩ := hmid k hk
  have hmem : it ∈ ready_items sock_events raw_events items := List.getElem?_mem h1
  have hne : pending_events sock_events raw_events it ≠ 0 := by
    simpa [ready_items] using (List.mem_filter.mp hmem).2
  refine ⟨it, slot0, _, h1, h2, h3, rfl, ?_, ?_, ?_, ?_, ?_⟩
  · cases hs : it.socket <;> simp [describes, hs]
  · cases hs : it.socket <;> simp [describes, hs]
  · intro hs; simp [describes, hs]
  · cases hs : it.socket <;> simpa [describes, hs] using hne
  · intro sock ev hs hev
    simp [describes, hs, pending_events, hev]

/-- Witness of C23: socket 11, registered for input with user data 7, is readable; the scan
with capacity 1 returns 1 and slot 0 holds the socket, its user data and the event. -/
theorem check_events_order_witness :
    ∃ out, check_events_loop (demo_ready.events 0) (fun _ => 0) demo_poller_socket.items
        [demo_stale] 1 0 = (.ok 1, out) ∧
      out[0]? = some { demo_stale with socket := some 11, user_data := 7, events := 1 } := by
  obtain ⟨out, h1, h2, _⟩ := check_events_order (demo_ready.events 0) (fun _ => 0)
    demo_poller_socket.items [demo_stale] 1 (fun _ _ _ _ => ⟨_, rfl⟩) (by decide)
  have hr : ready_items (demo_ready.events 0) (fun _ => 0) demo_poller_socket.items =
      demo_poller_socket.items := by decide
  rw [hr] at h1 h2
  obtain ⟨it, slot0, slot, e1, e2, e3, e4, _⟩ := h2 0 (by decide)
  have hit : it = ⟨some 11, 0, 7, 1, -1⟩ := by
    have : demo_poller_socket.items[0]? = some ⟨some 11, 0, 7, 1, -1⟩ := by decide
    rw [this] at e1; exact (Option.some.inj e1).symm
  have hs0 : slot0 = demo_stale := by
    simp at e2; exact e2.symm
  subst hit hs0
  refine ⟨out, h1, ?_⟩
  rw [e3, e4]
  decide

/-- C24: when the non-blocking receives on the mailbox yield `n` outcomes, each a command or
a failure with EINTR, and then a failure with EAGAIN, `in_event` returns (given `n + 1`
evaluations of its loop condition) with its final assertion satisfied: `process_command` has
been called for exactly the delivered commands, once each and in delivery order, the loop
went on after every EINTR, and the receive that failed with EAGAIN was the last one. -/
theorem in_event_drains (mailbox : mailbox_t) (n fuel : Nat)
    (hres : ∀ j, j < n → (∃ c, mailbox.recv j = .value c) ∨
      mailbox.recv j = .failed .EINTR)
    (hlast : mailbox.recv n = .failed .EAGAIN) (hfuel : n + 1 ≤ fuel) :
    io_thread_t.in_event mailbox fuel = some ⟨.ok (), delivered mailbox 0 n, n + 1⟩ := by
  have h := in_event_loop_drains mailbox n 0 fuel []
    (fun j hj => by simpa using hres j hj) (by simpa using hlast) hfuel
  simpa [io_thread_t.in_event] using h

/-- Witness of C24: a command, an EINTR, a command, then EAGAIN. -/
theorem in_event_drains_witness :
    io_thread_t.in_event demo_mailbox 4 = some ⟨.ok (), [⟨1, 10⟩, ⟨2, 20⟩], 4⟩ :=
  in_event_drains demo_mailbox 3 4
    (fun j hj => by interval_cases j <;> simp [demo_mailbox]) (by decide) (by decide)

/-- C28 (evaluation at the failing inputs), array-based backend.  Descriptors 3 and 4 are
registered for input and polled once; then the interest of descriptor 3 is set to 0.  The next
`wait` rebuilds: the only entry is that of descriptor 4, at index 0, and the item of
descriptor 3 keeps its old index 0; `poll ()` reports input on the entry and `wait` reports an
event for descriptor 3, whose interest mask is 0, read from the entry of descriptor 4.
Second, with descriptor 4 added with interest 0 its index after the rebuild is -1, and the
scan reads outside the array for it. -/
theorem check_events_stale_index :
    ((wait (linux .poll) demo_fd_ready demo_poller_cleared [demo_stale, demo_stale] 2 0 1).map
      (fun r => (r.rc, r.events)) =
      some (.ok 2, [⟨none, 3, 0, 1⟩, ⟨none, 4, 0, 1⟩]) ∧
    (wait (linux .poll) demo_fd_ready demo_poller_cleared [demo_stale, demo_stale] 2 0 1).map
      (fun r => (r.poller.poll_size, r.poller.pollfds,
        r.poller.items.map (fun it => (it.fd, it.events, it.pollfd_index)))) =
      some (1, some [⟨4, 1, 1⟩], [(3, 0, 0), (4, 1, 0)])) ∧
    ((wait (linux .poll) demo_stray demo_poller_mixed [demo_stale, demo_stale] 2 0 1).map
      (fun r => (r.rc, r.events)) =
      some (.ok 1, [⟨none, 4, 0, 1⟩, event_t.cleared]) ∧
    (wait (linux .poll) demo_stray demo_poller_mixed [demo_stale, demo_stale] 2 0 1).map
      (fun r => (r.poller.poll_size, r.poller.pollfds,
        r.poller.items.map (fun it => (it.fd, it.events, it.pollfd_index)))) =
      some (1, some [⟨3, 1, 0⟩], [(3, 1, 0), (4, 0, -1)])) := by
  refine ⟨⟨?_, ?_⟩, ?_, ?_⟩ <;> decide

/-- C29: for a frame that passes the grammar check, `push_msg` returns what `push_msg` of the
base session returns, hands the frame to the base session, and leaves the state advanced
(bottom to request_id or body, request_id to body, body to body or bottom) whether or not the
base session fails; the state after `push_msg` depends on the state before and on the flags
and the size of the frame only; `reset` leaves the state bottom from every state. -/
theorem push_msg_commits (s : req_session_t) (m : msg_t) :
    (¬ violates_envelope s.state m →
      (s.push_msg m).1 = (s.base.push_msg m).1 ∧
      (s.push_msg m).2.base = (s.base.push_msg m).2 ∧
      session_steps s.state [m] = some (s.push_msg m).2.state) ∧
    (∀ e, ¬ violates_envelope s.state m → s.base.rc s.base.pushed.length = some e →
      (s.push_msg m).1 = .err e ∧
      session_steps s.state [m] = some (s.push_msg m).2.state) ∧
    (∀ (s2 : req_session_t) (m2 : msg_t), s2.state = s.state → m2.flags = m.flags →
      m2.size = m.size → (s2.push_msg m2).2.state = (s.push_msg m).2.state) ∧
    (∀ base_reset, (req_session_t.reset base_reset s).state = .bottom ∧
      (req_session_t.reset base_reset s).base = base_reset s.base) := by
  have key : ¬ violates_envelope s.state m →
      (s.push_msg m).1 = (s.base.push_msg m).1 ∧
      (s.push_msg m).2.base = (s.base.push_msg m).2 ∧
      session_steps s.state [m] = some (s.push_msg m).2.state := by
    intro hv
    cases hst : s.state with
    | bottom =>
      simp only [hst, violates_envelope, not_not] at hv
      obtain ⟨hf, h4 | h0⟩ := hv
      · simp [req_session_t.push_msg, hst, hf, h4, session_steps]
      · have h4 : m.size ≠ 4 := by omega
        simp [req_session_t.push_msg, hst, hf, h4, h0, session_steps]
    | request_id =>
      simp only [hst, violates_envelope, not_not] at hv
      simp [req_session_t.push_msg, hst, hv, session_steps]
    | body =>
      simp only [hst, violates_envelope, not_and_or, not_not] at hv
      rcases hv with hf | hf
      · simp [req_session_t.push_msg, hst, hf, session_steps]
      · have hne : ¬ (0 = msg_t.more) := by decide
        simp [req_session_t.push_msg, hst, hf, hne, session_steps]
  refine ⟨key, ?_, ?_, ?_⟩
  · intro e hv he
    obtain ⟨h1, _, h3⟩ := key hv
    refine ⟨?_, h3⟩
    rw [h1]
    simp [session_base_t.push_msg, he]
  · intro s2 m2 hs hf hz
    unfold req_session_t.push_msg
    rw [hs, hf, hz]
    cases s.state <;> (simp only; split_ifs <;> simp_all)
  · intro base_reset
    exact ⟨rfl, rfl⟩

end zmq
